import Mathlib

/-!
# Shortia: subtitle filter builder, font resolver and processing stages

A shallow embedding of `backend/services/processing_service.go`
(`resolveFontPath`, `buildSubtitlesFilter`, `parseColorToFFmpeg`,
`parseColorWithAlpha`, `clampFloat`, `absInt`, `TranscribeVideo`,
`AnalyzeTranscript` and its two backends, `CreateClip`, `ExtractClipOnly`), of
the clip store of `backend/services/clip_service.go` and of the background
job of `ProcessVideoHandler` in `backend/api/handlers.go`, together with the
properties proved about them.

Conventions of the embedding

* Go `string` is `String` (a sequence of Unicode scalar values; the strings
  reach the code from `encoding/json`, which only yields valid UTF-8).
* Go `int` is `Int` restricted to the 64-bit range; every arithmetic
  operation of the source on `int` is wrapped with `wrapInt` (two's
  complement, as on amd64/arm64).
* Go `float64` is `ℚ`: every finite binary64 value is a rational, and each
  floating-point operation of the source is the exact operation followed by
  `f64`, rounding to the nearest binary64 value (ties to even).  Infinities,
  NaN and the sign of zero are outside the model; `encoding/json` never
  produces the first two.  `f64` has no largest value: where Go overflows
  to `+Inf`, as in the difference of two times more than `MaxFloat64` apart,
  the model departs from the program, and the statements on the fade
  duration carry a bound on the window.
* Library code of the Go distribution whose tables are not expanded here
  (the non-ASCII part of `unicode.ToLower`, `fmt.Sscanf`) is taken as a
  parameter, `GoLib`.
* The outside world of the service methods (environment variables, the file
  system, external commands, the HTTP exchange, JSON decoding, the clock and
  the identity generator) is the parameter `Sys`; a method returns, next to
  its result, the commands it ran and the requests it sent (`Effect`).
* The background job is a function from the results of the service calls
  (`Pipeline`) to the sequence of calls it makes (`Step`) and the final
  video record.
-/

namespace Shortia

/-! ## Go library -/

/-- Parts of the Go standard library that the development is parametric in. -/
structure GoLib where
  /-- `unicode.To(unicode.LowerCase, r)` for runes above `unicode.MaxASCII`. -/
  lowerTable : Char → Char
  /-- Values of `r, g, b` after `fmt.Sscanf(color, "rgb(%d,%d,%d)", &r, &g, &b)`. -/
  sscanRGB : String → Int × Int × Int
  /-- Values of `r, g, b` after `fmt.Sscanf(color, "rgba(%d,%d,%d,%f)", &r, &g, &b, &a)`. -/
  sscanRGBA : String → Int × Int × Int

/-- An instance of the library for evaluation: no non-ASCII case mapping,
scans that assign nothing. -/
def asciiLib : GoLib where
  lowerTable := fun r => r
  sscanRGB := fun _ => (0, 0, 0)
  sscanRGBA := fun _ => (0, 0, 0)

/-- Go's `unicode.IsSpace`: the Unicode `White_Space` property. -/
def unicodeIsSpace (r : Char) : Bool :=
  let n := r.toNat
  (9 ≤ n && n ≤ 13) || n == 0x20 || n == 0x85 || n == 0xA0 || n == 0x1680 ||
    (0x2000 ≤ n && n ≤ 0x200a) || n == 0x2028 || n == 0x2029 || n == 0x202f ||
    n == 0x205f || n == 0x3000

/-- Go's `unicode.ToLower`: ASCII letters are shifted, other ASCII runes are
kept, runes above ASCII go through the case table. -/
def unicodeToLower (lib : GoLib) (r : Char) : Char :=
  if r.toNat ≤ 0x7F then
    if 65 ≤ r.toNat ∧ r.toNat ≤ 90 then Char.ofNat (r.toNat + 32) else r
  else lib.lowerTable r

/-- Trimming of leading and trailing white space on a rune sequence. -/
def trimSpaceList (l : List Char) : List Char :=
  ((l.dropWhile unicodeIsSpace).reverse.dropWhile unicodeIsSpace).reverse

/-- Go's `strings.TrimSpace`. -/
def stringsTrimSpace (s : String) : String := ⟨trimSpaceList s.data⟩

/-- Go's `strings.ToLower`. -/
def stringsToLower (lib : GoLib) (s : String) : String := ⟨s.data.map (unicodeToLower lib)⟩

/-- Whether `p` occurs in `l` as a contiguous block. -/
def listContains : List Char → List Char → Bool
  | [], p => p.isEmpty
  | c :: cs, p => p.isPrefixOf (c :: cs) || listContains cs p

/-- Go's `strings.Contains`. -/
def stringsContains (s sub : String) : Bool := listContains s.data sub.data

/-- Go's `strings.HasPrefix`. -/
def stringsStartsWith (s pre : String) : Bool := pre.data.isPrefixOf s.data

/-- Go's `strings.TrimPrefix`. -/
def stringsDropStart (s pre : String) : String :=
  if stringsStartsWith s pre then ⟨s.data.drop pre.data.length⟩ else s

/-- Go's `strings.ReplaceAll` for a one-rune pattern. -/
def stringsReplaceAllRune (s : String) (old : Char) (new : String) : String :=
  ⟨s.data.flatMap (fun c => if c = old then new.data else [c])⟩

/-- Go's `strings.Join`. -/
def stringsJoin (parts : List String) (sep : String) : String := sep.intercalate parts

/-! ## Machine integers -/

/-- Two's-complement wrap of an integer to the 64-bit `int` range. -/
def wrapInt (x : Int) : Int := (x + 2 ^ 63) % 2 ^ 64 - 2 ^ 63

/-- Constant `math.MaxInt32`. -/
def maxInt32 : Int := 2147483647

/-- Source: `absInt`. -/
def absInt (v : Int) : Int := if v < 0 then wrapInt (-v) else v

/-! ## Font resolution -/

/-- Source: `fontVariant`. -/
structure fontVariant where
  weight : Int
  path : String
  deriving DecidableEq, Repr

/-- Source: `fontLibrary`, as the ordered list of its key/value pairs. -/
def fontLibrary : List (String × List fontVariant) :=
  [ ("default",
      [ ⟨700, "/usr/share/fonts/dejavu/DejaVuSans-Bold.ttf"⟩,
        ⟨600, "/usr/share/fonts/dejavu/DejaVuSans-Bold.ttf"⟩,
        ⟨500, "/usr/share/fonts/dejavu/DejaVuSans.ttf"⟩,
        ⟨400, "/usr/share/fonts/dejavu/DejaVuSans.ttf"⟩,
        ⟨300, "/usr/share/fonts/liberation/LiberationSans-Regular.ttf"⟩ ]),
    ("inter",
      [ ⟨700, "/usr/share/fonts/dejavu/DejaVuSans-Bold.ttf"⟩,
        ⟨600, "/usr/share/fonts/dejavu/DejaVuSans-Bold.ttf"⟩,
        ⟨500, "/usr/share/fonts/dejavu/DejaVuSans.ttf"⟩,
        ⟨400, "/usr/share/fonts/dejavu/DejaVuSans.ttf"⟩ ]),
    ("poppins",
      [ ⟨700, "/usr/share/fonts/liberation/LiberationSans-Bold.ttf"⟩,
        ⟨600, "/usr/share/fonts/liberation/LiberationSans-Bold.ttf"⟩,
        ⟨500, "/usr/share/fonts/liberation/LiberationSans-Regular.ttf"⟩,
        ⟨400, "/usr/share/fonts/liberation/LiberationSans-Regular.ttf"⟩ ]),
    ("space grotesk",
      [ ⟨700, "/usr/share/fonts/liberation/LiberationSans-Bold.ttf"⟩,
        ⟨600, "/usr/share/fonts/liberation/LiberationSans-Bold.ttf"⟩,
        ⟨500, "/usr/share/fonts/liberation/LiberationSans-Regular.ttf"⟩,
        ⟨400, "/usr/share/fonts/liberation/LiberationSans-Regular.ttf"⟩ ]),
    ("playfair display",
      [ ⟨700, "/usr/share/fonts/freefont/FreeSerifBold.ttf"⟩,
        ⟨600, "/usr/share/fonts/freefont/FreeSerifBold.ttf"⟩,
        ⟨500, "/usr/share/fonts/freefont/FreeSerif.ttf"⟩,
        ⟨400, "/usr/share/fonts/freefont/FreeSerif.ttf"⟩ ]),
    ("open sans",
      [ ⟨700, "/usr/share/fonts/liberation/LiberationSans-Bold.ttf"⟩,
        ⟨600, "/usr/share/fonts/liberation/LiberationSans-Bold.ttf"⟩,
        ⟨500, "/usr/share/fonts/liberation/LiberationSans-Regular.ttf"⟩,
        ⟨400, "/usr/share/fonts/liberation/LiberationSans-Regular.ttf"⟩ ]),
    ("courier new",
      [ ⟨700, "/usr/share/fonts/liberation/LiberationMono-Bold.ttf"⟩,
        ⟨400, "/usr/share/fonts/liberation/LiberationMono-Regular.ttf"⟩ ]),
    ("monospace",
      [ ⟨700, "/usr/share/fonts/liberation/LiberationMono-Bold.ttf"⟩,
        ⟨400, "/usr/share/fonts/liberation/LiberationMono-Regular.ttf"⟩ ]) ]

/-- Map index `fontLibrary[family]`: the table of the family, empty for a
missing key. -/
def fontLibraryAt (family : String) : List fontVariant :=
  (fontLibrary.lookup family).getD []

/-- Map membership `_, ok := fontLibrary[family]`. -/
def fontLibraryHas (family : String) : Bool :=
  (fontLibrary.lookup family).isSome

/-- Source: `resolveFontPath`, the family normalisation (trim, lower-case,
empty name, alias switch). -/
def normaliseFamily (lib : GoLib) (fontFamily : String) : String :=
  let family := stringsToLower lib (stringsTrimSpace fontFamily)
  let family := if family = "" then "default" else family
  if stringsContains family "space" && stringsContains family "grotesk" then "space grotesk"
  else if stringsContains family "playfair" then "playfair display"
  else if stringsContains family "courier" then "courier new"
  else if stringsContains family "mono" then "monospace"
  else if stringsContains family "open sans" then "open sans"
  else if stringsContains family "poppins" then "poppins"
  else if stringsContains family "inter" then "inter"
  else if !fontLibraryHas family then "default"
  else family

/-- Source: `resolveFontPath`, the effective target weight. -/
def targetWeight (weight : Int) (bold : Bool) : Int :=
  let targetWeight := if weight = 0 then 400 else weight
  if bold && targetWeight < 600 then 600 else targetWeight

/-- Source: `resolveFontPath`, one iteration of the search loop on the
state `(bestPath, bestDiff)`. -/
def bestStep (target : Int) (st : String × Int) (variant : fontVariant) : String × Int :=
  let diff := absInt (wrapInt (target - variant.weight))
  if diff < st.2 then (variant.path, diff) else st

/-- Source: `resolveFontPath`, the search loop over a table. -/
def bestVariant (variants : List fontVariant) (target : Int) : String :=
  match variants with
  | [] => "/usr/share/fonts/dejavu/DejaVuSans.ttf"
  | v0 :: _ => (variants.foldl (bestStep target) (v0.path, maxInt32)).1

/-- Source: `resolveFontPath`. -/
def resolveFontPath (lib : GoLib) (fontFamily : String) (weight : Int) (bold : Bool) : String :=
  bestVariant (fontLibraryAt (normaliseFamily lib fontFamily)) (targetWeight weight bold)

/-! ## Floating point and formatting -/

/-- Nearest natural number to `p / q` (for `q > 0`), ties to even. -/
def roundDivHalfEven (p q : Nat) : Nat :=
  let fl := p / q
  let r2 := 2 * (p % q)
  if r2 < q then fl else if q < r2 then fl + 1 else if fl % 2 = 0 then fl else fl + 1

/-- Binary logarithm of a natural number, rounded down (`0` at `0`), by
halving at most `fuel` times. -/
def log2Fuel : Nat → Nat → Nat
  | 0, _ => 0
  | fuel + 1, n => if n < 2 then 0 else log2Fuel fuel (n / 2) + 1

/-- Rounding of a rational to the nearest binary64 value, ties to even
(53-bit significand, least exponent -1074; no overflow to infinity). -/
def f64 (x : ℚ) : ℚ :=
  let p := x.num.natAbs
  let q := x.den
  if p = 0 then 0 else
    let e0 : Int := (log2Fuel p p : Int) - (log2Fuel q q : Int)
    let e : Int := if p * 2 ^ (-e0).toNat < q * 2 ^ e0.toNat then e0 - 1 else e0
    let u : Int := max (e - 52) (-1074)
    let n := roundDivHalfEven (p * 2 ^ (-u).toNat) (q * 2 ^ u.toNat)
    let mag : ℚ := ((n * 2 ^ u.toNat : Nat) : ℚ) / ((2 ^ (-u).toNat : Nat) : ℚ)
    if x < 0 then -mag else mag

/-- Go's `math.Round`: nearest integer, halves away from zero. -/
def mathRound (x : ℚ) : ℚ :=
  let p := x.num.natAbs
  let q := x.den
  let n : Nat := (2 * p + q) / (2 * q)
  if x < 0 then -(n : ℚ) else (n : ℚ)

/-- Conversion `int(x)` of a `float64`: truncation toward zero; a value
outside the 64-bit range converts to the least `int` (amd64). -/
def floatToInt (x : ℚ) : Int :=
  let t := Int.tdiv x.num (x.den : Int)
  if -2 ^ 63 ≤ t ∧ t < 2 ^ 63 then t else -2 ^ 63

/-- Conversion `float64(v)` of an `int`. -/
def intToFloat (v : Int) : ℚ := f64 (v : ℚ)

/-- The absolute value in hundredths, rounded to the nearest natural number,
ties to even: the decimal digits that `%.2f` prints. -/
def hundredths (x : ℚ) : Nat := roundDivHalfEven (x.num.natAbs * 100) x.den

/-- Verb `%.2f`: sign, integer part, point, two decimals, correctly rounded. -/
def fmtF2 (x : ℚ) : String :=
  (if x < 0 then "-" else "") ++ toString (hundredths x / 100) ++ "." ++
    (if hundredths x % 100 < 10 then "0" else "") ++ toString (hundredths x % 100)

/-- The number that the text `fmtF2 x` denotes: the same sign and the same
hundredths. -/
def valF2 (x : ℚ) : ℚ :=
  if x < 0 then -((hundredths x : ℚ) / 100) else (hundredths x : ℚ) / 100

/-- Verb `%d`. -/
def fmtD (v : Int) : String := toString v

/-- Upper-case hexadecimal digits of a natural number. -/
def hexUpper (n : Nat) : String := ⟨(Nat.toDigits 16 n).map Char.toUpper⟩

/-- Verb `%02X` on an `int`. -/
def fmtX02 (v : Int) : String :=
  if v < 0 then "-" ++ hexUpper v.natAbs
  else (if v < 16 then "0" else "") ++ hexUpper v.natAbs

/-- Source: `clampFloat`. -/
def clampFloat (value minVal maxVal : ℚ) : ℚ :=
  if value < minVal then minVal else if value > maxVal then maxVal else value

/-! ## Colours -/

/-- Source: `parseColorToFFmpeg`. -/
def parseColorToFFmpeg (lib : GoLib) (color defaultColor : String) : String :=
  let color := if color = "" then defaultColor else color
  if stringsStartsWith color "#" then
    "0x" ++ stringsDropStart color "#"
  else if stringsStartsWith color "rgba" || stringsStartsWith color "rgb" then
    let rgb := if stringsStartsWith color "rgba" then lib.sscanRGBA color else lib.sscanRGB color
    "0x" ++ fmtX02 rgb.1 ++ fmtX02 rgb.2.1 ++ fmtX02 rgb.2.2
  else color

/-- Source: `parseColorWithAlpha`. -/
def parseColorWithAlpha (lib : GoLib) (color : String) (opacity : ℚ) : String :=
  if stringsStartsWith color "rgba" then
    let rgb := lib.sscanRGBA color
    let alpha := floatToInt (f64 (opacity * 255))
    "0x" ++ fmtX02 rgb.1 ++ fmtX02 rgb.2.1 ++ fmtX02 rgb.2.2 ++ fmtX02 alpha
  else if stringsStartsWith color "#" then
    let color := stringsDropStart color "#"
    let alpha := floatToInt (f64 (opacity * 255))
    "0x" ++ color ++ fmtX02 alpha
  else
    let alpha := floatToInt (f64 (opacity * 255))
    "0x000000" ++ fmtX02 alpha

/-! ## Subtitle cues -/

/-- Source: `models.SubtitleConfig`. -/
structure SubtitleConfig where
  Text : String
  StartTime : ℚ
  EndTime : ℚ
  FontFamily : String
  FontSize : Int
  FontWeight : Int
  Color : String
  BgColor : String
  BgOpacity : ℚ
  Position : String
  Bold : Bool
  Italic : Bool
  BorderRadius : Int
  ShadowBlur : Int
  Transition : String
  ActiveTextColor : String
  deriving DecidableEq

/-- Constant `canvasHeight`. -/
def canvasHeight : ℚ := 720
/-- Constant `bottomMargin`. -/
def bottomMargin : ℚ := 40
/-- Constant `paddingPx`. -/
def paddingPx : ℚ := 12
/-- Constant `textShadowOffset`. -/
def textShadowOffset : ℚ := 1
/-- Constant `bgShadowOffset`. -/
def bgShadowOffset : ℚ := 4

/-- Variable `scaleFactor`: the constant quotient `1920.0 / canvasHeight`
as a `float64`. -/
def scaleFactor : ℚ := f64 (1920 / canvasHeight)

/-- The loop guard `strings.TrimSpace(sub.Text) == ""`. -/
def isBlank (sub : SubtitleConfig) : Bool := stringsTrimSpace sub.Text == ""

/-- The replacement `"'\\\\\\''"` of a quote: quote, three backslashes, two
quotes. -/
def quoteEscape : String := "\x27\\\\\\\x27\x27"

/-- Variable `text`: the cue text after the two `strings.ReplaceAll`. -/
def escapedText (sub : SubtitleConfig) : String :=
  let text := stringsReplaceAllRune sub.Text (Char.ofNat 39) quoteEscape
  stringsReplaceAllRune text ':' "\\:"

/-- Variable `scaledFontSize`. -/
def scaledFontSize (sub : SubtitleConfig) : Int :=
  let fontSize := if sub.FontSize ≤ 0 then 20 else sub.FontSize
  let scaled := floatToInt (mathRound (f64 (intToFloat fontSize * scaleFactor)))
  if scaled < 36 then 36 else scaled

/-- Variable `fontPath`. -/
def fontPath (lib : GoLib) (sub : SubtitleConfig) : String :=
  resolveFontPath lib sub.FontFamily sub.FontWeight sub.Bold

/-- Variable `textColor`. -/
def textColor (lib : GoLib) (sub : SubtitleConfig) : String :=
  parseColorToFFmpeg lib sub.Color "#FFFFFF"

/-- Variable `bgOpacity`, after the two clamps and the default. -/
def bgOpacity (sub : SubtitleConfig) : ℚ :=
  let bgOpacity := sub.BgOpacity
  let bgOpacity := if bgOpacity < 0 then 0 else bgOpacity
  let bgOpacity := if bgOpacity > 1 then 1 else bgOpacity
  if sub.BgOpacity = 0 ∧ sub.BgColor = "" then f64 (4 / 5) else bgOpacity

/-- Variable `bgColorHex`. -/
def bgColorHex (lib : GoLib) (sub : SubtitleConfig) : String :=
  parseColorWithAlpha lib sub.BgColor (bgOpacity sub)

/-- Variable `boxBorder`. -/
def boxBorder (sub : SubtitleConfig) : Int :=
  let radiusAdjustment := f64 (intToFloat sub.BorderRadius * f64 (3 / 10))
  let boxBorder := floatToInt (mathRound (f64 (f64 (paddingPx + radiusAdjustment) * scaleFactor)))
  if boxBorder < floatToInt (mathRound (f64 (paddingPx * scaleFactor))) then
    floatToInt (mathRound (f64 (paddingPx * scaleFactor)))
  else boxBorder

/-- Variable `targetY`, after scaling. -/
def targetY (lib : GoLib) (sub : SubtitleConfig) : ℚ :=
  let position := stringsToLower lib sub.Position
  let targetY : ℚ :=
    if position = "top" then bottomMargin
    else if position = "center" then canvasHeight / 2
    else canvasHeight - bottomMargin
  f64 (targetY * scaleFactor)

/-- Variable `yExpr`. -/
def yExpr (lib : GoLib) (sub : SubtitleConfig) : String :=
  "(" ++ fmtF2 (targetY lib sub) ++ ")-text_h/2"

/-- Variable `xExpr`. -/
def xExpr : String := "(w-text_w)/2"

/-- Variable `enableExpr`. -/
def enableExpr (sub : SubtitleConfig) : String :=
  "enable=\x27between(t," ++ fmtF2 sub.StartTime ++ "," ++ fmtF2 sub.EndTime ++ ")\x27"

/-- Variable `shadowBlur`, after the default. -/
def shadowBlur (sub : SubtitleConfig) : Int :=
  if sub.ShadowBlur ≤ 0 then 12 else sub.ShadowBlur

/-- Variable `shadowSpread`. -/
def shadowSpread (sub : SubtitleConfig) : Int :=
  floatToInt (mathRound (f64 (f64 (intToFloat (shadowBlur sub) * scaleFactor) / 6)))

/-- Variable `shadowBorder`. -/
def shadowBorder (sub : SubtitleConfig) : Int :=
  wrapInt (boxBorder sub + shadowSpread sub)

/-- Variable `shadowOpacity`. -/
def shadowOpacity (sub : SubtitleConfig) : ℚ :=
  clampFloat (f64 (f64 (9 / 50) + f64 (intToFloat (shadowBlur sub) / 60))) (f64 (1 / 5))
    (f64 (11 / 20))

/-- Variable `shadowColor`. -/
def shadowColor (sub : SubtitleConfig) : String :=
  "0x000000" ++ fmtX02 (floatToInt (mathRound (f64 (shadowOpacity sub * 255))))

/-- Variable `shadowYOffset`. -/
def shadowYOffset : Int :=
  floatToInt (mathRound (f64 (bgShadowOffset * scaleFactor)))

/-- Variable `shadowFilter`: the box-only layer drawn under the base layer. -/
def shadowFilter (lib : GoLib) (sub : SubtitleConfig) : String :=
  "drawtext=text=\x27" ++ escapedText sub ++ "\x27:fontfile=" ++ fontPath lib sub ++
    ":fontsize=" ++ fmtD (scaledFontSize sub) ++ ":fontcolor=0x000000@0:box=1:boxcolor=" ++
    shadowColor sub ++ ":boxborderw=" ++ fmtD (shadowBorder sub) ++ ":x=" ++ xExpr ++
    ":y=" ++ yExpr lib sub ++ "+" ++ fmtD shadowYOffset ++ ":" ++ enableExpr sub

/-- Variable `shadowFilters`: the shadow layer when `bgOpacity > 0`. -/
def shadowFilters (lib : GoLib) (sub : SubtitleConfig) : List String :=
  if bgOpacity sub > 0 then [shadowFilter lib sub] else []

/-- Variable `textShadowY`. -/
def textShadowY : Int :=
  let textShadowY := floatToInt (mathRound (f64 (textShadowOffset * scaleFactor)))
  if textShadowY < 1 then 1 else textShadowY

/-- Variable `baseFilter`: text and background box, with the text shadow
options appended by the second `Sprintf`. -/
def baseFilter (lib : GoLib) (sub : SubtitleConfig) : String :=
  "drawtext=text=\x27" ++ escapedText sub ++ "\x27:fontfile=" ++ fontPath lib sub ++
    ":fontsize=" ++ fmtD (scaledFontSize sub) ++ ":fontcolor=" ++ textColor lib sub ++
    ":box=1:boxcolor=" ++ bgColorHex lib sub ++ ":boxborderw=" ++ fmtD (boxBorder sub) ++
    ":x=" ++ xExpr ++ ":y=" ++ yExpr lib sub ++ ":" ++ enableExpr sub ++
    ":shadowx=" ++ fmtD 0 ++ ":shadowy=" ++ fmtD textShadowY ++ ":shadowcolor=" ++ "black@0.5"

/-- The guard of the karaoke overlay. -/
def hasActive (sub : SubtitleConfig) : Bool :=
  sub.ActiveTextColor != "" && sub.ActiveTextColor != sub.Color

/-- Variable `activeColor`. -/
def activeColor (lib : GoLib) (sub : SubtitleConfig) : String :=
  parseColorToFFmpeg lib sub.ActiveTextColor sub.Color

/-- Variable `duration`, after the guard against non-positive values. The
difference is rounded by `f64`: the value is that of the program as long as
the subtraction does not overflow binary64, that is, as long as the rounded
difference is at most `MaxFloat64`; beyond, Go yields `+Inf`. -/
def duration (sub : SubtitleConfig) : ℚ :=
  let duration := f64 (sub.EndTime - sub.StartTime)
  if duration ≤ 0 then f64 (1 / 10) else duration

/-- Variable `fadeDuration`. -/
def fadeDuration (sub : SubtitleConfig) : ℚ :=
  f64 (duration sub * f64 (17 / 20))

/-- Variable `activeFilter`: the text-only karaoke overlay. -/
def activeFilter (lib : GoLib) (sub : SubtitleConfig) : String :=
  "drawtext=text=\x27" ++ escapedText sub ++ "\x27:fontfile=" ++ fontPath lib sub ++
    ":fontsize=" ++ fmtD (scaledFontSize sub) ++ ":fontcolor=" ++ activeColor lib sub ++
    ":box=0:x=" ++ xExpr ++ ":y=" ++ yExpr lib sub ++ ":" ++ enableExpr sub ++
    ":alpha=\x27min(1\\,max(0\\,(t-" ++ fmtF2 sub.StartTime ++ ")/" ++
    fmtF2 (fadeDuration sub) ++ "))\x27"

/-- The overlay layer when the guard holds. -/
def activeFilters (lib : GoLib) (sub : SubtitleConfig) : List String :=
  if hasActive sub then [activeFilter lib sub] else []

/-- Source: `buildSubtitlesFilter`, one iteration of the loop on the
accumulator `filters`. -/
def filterStep (lib : GoLib) (filters : List String) (sub : SubtitleConfig) : List String :=
  if isBlank sub then filters
  else ((filters ++ shadowFilters lib sub) ++ [baseFilter lib sub]) ++ activeFilters lib sub

/-- Source: `buildSubtitlesFilter`, the value of `filters` after the loop. -/
def buildFilters (lib : GoLib) (subtitles : List SubtitleConfig) : List String :=
  subtitles.foldl (filterStep lib) []

/-- Source: `buildSubtitlesFilter`. -/
def buildSubtitlesFilter (lib : GoLib) (subtitles : List SubtitleConfig) : String :=
  stringsJoin (buildFilters lib subtitles) ","

/-- The cue of the scenario in the testable properties:
`{text:"Hi", start:0, end:2, color:"#FFFFFF", bgColor:"", bgOpacity:0}`,
all other fields at their zero value. -/
def hiCue : SubtitleConfig where
  Text := "Hi"
  StartTime := 0
  EndTime := 2
  FontFamily := ""
  FontSize := 0
  FontWeight := 0
  Color := "#FFFFFF"
  BgColor := ""
  BgOpacity := 0
  Position := ""
  Bold := false
  Italic := false
  BorderRadius := 0
  ShadowBlur := 0
  Transition := ""
  ActiveTextColor := ""

/-! ## Specification-side definitions -/

/-- Spec: one step of the choice of the entry at minimum absolute distance
from the target: a later entry replaces the best one only when it is strictly
closer. -/
def closestStep (target : Int) (best : Option fontVariant) (v : fontVariant) :
    Option fontVariant :=
  match best with
  | none => some v
  | some b => if |target - v.weight| < |target - b.weight| then some v else some b

/-- Spec: the closest entry of a table, by a left-to-right scan that keeps the
earlier entry among equals. -/
def closestVariant (variants : List fontVariant) (target : Int) : Option fontVariant :=
  variants.foldl (closestStep target) none

/-- The family name after trimming and case folding, on which the alias
switch of `resolveFontPath` works. -/
def foldedFamily (lib : GoLib) (fontFamily : String) : String :=
  stringsToLower lib (stringsTrimSpace fontFamily)

/-- A string made of white space only. -/
def allSpace (s : String) : Prop := ∀ c ∈ s.data, unicodeIsSpace c = true

/-- Two strings that differ at most in letter case: rune by rune they have
the same lower-case form. -/
def sameUpToCase (lib : GoLib) (s t : String) : Prop :=
  s.data.map (unicodeToLower lib) = t.data.map (unicodeToLower lib)

/-- Property of the case table of the Go library: case mapping neither
creates nor removes white space. -/
def GoLib.LowerKeepsSpace (lib : GoLib) : Prop :=
  ∀ c : Char, 0x7F < c.toNat → unicodeIsSpace (lib.lowerTable c) = unicodeIsSpace c

/-- The layers that one loop iteration of `buildSubtitlesFilter` appends for
a cue. -/
def cueFilters (lib : GoLib) (sub : SubtitleConfig) : List String :=
  filterStep lib [] sub

/-- A layer that carries the visibility gate of a cue as one of its
colon-separated options. -/
def carriesGate (layer : String) (sub : SubtitleConfig) : Prop :=
  ∃ pre post : String, layer = pre ++ ":" ++ enableExpr sub ++ post

/-- Value at time `t` of the opacity expression `min(1,max(0,(t-S)/F))` that
the overlay layer prints, `S` and `F` being the numbers printed for the start
time and the fade duration. -/
def alphaAt (sub : SubtitleConfig) (t : ℚ) : ℚ :=
  min 1 (max 0 ((t - valF2 sub.StartTime) / valF2 (fadeDuration sub)))

/-- Spec: the escape of one rune of a cue text. -/
def escapeRune (r : Char) : List Char :=
  if r = Char.ofNat 39 then quoteEscape.data else if r = ':' then ['\\', ':'] else [r]

/-- Every colon of the rune sequence stands right after a backslash. -/
def ColonsEscaped (l : List Char) : Prop :=
  ∀ pre post : List Char, l = pre ++ ':' :: post → ∃ pre0 : List Char, pre = pre0 ++ ['\\']

/-- The scenario cue with a blank text and background opacity 1/2. -/
def blankCue : SubtitleConfig := { hiCue with Text := " ", BgOpacity := 1 / 2 }

/-- The scenario cue with background opacity 1/2. -/
def halfCue : SubtitleConfig := { hiCue with BgOpacity := 1 / 2 }

/-- The scenario cue shown from 1/256 s to 1 + 1/256 s. -/
def offGridCue : SubtitleConfig := { hiCue with StartTime := 1 / 256, EndTime := 257 / 256 }

/-- The scenario cue with its end (3 s) before its start (5 s). -/
def reversedCue : SubtitleConfig := { hiCue with StartTime := 5, EndTime := 3 }

/-- The scenario cue shown for a quarter of a second, with a red active
colour. -/
def quarterCue : SubtitleConfig :=
  { hiCue with EndTime := 1 / 4, ActiveTextColor := "#FF0000" }

/-- Loop invariant of the search of `resolveFontPath` against the spec-side
scan: before any entry is taken the loop still holds the initial `bestDiff`;
afterwards it holds the path and the distance of the closest entry so far. -/
def searchAgrees (target : Int) (st : String × Int) (best : Option fontVariant) : Prop :=
  match best with
  | none => st.2 = maxInt32
  | some b => st = (b.path, |target - b.weight|)

/-! ## Services: data model and environment -/

/-- Equality of results of fallible calls is decidable. -/
instance instDecidableEqExcept {ε α : Type} [DecidableEq ε] [DecidableEq α] :
    DecidableEq (Except ε α)
  | .error a, .error b => if h : a = b then isTrue (by rw [h]) else
      isFalse (fun hab => h (Except.error.inj hab))
  | .ok a, .ok b => if h : a = b then isTrue (by rw [h]) else
      isFalse (fun hab => h (Except.ok.inj hab))
  | .error _, .ok _ => isFalse (fun hab => by cases hab)
  | .ok _, .error _ => isFalse (fun hab => by cases hab)

/-- Source: `models.Video`; instants of `time.Time` are natural numbers. -/
structure Video where
  ID : String
  URL : String
  Title : String
  Duration : Int
  FilePath : String
  ThumbnailURL : String
  Status : String
  CreatedAt : Nat
  UpdatedAt : Nat
  deriving DecidableEq

/-- Source: `models.Segment`. -/
structure Segment where
  Start : ℚ
  End : ℚ
  Text : String
  deriving DecidableEq

/-- Source: `models.Transcript`. -/
structure Transcript where
  ID : String
  VideoID : String
  Language : String
  Segments : List Segment
  FullText : String
  CreatedAt : Nat
  deriving DecidableEq

/-- Source: `models.SuggestedClip`. -/
structure SuggestedClip where
  ID : String
  VideoID : String
  StartTime : ℚ
  EndTime : ℚ
  Title : String
  Description : String
  Score : ℚ
  Reason : String
  deriving DecidableEq

/-- Source: `models.Clip`; the pointer `CompletedAt` is an option. -/
structure Clip where
  ID : String
  VideoID : String
  Title : String
  StartTime : ℚ
  EndTime : ℚ
  FilePath : String
  Status : String
  Subtitles : List SubtitleConfig
  CreatedAt : Nat
  CompletedAt : Option Nat
  deriving DecidableEq

/-- Source: `ProcessingService`. -/
structure ProcessingService where
  ffmpegPath : String
  ytdlpPath : String
  whisperPath : String
  storagePath : String

/-- What an HTTP exchange comes to: `client.Do` fails, or a reply arrives
with a status, the body read by `io.ReadAll` and the error of that read. -/
inductive HttpResult where
  | failed (err : String)
  | reply (status : Int) (body : String) (readErr : Option String)

/-- The decoded reply of the transcription backend (`whisperResp`). -/
structure WhisperResponse where
  Text : String
  Language : String
  Segments : List Segment

/-- The decoded reply of the cloud analysis backend (`response`): the
message content of each choice and the error object. -/
structure ChatResponse where
  Choices : List String
  Error : Option (String × String)

/-- The surroundings of one call of a service method: operating system,
network, clock, random identities, and the decoders of `encoding/json`.
An error is the text that `%v` prints for it. -/
structure Sys where
  /-- `os.Getenv`. -/
  getenv : String → String
  /-- `filepath.Join`. -/
  pathJoin : List String → String
  /-- `filepath.IsAbs`. -/
  isAbs : String → Bool
  /-- `filepath.Abs`. -/
  absPath : String → Except String String
  /-- `os.IsNotExist` of the error of `os.Stat`. -/
  notExist : String → Bool
  /-- `exec.Command(name, args...).CombinedOutput()`: output and error. -/
  run : String → List String → String × Option String
  /-- The error of `os.Open`. -/
  openFile : String → Option String
  /-- The error of `io.Copy` from the opened file into the form. -/
  copyFile : String → Option String
  /-- The error of `http.NewRequest` for a URL. -/
  newRequest : String → Option String
  /-- The exchange for a request, given its URL and the text it carries (the
  audio path or the transcript text; the rest of the request is fixed). -/
  http : String → String → HttpResult
  /-- `json.Unmarshal` into `whisperResp`. -/
  decodeWhisper : String → Except String WhisperResponse
  /-- `json.Unmarshal` into the chat-completion `response`. -/
  decodeChat : String → Except String ChatResponse
  /-- `json.Unmarshal` into the local `response`: its `response` field. -/
  decodeOllama : String → Except String String
  /-- `json.Unmarshal` into `[]models.SuggestedClip`. -/
  parseClips : String → Except String (List SuggestedClip)
  /-- `time.Now()`. -/
  now : Nat
  /-- `uuid.New().String()`, by the number of earlier draws. -/
  uuid : Nat → String

/-- An action of a service method on the outside world. -/
inductive Effect where
  | exec (name : String) (args : List String)
  | http (url : String)
  deriving DecidableEq, Repr

/-- Source: `getEnv`. -/
def getEnv (w : Sys) (key defaultValue : String) : String :=
  if w.getenv key ≠ "" then w.getenv key else defaultValue

/-! ## Transcription stage -/

/-- Source: `createMockTranscript`; `k` is the number of identities drawn
before. -/
def createMockTranscript (w : Sys) (k : Nat) (videoID : String) : Transcript where
  ID := w.uuid k
  VideoID := videoID
  Language := "en"
  Segments := [⟨0, 5, "This is a sample transcript."⟩, ⟨5, 10, "Whisper integration needed."⟩]
  FullText := "This is a sample transcript. Whisper integration needed."
  CreatedAt := w.now

/-- Source: `transcribeWithWhisperAPI`. Writing the form into a memory buffer
cannot fail, so only `os.Open`, `io.Copy`, `http.NewRequest`, the exchange and
the decoding can. -/
def transcribeWithWhisperAPI (w : Sys) (k : Nat) (audioPath videoID : String) :
    List Effect × Except String Transcript :=
  let apiURL := getEnv w "OPENAI_API_URL" "https://api.openai.com/v1" ++ "/audio/transcriptions"
  match w.openFile audioPath with
  | some err => ([], .error ("failed to open audio file: " ++ err))
  | none =>
    match w.copyFile audioPath with
    | some err => ([], .error err)
    | none =>
      match w.newRequest apiURL with
      | some err => ([], .error err)
      | none =>
        match w.http apiURL audioPath with
        | .failed err => ([.http apiURL], .error ("HTTP request failed: " ++ err))
        | .reply status respBody _ =>
          if status ≠ 200 then
            ([.http apiURL],
              .error ("Whisper API returned status " ++ fmtD status ++ ": " ++ respBody))
          else
            match w.decodeWhisper respBody with
            | .error err => ([.http apiURL], .error ("failed to parse response: " ++ err))
            | .ok whisperResp =>
              let segments := whisperResp.Segments.map
                (fun seg => (⟨seg.Start, seg.End, stringsTrimSpace seg.Text⟩ : Segment))
              ([.http apiURL],
                .ok { ID := w.uuid k, VideoID := videoID, Language := whisperResp.Language,
                      Segments := segments, FullText := whisperResp.Text, CreatedAt := w.now })

/-- Source: `ProcessingService.TranscribeVideo`. -/
def ProcessingService.TranscribeVideo (s : ProcessingService) (w : Sys) (k : Nat) (videoPath videoID : String) :
    List Effect × Except String Transcript :=
  let audioPath := w.pathJoin [s.storagePath, "transcripts", videoID ++ ".wav"]
  let args := ["-y", "-i", videoPath, "-vn", "-acodec", "pcm_s16le", "-ar", "16000", "-ac", "1",
    audioPath]
  match w.run s.ffmpegPath args with
  | (output, some err) =>
    ([.exec s.ffmpegPath args],
      .error ("failed to extract audio: " ++ err ++ ", output: " ++ output))
  | (_, none) =>
    let apiKey := w.getenv "OPENAI_API_KEY"
    if apiKey = "" then
      ([.exec s.ffmpegPath args], .ok (createMockTranscript w k videoID))
    else
      match transcribeWithWhisperAPI w k audioPath videoID with
      | (effects, .error _) =>
        (.exec s.ffmpegPath args :: effects, .ok (createMockTranscript w k videoID))
      | (effects, .ok transcript) => (.exec s.ffmpegPath args :: effects, .ok transcript)

/-! ## Analysis stage -/

/-- First position at which a block occurs in a rune sequence. -/
def indexList : List Char → List Char → Option Nat
  | [], pat => if pat.isEmpty then some 0 else none
  | c :: cs, pat => if pat.isPrefixOf (c :: cs) then some 0 else (indexList cs pat).map (· + 1)

/-- Last position at which a block occurs in a rune sequence. -/
def lastIndexList : List Char → List Char → Option Nat
  | [], pat => if pat.isEmpty then some 0 else none
  | c :: cs, pat =>
    match lastIndexList cs pat with
    | some i => some (i + 1)
    | none => if pat.isPrefixOf (c :: cs) then some 0 else none

/-- Go's `strings.Index`, `-1` when absent. Positions count runes here and
bytes in Go; the code only cuts at positions found by a search, so the text
cut out is the same. -/
def stringsIndex (s sub : String) : Int :=
  match indexList s.data sub.data with
  | some i => (i : Int)
  | none => -1

/-- Go's `strings.LastIndex`, `-1` when absent. -/
def stringsLastIndex (s sub : String) : Int :=
  match lastIndexList s.data sub.data with
  | some i => (i : Int)
  | none => -1

/-- The slice `s[start:stop]`, for `0 ≤ start ≤ stop ≤ len(s)`. -/
def sliceString (s : String) (start stop : Int) : String :=
  ⟨(s.data.drop start.toNat).take (stop - start).toNat⟩

/-- The code fence: three backticks. -/
def fence : String := "\x60\x60\x60"

/-- The opening fence of a JSON block: three backticks and `json`. -/
def fenceJson : String := "\x60\x60\x60json"

/-- Source: `analyzeWithDeepSeekAPI`, the extraction of the JSON text from a
markdown code block. -/
def cleanContentDeepSeek (content : String) : String :=
  let content := stringsTrimSpace content
  if stringsContains content fenceJson then
    let start := stringsIndex content fenceJson + 7
    let stop := stringsLastIndex content fence
    if stop > start then stringsTrimSpace (sliceString content start stop) else content
  else if stringsContains content fence then
    let start := stringsIndex content fence + 3
    let stop := stringsLastIndex content fence
    if stop > start then stringsTrimSpace (sliceString content start stop) else content
  else content

/-- Source: `analyzeWithOllama`, the extraction of the JSON text from a
markdown code block. -/
def cleanContentOllama (content : String) : String :=
  let content := stringsTrimSpace content
  if stringsContains content fenceJson then
    let start := stringsIndex content fenceJson + 7
    let stop := stringsLastIndex content fence
    if stop > start then stringsTrimSpace (sliceString content start stop) else content
  else if stringsContains content fence then
    let start := stringsIndex content fence + 3
    let stop := stringsLastIndex content fence
    if stop > start then stringsTrimSpace (sliceString content start stop) else content
  else content

/-- Source: `analyzeWithDeepSeekAPI`. Encoding the request cannot fail. -/
def analyzeWithDeepSeekAPI (w : Sys) (transcript : Transcript) :
    List Effect × Except String (List SuggestedClip) :=
  let apiKey := w.getenv "DEEPSEEK_API_KEY"
  if apiKey = "" then ([], .error "DEEPSEEK_API_KEY not set")
  else
    let apiURL := getEnv w "DEEPSEEK_API_URL" "https://api.deepseek.com" ++ "/chat/completions"
    match w.newRequest apiURL with
    | some err => ([], .error ("failed to create request: " ++ err))
    | none =>
      match w.http apiURL transcript.FullText with
      | .failed err => ([.http apiURL], .error ("HTTP request failed: " ++ err))
      | .reply _ _ (some err) =>
        ([.http apiURL], .error ("failed to read response body: " ++ err))
      | .reply status body none =>
        if body = "" then
          ([.http apiURL], .error "DeepSeek API returned empty response body")
        else if status ≠ 200 then
          ([.http apiURL],
            .error ("DeepSeek API returned status " ++ fmtD status ++ ": " ++ body))
        else
          match w.decodeChat body with
          | .error err =>
            ([.http apiURL], .error ("failed to parse response: " ++ err ++ ", body: " ++ body))
          | .ok response =>
            match response.Error with
            | some (message, type) =>
              ([.http apiURL], .error ("DeepSeek API error: " ++ message ++ " (" ++ type ++ ")"))
            | none =>
              match response.Choices with
              | [] => ([.http apiURL], .error ("no response from DeepSeek, body: " ++ body))
              | content :: _ =>
                if content = "" then
                  ([.http apiURL],
                    .error ("empty content from DeepSeek, full response: " ++ body))
                else
                  match w.parseClips (cleanContentDeepSeek content) with
                  | .error err =>
                    ([.http apiURL],
                      .error ("failed to parse DeepSeek clips response: " ++ err))
                  | .ok clips =>
                    if clips.length = 0 then
                      ([.http apiURL], .error "DeepSeek returned empty clips array")
                    else ([.http apiURL], .ok clips)

/-- Source: `analyzeWithOllama`. The error of reading the body is dropped. -/
def analyzeWithOllama (w : Sys) (transcript : Transcript) :
    List Effect × Except String (List SuggestedClip) :=
  let ollamaURL := getEnv w "OLLAMA_URL" "http://localhost:11434"
  match w.newRequest (ollamaURL ++ "/api/generate") with
  | some err => ([], .error err)
  | none =>
    match w.http (ollamaURL ++ "/api/generate") transcript.FullText with
    | .failed err => ([.http (ollamaURL ++ "/api/generate")], .error err)
    | .reply _ body _ =>
      match w.decodeOllama body with
      | .error err =>
        ([.http (ollamaURL ++ "/api/generate")],
          .error ("failed to parse Ollama response body: " ++ err))
      | .ok content =>
        if content = "" then
          ([.http (ollamaURL ++ "/api/generate")],
            .error ("empty content from Ollama, full response: " ++ body))
        else
          match w.parseClips (cleanContentOllama content) with
          | .error err =>
            ([.http (ollamaURL ++ "/api/generate")],
              .error ("failed to parse Ollama clips response: " ++ err))
          | .ok clips =>
            if clips.length = 0 then
              ([.http (ollamaURL ++ "/api/generate")], .error "Ollama returned empty clips array")
            else ([.http (ollamaURL ++ "/api/generate")], .ok clips)

/-- Source: `ProcessingService.AnalyzeTranscript`, the loop that sets the
video id and a new identity on every clip; `k` is the number of identities
drawn before. -/
def stampClips (w : Sys) (videoID : String) : Nat → List SuggestedClip → List SuggestedClip
  | _, [] => []
  | k, clip :: clips =>
    { clip with VideoID := videoID, ID := w.uuid k } :: stampClips w videoID (k + 1) clips

/-- Source: `ProcessingService.AnalyzeTranscript`. -/
def ProcessingService.AnalyzeTranscript (_s : ProcessingService) (w : Sys) (k : Nat)
    (transcript : Transcript) (videoID : String) :
    List Effect × Except String (List SuggestedClip) :=
  let useOllama := getEnv w "USE_OLLAMA" "false" = "true"
  match (if useOllama then analyzeWithOllama w transcript
    else analyzeWithDeepSeekAPI w transcript) with
  | (effects, .error err) => (effects, .error err)
  | (effects, .ok clips) => (effects, .ok (stampClips w videoID k clips))

/-! ## Clip renderer -/

/-- What a call of `CreateClip` leaves behind: its actions on the outside
world, the error it returns, and the clip record after the call. -/
structure RenderOutcome where
  effects : List Effect
  err : Option String
  clip : Clip
  deriving DecidableEq

/-- Source: `ProcessingService.CreateClip`, the scale-and-crop filter. -/
def scaleCrop : String := "scale=-1:1920,crop=min(iw\\,1080):1920"

/-- Source: `ProcessingService.CreateClip`, the arguments handed to the
engine. -/
def createClipArgs (lib : GoLib) (clip : Clip) (inputPath outputPath : String) : List String :=
  let args := ["-y", "-ss", fmtF2 clip.StartTime, "-i", inputPath,
    "-t", fmtF2 (f64 (clip.EndTime - clip.StartTime))]
  let args :=
    if clip.Subtitles.length > 0 then
      args ++ ["-vf", scaleCrop ++ "," ++ buildSubtitlesFilter lib clip.Subtitles]
    else args ++ ["-vf", scaleCrop]
  args ++ ["-s", "1080x1920", "-c:v", "libx264", "-preset", "medium", "-crf", "18",
    "-pix_fmt", "yuv420p", "-c:a", "aac", "-b:a", "192k", "-movflags", "+faststart", outputPath]

/-- Source: `ProcessingService.CreateClip`, from the existence check on. -/
def createClipRun (s : ProcessingService) (lib : GoLib) (w : Sys) (clip : Clip)
    (inputPath outputPath : String) : RenderOutcome :=
  if w.notExist inputPath then
    ⟨[], some ("input video file does not exist: " ++ inputPath), clip⟩
  else
    let args := createClipArgs lib clip inputPath outputPath
    match w.run s.ffmpegPath args with
    | (output, some err) =>
      ⟨[.exec s.ffmpegPath args],
        some ("failed to create clip: " ++ err ++ ", output: " ++ output), clip⟩
    | (_, none) =>
      ⟨[.exec s.ffmpegPath args], none,
        { clip with FilePath := outputPath, Status := "completed", CompletedAt := some w.now }⟩

/-- Source: `ProcessingService.CreateClip`. -/
def ProcessingService.CreateClip (s : ProcessingService) (lib : GoLib) (w : Sys)
    (video : Video) (clip : Clip) : RenderOutcome :=
  let outputPath := w.pathJoin [s.storagePath, "clips", clip.ID ++ ".mp4"]
  let inputPath := video.FilePath
  if !w.isAbs inputPath then
    match w.absPath inputPath with
    | .error err => ⟨[], some ("failed to get absolute path: " ++ err), clip⟩
    | .ok inputPath => createClipRun s lib w clip inputPath outputPath
  else createClipRun s lib w clip inputPath outputPath

/-! ## Clip store -/

/-- A row of the table `clips`; a nullable column is an option. The JSON text
of `subtitles` is held as the cue list it encodes. -/
structure ClipRow where
  id : String
  video_id : String
  title : Option String
  start_time : ℚ
  end_time : ℚ
  file_path : Option String
  status : Option String
  subtitles : Option (List SubtitleConfig)
  created_at : Option Nat
  completed_at : Option Nat
  deriving DecidableEq

/-- Source: `ClipService`; the data base is the list of the rows of `clips`. -/
structure ClipService where
  db : List ClipRow
  deriving DecidableEq

/-- Source: `ClipService.CreateClip`; `k` is the number of identities drawn
before, `execErr` the error of the data base, if any. The primary key
refuses a second row with the same id. -/
def ClipService.CreateClip (s : ClipService) (w : Sys) (k : Nat) (execErr : Option String)
    (clip : Clip) : Option String × Clip × ClipService :=
  let clip := if clip.ID = "" then { clip with ID := w.uuid k } else clip
  let clip := { clip with CreatedAt := w.now, Status := "processing" }
  match execErr with
  | some err => (some err, clip, s)
  | none =>
    if s.db.any (fun r => r.id == clip.ID) then
      (some "UNIQUE constraint failed: clips.id", clip, s)
    else
      (none, clip,
        ⟨s.db ++ [{ id := clip.ID, video_id := clip.VideoID, title := some clip.Title,
                    start_time := clip.StartTime, end_time := clip.EndTime, file_path := none,
                    status := some clip.Status, subtitles := some clip.Subtitles,
                    created_at := some clip.CreatedAt, completed_at := none }]⟩)

/-- Source: `ClipService.UpdateClip`. -/
def ClipService.UpdateClip (s : ClipService) (execErr : Option String) (clip : Clip) :
    Option String × ClipService :=
  match execErr with
  | some err => (some err, s)
  | none =>
    (none,
      ⟨s.db.map (fun r =>
        if r.id = clip.ID then
          { r with file_path := some clip.FilePath, status := some clip.Status,
                   subtitles := some clip.Subtitles, completed_at := clip.CompletedAt }
        else r)⟩)

/-- Source: `ClipService.GetClip`. Scanning a NULL into a Go `string` or
`time.Time` is an error. -/
def ClipService.GetClip (s : ClipService) (id : String) : Except String Clip :=
  match s.db.find? (fun r => r.id == id) with
  | none => .error "sql: no rows in result set"
  | some r =>
    match r.title, r.file_path, r.status, r.subtitles, r.created_at with
    | some title, some filePath, some status, some subtitles, some createdAt =>
      .ok { ID := r.id, VideoID := r.video_id, Title := title, StartTime := r.start_time,
            EndTime := r.end_time, FilePath := filePath, Status := status,
            Subtitles := subtitles, CreatedAt := createdAt, CompletedAt := r.completed_at }
    | _, _, _, _, _ => .error "sql: Scan error: converting NULL is unsupported"

/-! ## Pipeline coordinator -/

/-- The services that the background job of `ProcessVideoHandler` calls,
each as the result it returns for its arguments. -/
structure Pipeline where
  /-- `videoService.UpdateVideo`: its error. -/
  UpdateVideo : Video → Option String
  /-- `processingService.DownloadVideo`. -/
  DownloadVideo : String → String → Except String Video
  /-- `processingService.TranscribeVideo`. -/
  TranscribeVideo : String → String → Except String Transcript
  /-- `videoService.SaveTranscript`: its error. -/
  SaveTranscript : Transcript → Option String
  /-- `processingService.AnalyzeTranscript`. -/
  AnalyzeTranscript : Transcript → String → Except String (List SuggestedClip)
  /-- `videoService.SaveSuggestedClips`: its error. -/
  SaveSuggestedClips : List SuggestedClip → Option String

/-- A call made by the background job, with the error that a call to the
store returns (the job only logs it). -/
inductive Step where
  | updateVideo (video : Video) (err : Option String)
  | broadcast (videoID status : String)
  | sleep (ms : Nat)
  | downloadVideo (url videoID : String)
  | transcribeVideo (videoPath videoID : String)
  | saveTranscript (transcript : Transcript) (err : Option String)
  | analyzeTranscript (transcript : Transcript) (videoID : String)
  | saveSuggestedClips (clips : List SuggestedClip) (err : Option String)
  deriving DecidableEq

/-- Source: `ProcessVideoHandler`, the analysis phase and the completion of
the background job. -/
def analysisPhase (p : Pipeline) (video : Video) (transcript : Transcript) : List Step × Video :=
  let video := { video with Status := "analyzing" }
  let steps := [.updateVideo video (p.UpdateVideo video), .broadcast video.ID "analyzing", .sleep 300,
    .analyzeTranscript transcript video.ID]
  match p.AnalyzeTranscript transcript video.ID with
  | .error _ =>
    let video := { video with Status := "error" }
    (steps ++ [.updateVideo video (p.UpdateVideo video), .broadcast video.ID "error"], video)
  | .ok suggestedClips =>
    let video := { video with Status := "completed" }
    (steps ++ [.saveSuggestedClips suggestedClips (p.SaveSuggestedClips suggestedClips),
      .updateVideo video (p.UpdateVideo video),
      .broadcast video.ID "completed"], video)

/-- Source: `ProcessVideoHandler`, the transcription phase and what follows
it. -/
def transcriptionPhase (p : Pipeline) (video : Video) : List Step × Video :=
  let video := { video with Status := "transcribing" }
  let steps := [.updateVideo video (p.UpdateVideo video), .broadcast video.ID "transcribing", .sleep 300,
    .transcribeVideo video.FilePath video.ID]
  match p.TranscribeVideo video.FilePath video.ID with
  | .error _ =>
    let video := { video with Status := "error" }
    (steps ++ [.updateVideo video (p.UpdateVideo video), .broadcast video.ID "error"], video)
  | .ok transcript =>
    let rest := analysisPhase p video transcript
    (steps ++ [.saveTranscript transcript (p.SaveTranscript transcript)] ++ rest.1, rest.2)

/-- Source: `ProcessVideoHandler`, the background job started for a new
video: the calls it makes and the video record at its end. -/
def processVideoJob (p : Pipeline) (url : String) (video : Video) : List Step × Video :=
  let video := { video with Status := "downloading" }
  let steps := [.updateVideo video (p.UpdateVideo video), .broadcast video.ID "downloading", .sleep 500,
    .downloadVideo url video.ID]
  match p.DownloadVideo url video.ID with
  | .error _ =>
    let video := { video with Status := "error" }
    (steps ++ [.updateVideo video (p.UpdateVideo video), .broadcast video.ID "error"], video)
  | .ok downloadedVideo =>
    let video := { video with Title := downloadedVideo.Title,
                              Duration := downloadedVideo.Duration,
                              FilePath := downloadedVideo.FilePath,
                              ThumbnailURL := downloadedVideo.ThumbnailURL }
    let rest := transcriptionPhase p video
    (steps ++ rest.1, rest.2)

/-! ## Specification-side definitions for the services -/

/-- The statuses handed to `UpdateVideo`, in order. -/
def persistedStatuses (steps : List Step) : List String :=
  steps.filterMap (fun st => match st with
    | .updateVideo video _ => some video.Status
    | _ => none)

/-- The statuses handed to `BroadcastVideoStatus`, in order. -/
def notifiedStatuses (steps : List Step) : List String :=
  steps.filterMap (fun st => match st with
    | .broadcast _ status => some status
    | _ => none)

/-- The status calls of a run: `(false, s)` for a status persisted,
`(true, s)` for a status notified. -/
def statusCalls (steps : List Step) : List (Bool × String) :=
  steps.filterMap (fun st => match st with
    | .updateVideo video _ => some (false, video.Status)
    | .broadcast _ status => some (true, status)
    | _ => none)

/-- The phases started in a run, by name. -/
def phasesStarted (steps : List Step) : List String :=
  steps.filterMap (fun st => match st with
    | .downloadVideo _ _ => some "download"
    | .transcribeVideo _ _ => some "transcription"
    | .analyzeTranscript _ _ => some "analysis"
    | _ => none)

/-- Spec: the number of phases of a run that succeed before the first
failure (3 when none fails). -/
def phasesPassed (p : Pipeline) (url : String) (video : Video) : Nat :=
  match p.DownloadVideo url video.ID with
  | .error _ => 0
  | .ok downloadedVideo =>
    match p.TranscribeVideo downloadedVideo.FilePath video.ID with
    | .error _ => 1
    | .ok transcript =>
      match p.AnalyzeTranscript transcript video.ID with
      | .error _ => 2
      | .ok _ => 3

/-- Spec: the status sequence of a run in which `n` phases succeed. -/
def expectedStatuses (n : Nat) : List String :=
  if n ≥ 3 then ["downloading", "transcribing", "analyzing", "completed"]
  else ["downloading", "transcribing", "analyzing"].take (n + 1) ++ ["error"]

/-- A world for evaluation: every file exists, every command succeeds, no
credential is configured and the network is down. -/
def demoSys : Sys where
  getenv := fun _ => ""
  pathJoin := fun elems => "/".intercalate elems
  isAbs := fun p => stringsStartsWith p "/"
  absPath := fun p => .ok ("/srv/" ++ p)
  notExist := fun _ => false
  run := fun _ _ => ("", none)
  openFile := fun _ => none
  copyFile := fun _ => none
  newRequest := fun _ => none
  http := fun _ _ => .failed "connection refused"
  decodeWhisper := fun _ => .error "unexpected end of JSON input"
  decodeChat := fun _ => .error "unexpected end of JSON input"
  decodeOllama := fun _ => .error "unexpected end of JSON input"
  parseClips := fun _ => .error "unexpected end of JSON input"
  now := 1700000000
  uuid := fun k => "id-" ++ toString k

/-- The service with the default paths of `NewProcessingService`. -/
def demoService : ProcessingService where
  ffmpegPath := "ffmpeg"
  ytdlpPath := "./binaries/yt-dlp.exe"
  whisperPath := "./binaries/whisper"
  storagePath := "../storage"

/-- A downloaded video. -/
def demoVideo : Video where
  ID := "v1"
  URL := "https://example.org/watch"
  Title := "Talk"
  Duration := 600
  FilePath := "/srv/storage/videos/v1.mp4"
  ThumbnailURL := ""
  Status := "completed"
  CreatedAt := 0
  UpdatedAt := 0

/-- The render request of the scenario: `start_time = 10`, `end_time = 5`,
no cues, as the export handler builds it. -/
def reversedClip : Clip where
  ID := "c1"
  VideoID := "v1"
  Title := "Clip"
  StartTime := 10
  EndTime := 5
  FilePath := ""
  Status := "processing"
  Subtitles := []
  CreatedAt := 0
  CompletedAt := none

/-- The world of `demoSys` in which no file exists. -/
def missingSys : Sys := { demoSys with notExist := fun _ => true }

/-- A clip that is already rendered: status `completed`, a file path and a
completion time. -/
def renderedClip : Clip :=
  { reversedClip with StartTime := 0, EndTime := 5, FilePath := "../storage/clips/c1.mp4",
                      Status := "completed", CompletedAt := some 1600000000 }

/-- A render request with a proper window (0 s to 5 s), before it is stored. -/
def freshClip : Clip := { reversedClip with ID := "", StartTime := 0, EndTime := 5 }

/-- A suggestion as a backend may return it, with an identity and a video
id of its own. -/
def rawSuggestion : SuggestedClip where
  ID := "from-backend"
  VideoID := "other-video"
  StartTime := 12
  EndTime := 40
  Title := "Intro"
  Description := "The opening remarks"
  Score := 85
  Reason := "Complete thought"

/-- A world in which the cloud analysis backend is configured and answers
with one suggestion inside a JSON code fence. -/
def analysisSys : Sys :=
  { demoSys with
    getenv := fun key => if key = "DEEPSEEK_API_KEY" then "secret" else ""
    http := fun _ _ => .reply 200 "reply" none
    decodeChat := fun _ => .ok ⟨["\x60\x60\x60json\n[1]\n\x60\x60\x60"], none⟩
    parseClips := fun content => if content = "[1]" then .ok [rawSuggestion] else .ok [] }

/-- The transcript handed to the analysis in the evaluations. -/
def demoTranscript : Transcript := createMockTranscript demoSys 0 "v1"

/-- The backtick, the rune code fences are made of. -/
def tick : Char := '\x60'

/-- A world in which a transcription credential is configured and the
network is down. -/
def offlineSys : Sys :=
  { demoSys with getenv := fun key => if key = "OPENAI_API_KEY" then "secret" else "" }

/-- A pipeline in which the three phases succeed and both secondary saves
fail. -/
def savesFailPipeline : Pipeline where
  UpdateVideo := fun _ => none
  DownloadVideo := fun _ _ => .ok demoVideo
  TranscribeVideo := fun _ _ => .ok demoTranscript
  SaveTranscript := fun _ => some "database is locked"
  AnalyzeTranscript := fun _ _ => .ok [rawSuggestion]
  SaveSuggestedClips := fun _ => some "database is locked"

/-- The video record as `CreateVideo` returns it for a new request. -/
def newVideo : Video :=
  { demoVideo with Title := "", Duration := 0, FilePath := "", Status := "pending" }

/-- The scenario cue on a red background given in `rgb(...)` form, at
opacity 1/2. -/
def rgbCue : SubtitleConfig := { hiCue with BgColor := "rgb(255,0,0)", BgOpacity := 1 / 2 }

/-- The scenario cue on the same red background given in hex form. -/
def hexCue : SubtitleConfig := { hiCue with BgColor := "#FF0000", BgOpacity := 1 / 2 }

/-- The evaluation library with a scan that reads the red of `rgbCue`. -/
def scanLib : GoLib :=
  { asciiLib with sscanRGB := fun s => if s = "rgb(255,0,0)" then (255, 0, 0) else (0, 0, 0) }

/-! ## Raw clip extraction -/

/-- The absolute value rounded to the nearest natural number, ties to even:
the digits that `%.0f` prints. -/
def units (x : ℚ) : Nat := roundDivHalfEven x.num.natAbs x.den

/-- Verb `%.0f`: sign and integer digits, correctly rounded. -/
def fmtF0 (x : ℚ) : String := (if x < 0 then "-" else "") ++ toString (units x)

/-- Source: `ProcessingService.ExtractClipOnly`, variable `outputFilename`. -/
def extractFilename (videoID : String) (startTime endTime : ℚ) : String :=
  videoID ++ "_raw_" ++ fmtF0 startTime ++ "-" ++ fmtF0 endTime ++ ".mp4"

/-- Source: `ProcessingService.ExtractClipOnly`, the arguments handed to the
engine. -/
def extractClipArgs (inputPath outputPath : String) (startTime endTime : ℚ) : List String :=
  ["-y", "-ss", fmtF2 startTime, "-i", inputPath, "-t", fmtF2 (f64 (endTime - startTime)),
    "-vf", "scale=-1:1920,crop=min(iw\\,1080):1920", "-s", "1080x1920", "-c:v", "libx264",
    "-preset", "fast", "-crf", "18", "-pix_fmt", "yuv420p", "-c:a", "aac", "-b:a", "192k",
    "-movflags", "+faststart", outputPath]

/-- Source: `ProcessingService.ExtractClipOnly`; `mkdirErr` is the error of
`os.MkdirAll` on the clips directory. The result is the output path. -/
def ProcessingService.ExtractClipOnly (s : ProcessingService) (w : Sys)
    (mkdirErr : Option String) (inputPath videoID : String) (startTime endTime : ℚ) :
    List Effect × Except String String :=
  let outputDir := w.pathJoin [s.storagePath, "clips"]
  match mkdirErr with
  | some err => ([], .error ("failed to create clips directory: " ++ err))
  | none =>
    let outputFilename := extractFilename videoID startTime endTime
    let outputPath := w.pathJoin [outputDir, outputFilename]
    if w.notExist inputPath then
      ([], .error ("input video file does not exist: " ++ inputPath))
    else
      let args := extractClipArgs inputPath outputPath startTime endTime
      match w.run s.ffmpegPath args with
      | (output, some err) =>
        ([.exec s.ffmpegPath args],
          .error ("failed to extract clip: " ++ err ++ ", output: " ++ output))
      | (_, none) => ([.exec s.ffmpegPath args], .ok outputPath)

/-! ## Specification-side definitions for positions and sizes -/

/-- A layer that places the text of a cue: horizontally in the middle of the
frame, vertically at the anchor expression of the cue. -/
def carriesPosition (lib : GoLib) (layer : String) (sub : SubtitleConfig) : Prop :=
  ∃ pre post : String, layer = pre ++ ":x=(w-text_w)/2:y=" ++ yExpr lib sub ++ post

/-- A layer that carries a font size as one of its options. -/
def carriesFontSize (layer : String) (size : Int) : Prop :=
  ∃ pre post : String, layer = pre ++ ":fontsize=" ++ fmtD size ++ ":fontcolor=" ++ post

/-- Spec: `round`, the nearest integer, halves upward. -/
def specRound (x : ℚ) : Int := ⌊x + 1 / 2⌋

/-- Spec: `max(36, round(s × 1920/720))`, where `s` is the font size of the
cue when it is positive and 20 otherwise. -/
def specFontSize (fontSize : Int) : Int :=
  max 36 (specRound (((if fontSize ≤ 0 then 20 else fontSize : Int) : ℚ) * (1920 / 720)))

/-- Spec: `round(blur × (1920/720) / 6)`, where `blur` is the shadow strength
of the cue when it is positive and 12 otherwise. -/
def specShadowSpread (shadowBlur : Int) : Int :=
  specRound (((if shadowBlur ≤ 0 then 12 else shadowBlur : Int) : ℚ) * (1920 / 720) / 6)

/-- A text of exactly two upper-case hexadecimal digits. -/
def isHexByte (t : String) : Bool :=
  t.length == 2 && t.data.all (fun c => c.isDigit || (decide ('A' ≤ c) && decide (c ≤ 'F')))

/-! ## Values for the evaluations of positions, sizes and extraction -/

/-- A suggestion that starts before the video and ends long after it. -/
def wildSuggestion : SuggestedClip :=
  { rawSuggestion with StartTime := -5, EndTime := 100000 }

/-- The world of `analysisSys` in which the backend answers with
`wildSuggestion`. -/
def wildSys : Sys :=
  { analysisSys with
    parseClips := fun content => if content = "[1]" then .ok [wildSuggestion] else .ok [] }

/-- The scenario cue at position `bottom`. -/
def bottomCue : SubtitleConfig := { hiCue with Position := "bottom" }

/-- The scenario cue at an unrecognised position. -/
def middleCue : SubtitleConfig := { hiCue with Position := "middle" }

/-- The scenario cue at position `center`, in mixed case. -/
def centerCue : SubtitleConfig := { hiCue with Position := "CeNtEr" }

/-- The scenario cue at position `top`, in mixed case. -/
def topCue : SubtitleConfig := { hiCue with Position := "Top" }

/-- The scenario cue with font size 4·10^18. -/
def hugeFontCue : SubtitleConfig := { hiCue with FontSize := 4000000000000000000 }

/-- The scenario cue with font size 24 and a red active colour. -/
def font24Cue : SubtitleConfig := { hiCue with FontSize := 24, ActiveTextColor := "#FF0000" }

/-- The scenario cue with border radius and shadow strength 9·10^18. -/
def hugeShadowCue : SubtitleConfig :=
  { hiCue with BorderRadius := 9000000000000000000, ShadowBlur := 9000000000000000000 }

/-- The scenario cue with border radius 8 and shadow strength 30. -/
def softShadowCue : SubtitleConfig := { hiCue with BorderRadius := 8, ShadowBlur := 30 }

/-- A render request for the window 0 s to 5 s whose only cue has a blank
text. -/
def blankOnlyClip : Clip :=
  { reversedClip with StartTime := 0, EndTime := 5, Subtitles := [blankCue] }

/-- A render request for the window 0 s to 5 s with the scenario cue. -/
def subtitledClip : Clip :=
  { reversedClip with StartTime := 0, EndTime := 5, Subtitles := [hiCue] }

/-- Constant `math.MaxFloat64`, the largest finite binary64 value,
2^1024 - 2^971. -/
def MaxFloat64 : ℚ := (2 ^ 53 - 1) * 2 ^ 971

/-- The scenario cue with shadow strength 1. -/
def faintShadowCue : SubtitleConfig := { hiCue with ShadowBlur := 1 }

/-- The downloaded video with its file path relative to the working
directory of the server, as the default storage path `../storage` gives it. -/
def relativeVideo : Video := { demoVideo with FilePath := "../storage/videos/v1.mp4" }

/-- The world `demoSys` with working directory `/srv/backend`:
`filepath.Abs` joins a relative path to it and cleans the result. -/
def backendSys : Sys :=
  { demoSys with
    absPath := fun p =>
      if p = "../storage/videos/v1.mp4" then .ok "/srv/storage/videos/v1.mp4"
      else .ok ("/srv/backend/" ++ p) }

/-! ## Lemmas on strings -/

theorem unicodeIsSpace_toLower (lib : GoLib) (h : lib.LowerKeepsSpace) (c : Char) :
    unicodeIsSpace (unicodeToLower lib c) = unicodeIsSpace c := by
  unfold unicodeToLower
  split_ifs with h1 h2
  · obtain ⟨n, hn⟩ : ∃ n, c.toNat = n := ⟨_, rfl⟩
    have hc : c = Char.ofNat n := by rw [← hn, Char.ofNat_toNat]
    rw [hn] at h2 h1
    obtain ⟨h3, h4⟩ := h2
    subst hc
    interval_cases n <;> decide
  · rfl
  · exact h c (Nat.lt_of_not_le h1)

theorem dropWhile_append_all {p : Char → Bool} (l y : List Char) (h : ∀ c ∈ l, p c = true) :
    (l ++ y).dropWhile p = y.dropWhile p := by
  induction l with
  | nil => rfl
  | cons a l ih =>
    have ha : p a = true := h a (List.mem_cons_self _ _)
    rw [List.cons_append, List.dropWhile_cons_of_pos ha]
    exact ih (fun c hc => h c (List.mem_cons_of_mem _ hc))

theorem dropWhile_append_right {p : Char → Bool} (y r : List Char) (h : ∀ c ∈ r, p c = true) :
    (y ++ r).dropWhile p = if y.dropWhile p = [] then [] else y.dropWhile p ++ r := by
  induction y with
  | nil =>
    simp only [List.nil_append, List.dropWhile_nil, if_true]
    have := dropWhile_append_all r [] h
    simpa using this
  | cons a y ih =>
    by_cases ha : p a = true
    · rw [List.cons_append, List.dropWhile_cons_of_pos ha, List.dropWhile_cons_of_pos ha]
      exact ih
    · rw [List.cons_append, List.dropWhile_cons_of_neg ha, List.dropWhile_cons_of_neg ha]
      simp

theorem trimSpaceList_pad (l s r : List Char) (hl : ∀ c ∈ l, unicodeIsSpace c = true)
    (hr : ∀ c ∈ r, unicodeIsSpace c = true) :
    trimSpaceList (l ++ s ++ r) = trimSpaceList s := by
  unfold trimSpaceList
  rw [List.append_assoc, dropWhile_append_all l _ hl, dropWhile_append_right s r hr]
  split_ifs with h0
  · rw [h0]
  · rw [List.reverse_append, dropWhile_append_all]
    intro c hc
    exact hr c (List.mem_reverse.mp hc)

theorem trimSpaceList_map_lower (lib : GoLib) (h : lib.LowerKeepsSpace) (s : List Char) :
    (trimSpaceList s).map (unicodeToLower lib) = trimSpaceList (s.map (unicodeToLower lib)) := by
  have hcomp : (unicodeIsSpace ∘ unicodeToLower lib) = unicodeIsSpace := by
    funext c
    exact unicodeIsSpace_toLower lib h c
  unfold trimSpaceList
  rw [List.dropWhile_map, hcomp, ← List.map_reverse, List.dropWhile_map, hcomp, List.map_reverse]

/-- Padding with white space and changing letter case do not change the
folded family name. -/
theorem foldedFamily_pad_case (lib : GoLib) (h : lib.LowerKeepsSpace) (l r f g : String)
    (hl : allSpace l) (hr : allSpace r) (hfg : sameUpToCase lib f g) :
    foldedFamily lib (l ++ f ++ r) = foldedFamily lib g := by
  unfold foldedFamily stringsToLower stringsTrimSpace
  congr 1
  simp only [String.data_append]
  rw [trimSpaceList_pad l.data f.data r.data hl hr, trimSpaceList_map_lower lib h,
    trimSpaceList_map_lower lib h]
  exact congrArg trimSpaceList hfg

/-- The family normalisation depends on the name only through its folded
form. -/
theorem normaliseFamily_congr (lib : GoLib) (f g : String)
    (h : foldedFamily lib f = foldedFamily lib g) :
    normaliseFamily lib f = normaliseFamily lib g := by
  unfold normaliseFamily
  unfold foldedFamily at h
  rw [h]

theorem foldedFamily_ne_empty_of_contains (lib : GoLib) (f p : String)
    (hp : p.data ≠ []) (h : stringsContains (foldedFamily lib f) p = true) :
    foldedFamily lib f ≠ "" := by
  intro h0
  rw [h0] at h
  unfold stringsContains listContains at h
  cases hd : p.data with
  | nil => exact hp hd
  | cons a t => rw [hd] at h; simp at h

/-! ## Lemmas on rounding and formatting -/

theorem roundDivHalfEven_error (p q : Nat) (hq : 0 < q) :
    |((roundDivHalfEven p q : Nat) : ℚ) - (p : ℚ) / (q : ℚ)| ≤ 1 / 2 := by
  have hq' : (0 : ℚ) < (q : ℚ) := by exact_mod_cast hq
  have hdiv : q * (p / q) + p % q = p := Nat.div_add_mod p q
  have hp : (p : ℚ) = (q : ℚ) * ((p / q : Nat) : ℚ) + ((p % q : Nat) : ℚ) := by
    exact_mod_cast hdiv.symm
  have hmod0 : (0 : ℚ) ≤ ((p % q : Nat) : ℚ) := Nat.cast_nonneg _
  have hfrac : (p : ℚ) / (q : ℚ) = ((p / q : Nat) : ℚ) + ((p % q : Nat) : ℚ) / (q : ℚ) := by
    have h1 : (p : ℚ) / (q : ℚ) = ((q : ℚ) * ((p / q : Nat) : ℚ) + ((p % q : Nat) : ℚ)) / (q : ℚ) := by
      rw [← hp]
    rw [h1, add_div, mul_div_cancel_left₀ _ (ne_of_gt hq')]
  have hρ0 : (0 : ℚ) ≤ ((p % q : Nat) : ℚ) / (q : ℚ) := div_nonneg hmod0 (le_of_lt hq')
  unfold roundDivHalfEven
  simp only []
  rw [hfrac, abs_le]
  split_ifs with h1 h2 h3
  · have h1' : (2 : ℚ) * ((p % q : Nat) : ℚ) < (q : ℚ) := by exact_mod_cast h1
    have : ((p % q : Nat) : ℚ) / (q : ℚ) ≤ 1 / 2 := by
      rw [div_le_iff₀ hq']
      linarith
    constructor <;> linarith
  · have h2' : (q : ℚ) < (2 : ℚ) * ((p % q : Nat) : ℚ) := by exact_mod_cast h2
    have h3' : ((p % q : Nat) : ℚ) < (q : ℚ) := by exact_mod_cast Nat.mod_lt p hq
    have ha : 1 / 2 ≤ ((p % q : Nat) : ℚ) / (q : ℚ) := by
      rw [le_div_iff₀ hq']
      linarith
    have hb : ((p % q : Nat) : ℚ) / (q : ℚ) ≤ 1 := by
      rw [div_le_iff₀ hq']
      linarith
    push_cast
    constructor <;> linarith
  · have heq : 2 * (p % q) = q := by omega
    have heq' : (2 : ℚ) * ((p % q : Nat) : ℚ) = (q : ℚ) := by exact_mod_cast heq
    have : ((p % q : Nat) : ℚ) / (q : ℚ) = 1 / 2 := by
      rw [div_eq_iff (ne_of_gt hq')]
      linarith
    constructor <;> linarith
  · have heq : 2 * (p % q) = q := by omega
    have heq' : (2 : ℚ) * ((p % q : Nat) : ℚ) = (q : ℚ) := by exact_mod_cast heq
    have : ((p % q : Nat) : ℚ) / (q : ℚ) = 1 / 2 := by
      rw [div_eq_iff (ne_of_gt hq')]
      linarith
    push_cast
    constructor <;> linarith

/-- The hundredths printed by `%.2f`, as a natural number. -/
theorem valF2_eq (x : ℚ) :
    valF2 x = if x < 0 then -((roundDivHalfEven (x.num.natAbs * 100) x.den : Nat) : ℚ) / 100
      else ((roundDivHalfEven (x.num.natAbs * 100) x.den : Nat) : ℚ) / 100 := by
  unfold valF2 hundredths
  split_ifs <;> ring

theorem abs_eq_natAbs_div_den (x : ℚ) : |x| = (x.num.natAbs : ℚ) / (x.den : ℚ) := by
  have hden : (0 : ℚ) < (x.den : ℚ) := by exact_mod_cast x.den_pos
  conv_lhs => rw [← Rat.num_div_den x]
  rw [abs_div, abs_of_pos hden]
  congr 1
  rw [← Int.cast_abs]
  exact (Nat.cast_natAbs x.num).symm

theorem hundredths_error (x : ℚ) :
    |((roundDivHalfEven (x.num.natAbs * 100) x.den : Nat) : ℚ) - 100 * (|x|)| ≤ 1 / 2 := by
  have h := roundDivHalfEven_error (x.num.natAbs * 100) x.den x.den_pos
  rw [abs_eq_natAbs_div_den x]
  have : ((x.num.natAbs * 100 : Nat) : ℚ) / (x.den : ℚ) = 100 * ((x.num.natAbs : ℚ) / (x.den : ℚ)) := by
    push_cast
    ring
  rw [this] at h
  exact h

/-- The number printed by `%.2f` is within half a hundredth of the value. -/
theorem valF2_error (x : ℚ) : |valF2 x - x| ≤ 1 / 200 := by
  have h := hundredths_error x
  rw [abs_le] at h ⊢
  rw [valF2_eq]
  split_ifs with hx
  · rw [abs_of_neg hx] at h
    constructor <;> linarith
  · rw [abs_of_nonneg (not_lt.mp hx)] at h
    constructor <;> linarith

/-- The number printed by `%.2f` is monotone in the value. -/
theorem valF2_mono {x y : ℚ} (hxy : x ≤ y) : valF2 x ≤ valF2 y := by
  rcases eq_or_lt_of_le hxy with heq | hlt
  · rw [heq]
  have hx := hundredths_error x
  have hy := hundredths_error y
  rw [abs_le] at hx hy
  rw [valF2_eq, valF2_eq]
  have key : ∀ m n : Nat, ((m : ℚ) < (n : ℚ) + 1) → (m : ℚ) ≤ (n : ℚ) := by
    intro m n h
    have : m < n + 1 := by exact_mod_cast h
    exact_mod_cast Nat.lt_succ_iff.mp this
  have hnn : ∀ n : Nat, (0 : ℚ) ≤ (n : ℚ) := fun n => Nat.cast_nonneg n
  split_ifs with h1 h2 h2
  · rw [abs_of_neg h1] at hx
    rw [abs_of_neg h2] at hy
    have := key _ _ (show ((roundDivHalfEven (y.num.natAbs * 100) y.den : Nat) : ℚ) <
      ((roundDivHalfEven (x.num.natAbs * 100) x.den : Nat) : ℚ) + 1 by linarith)
    linarith
  · have := hnn (roundDivHalfEven (x.num.natAbs * 100) x.den)
    have := hnn (roundDivHalfEven (y.num.natAbs * 100) y.den)
    linarith
  · linarith
  · rw [abs_of_nonneg (not_lt.mp h1)] at hx
    rw [abs_of_nonneg (not_lt.mp h2)] at hy
    have := key _ _ (show ((roundDivHalfEven (x.num.natAbs * 100) x.den : Nat) : ℚ) <
      ((roundDivHalfEven (y.num.natAbs * 100) y.den : Nat) : ℚ) + 1 by linarith)
    linarith

/-- Rounding to binary64 keeps a non-positive value non-positive. -/
theorem f64_nonpos {x : ℚ} (hx : x ≤ 0) : f64 x ≤ 0 := by
  by_cases h0 : x.num.natAbs = 0
  · simp only [f64, h0, if_true]
    exact le_refl _
  · by_cases h1 : x < 0
    · simp only [f64, h0, h1, if_true, if_false]
      rw [neg_nonpos]
      exact div_nonneg (Nat.cast_nonneg _) (Nat.cast_nonneg _)
    · exfalso
      have hx0 : x = 0 := le_antisymm hx (not_lt.mp h1)
      rw [hx0] at h0
      exact h0 rfl

/-! ## Lemmas on the filter builder -/

theorem filterStep_eq (lib : GoLib) (acc : List String) (c : SubtitleConfig) :
    filterStep lib acc c = acc ++ cueFilters lib c := by
  unfold cueFilters filterStep
  split_ifs <;> simp

theorem foldl_filterStep (lib : GoLib) (subs : List SubtitleConfig) (acc : List String) :
    subs.foldl (filterStep lib) acc = acc ++ subs.flatMap (cueFilters lib) := by
  induction subs generalizing acc with
  | nil => simp
  | cons c cs ih => rw [List.foldl_cons, ih, filterStep_eq, List.flatMap_cons, List.append_assoc]

theorem buildFilters_eq_flatMap (lib : GoLib) (subs : List SubtitleConfig) :
    buildFilters lib subs = subs.flatMap (cueFilters lib) := by
  unfold buildFilters
  rw [foldl_filterStep, List.nil_append]

theorem buildFilters_middle (lib : GoLib) (pre post : List SubtitleConfig) (c : SubtitleConfig) :
    buildFilters lib (pre ++ c :: post) =
      buildFilters lib pre ++ (cueFilters lib c ++ buildFilters lib post) := by
  simp only [buildFilters_eq_flatMap, List.flatMap_append, List.flatMap_cons]

theorem cueFilters_of_not_blank (lib : GoLib) (c : SubtitleConfig) (h : isBlank c = false) :
    cueFilters lib c = shadowFilters lib c ++ baseFilter lib c :: activeFilters lib c := by
  unfold cueFilters filterStep
  simp [h]

theorem cueFilters_of_blank (lib : GoLib) (c : SubtitleConfig) (h : isBlank c = true) :
    cueFilters lib c = [] := by
  unfold cueFilters filterStep
  simp [h]

theorem bgOpacity_pos_of_pos (c : SubtitleConfig) (hop : 0 < c.BgOpacity) : 0 < bgOpacity c := by
  unfold bgOpacity
  simp only []
  have hne : ¬ (c.BgOpacity = 0 ∧ c.BgColor = "") := fun h => (ne_of_gt hop) h.1
  have hnn : ¬ c.BgOpacity < 0 := not_lt.mpr (le_of_lt hop)
  rw [if_neg hne, if_neg hnn]
  split_ifs
  · exact one_pos
  · exact hop

theorem f64_four_fifths : f64 (4 / 5) = 3602879701896397 / 4503599627370496 := by decide!

theorem shadowFilter_carriesGate (lib : GoLib) (c : SubtitleConfig) :
    carriesGate (shadowFilter lib c) c :=
  ⟨"drawtext=text=\x27" ++ escapedText c ++ "\x27:fontfile=" ++ fontPath lib c ++
      ":fontsize=" ++ fmtD (scaledFontSize c) ++ ":fontcolor=0x000000@0:box=1:boxcolor=" ++
      shadowColor c ++ ":boxborderw=" ++ fmtD (shadowBorder c) ++ ":x=" ++ xExpr ++
      ":y=" ++ yExpr lib c ++ "+" ++ fmtD shadowYOffset, "", by
    simp only [shadowFilter, String.append_assoc, String.append_empty]⟩

theorem baseFilter_carriesGate (lib : GoLib) (c : SubtitleConfig) :
    carriesGate (baseFilter lib c) c :=
  ⟨"drawtext=text=\x27" ++ escapedText c ++ "\x27:fontfile=" ++ fontPath lib c ++
      ":fontsize=" ++ fmtD (scaledFontSize c) ++ ":fontcolor=" ++ textColor lib c ++
      ":box=1:boxcolor=" ++ bgColorHex lib c ++ ":boxborderw=" ++ fmtD (boxBorder c) ++
      ":x=" ++ xExpr ++ ":y=" ++ yExpr lib c,
    ":shadowx=" ++ fmtD 0 ++ ":shadowy=" ++ fmtD textShadowY ++ ":shadowcolor=" ++ "black@0.5", by
    simp only [baseFilter, String.append_assoc]⟩

theorem activeFilter_carriesGate (lib : GoLib) (c : SubtitleConfig) :
    carriesGate (activeFilter lib c) c :=
  ⟨"drawtext=text=\x27" ++ escapedText c ++ "\x27:fontfile=" ++ fontPath lib c ++
      ":fontsize=" ++ fmtD (scaledFontSize c) ++ ":fontcolor=" ++ activeColor lib c ++
      ":box=0:x=" ++ xExpr ++ ":y=" ++ yExpr lib c,
    ":alpha=\x27min(1\\,max(0\\,(t-" ++ fmtF2 c.StartTime ++ ")/" ++
      fmtF2 (fadeDuration c) ++ "))\x27", by
    simp only [activeFilter, String.append_assoc]⟩

theorem mem_cueFilters (lib : GoLib) (c : SubtitleConfig) (layer : String)
    (h : layer ∈ cueFilters lib c) :
    isBlank c = false ∧
      (layer = shadowFilter lib c ∨ layer = baseFilter lib c ∨ layer = activeFilter lib c) := by
  cases hb : isBlank c with
  | true =>
    rw [cueFilters_of_blank lib c hb] at h
    exact absurd h (List.not_mem_nil _)
  | false =>
    refine ⟨rfl, ?_⟩
    rw [cueFilters_of_not_blank lib c hb] at h
    unfold shadowFilters activeFilters at h
    rcases List.mem_append.mp h with h1 | h1
    · split_ifs at h1
      · exact Or.inl (List.mem_singleton.mp h1)
      · exact absurd h1 (List.not_mem_nil _)
    · rcases List.mem_cons.mp h1 with h2 | h2
      · exact Or.inr (Or.inl h2)
      · split_ifs at h2
        · exact Or.inr (Or.inr (List.mem_singleton.mp h2))
        · exact absurd h2 (List.not_mem_nil _)

/-! ## Lemmas on the font search -/

theorem wrapInt_of_small (x : Int) (h1 : -2 ^ 63 ≤ x) (h2 : x < 2 ^ 63) : wrapInt x = x := by
  unfold wrapInt
  rw [Int.emod_eq_of_lt (by linarith) (by linarith)]
  ring

theorem absInt_wrapInt_of_near (x : Int) (h : |x| < maxInt32) : absInt (wrapInt x) = |x| := by
  unfold maxInt32 at h
  have hx := abs_lt.mp h
  rw [wrapInt_of_small x (by linarith [hx.1]) (by linarith [hx.2])]
  unfold absInt
  split_ifs with h0
  · rw [wrapInt_of_small (-x) (by linarith [hx.2]) (by linarith [hx.1]), abs_of_neg h0]
  · rw [abs_of_nonneg (not_lt.mp h0)]

theorem searchAgrees_foldl (target : Int) (variants : List fontVariant)
    (h : ∀ v ∈ variants, |target - v.weight| < maxInt32) (st : String × Int)
    (best : Option fontVariant) (hinv : searchAgrees target st best) :
    searchAgrees target (variants.foldl (bestStep target) st)
      (variants.foldl (closestStep target) best) := by
  induction variants generalizing st best with
  | nil => exact hinv
  | cons v vs ih =>
    rw [List.foldl_cons, List.foldl_cons]
    apply ih (fun x hx => h x (List.mem_cons_of_mem _ hx))
    have hv := h v (List.mem_cons_self _ _)
    unfold bestStep closestStep
    simp only []
    rw [absInt_wrapInt_of_near _ hv]
    cases best with
    | none =>
      unfold searchAgrees at hinv
      simp only [] at hinv
      rw [hinv, if_pos hv]
      rfl
    | some b =>
      unfold searchAgrees at hinv
      simp only [] at hinv
      rw [hinv]
      simp only []
      split_ifs
      · rfl
      · rfl

/-- When every distance is below the initial `bestDiff`, the search loop
returns the path of the closest entry, the first one among equals. -/
theorem bestVariant_eq_closest (variants : List fontVariant) (target : Int)
    (h : ∀ v ∈ variants, |target - v.weight| < maxInt32) (hne : variants ≠ []) :
    some (bestVariant variants target) =
      (closestVariant variants target).map fontVariant.path := by
  cases variants with
  | nil => exact absurd rfl hne
  | cons v0 vs =>
    have hinv := searchAgrees_foldl target (v0 :: vs) h (v0.path, maxInt32) none rfl
    unfold bestVariant closestVariant
    simp only []
    generalize hst : List.foldl (bestStep target) (v0.path, maxInt32) (v0 :: vs) = st at hinv
    generalize hb : List.foldl (closestStep target) none (v0 :: vs) = best at hinv
    cases best with
    | none =>
      exfalso
      rw [List.foldl_cons] at hb
      have : ∀ (l : List fontVariant) (b0 : fontVariant),
          List.foldl (closestStep target) (some b0) l ≠ none := by
        intro l
        induction l with
        | nil => intro b0 hcon; exact absurd hcon (by simp)
        | cons x xs ihx =>
          intro b0
          rw [List.foldl_cons]
          unfold closestStep
          simp only []
          split_ifs
          · exact ihx x
          · exact ihx b0
      exact this vs v0 hb
    | some b =>
      unfold searchAgrees at hinv
      simp only [] at hinv
      rw [hinv]
      rfl

theorem lookup_some_mem (l : List (String × List fontVariant)) (k : String)
    (t : List fontVariant) (h : l.lookup k = some t) : ∃ k0 : String, (k0, t) ∈ l := by
  induction l with
  | nil => simp [List.lookup] at h
  | cons p ps ih =>
    obtain ⟨a, b⟩ := p
    unfold List.lookup at h
    split at h
    · exact ⟨a, by rw [← Option.some.inj h]; exact List.mem_cons_self _ _⟩
    · obtain ⟨k0, hk0⟩ := ih h
      exact ⟨k0, List.mem_cons_of_mem _ hk0⟩

theorem fontLibraryAt_weights (family : String) (v : fontVariant)
    (hv : v ∈ fontLibraryAt family) : 300 ≤ v.weight ∧ v.weight ≤ 700 := by
  have hall : ∀ p ∈ fontLibrary, ∀ x ∈ p.2, 300 ≤ x.weight ∧ x.weight ≤ 700 := by decide
  unfold fontLibraryAt at hv
  cases hl : fontLibrary.lookup family with
  | none =>
    rw [hl] at hv
    exact absurd hv (List.not_mem_nil _)
  | some t =>
    rw [hl] at hv
    obtain ⟨k0, hk0⟩ := lookup_some_mem _ _ _ hl
    exact hall (k0, t) hk0 v hv

theorem fontLibraryAt_ne_nil_of_has (family : String) (h : fontLibraryHas family = true) :
    fontLibraryAt family ≠ [] := by
  have hall : ∀ p ∈ fontLibrary, p.2 ≠ [] := by decide
  unfold fontLibraryHas at h
  unfold fontLibraryAt
  cases hl : fontLibrary.lookup family with
  | none =>
    rw [hl] at h
    exact absurd h (by simp)
  | some t =>
    obtain ⟨k0, hk0⟩ := lookup_some_mem _ _ _ hl
    exact hall (k0, t) hk0

/-- The normalised family is always a key of the font library. -/
theorem fontLibraryHas_normaliseFamily (lib : GoLib) (f : String) :
    fontLibraryHas (normaliseFamily lib f) = true := by
  unfold normaliseFamily
  simp only []
  split_ifs
  all_goals first | rfl | simp_all

/-- Within 2^31 - 1 of the table weights, `resolveFontPath` returns the path
of the entry of the resolved family at minimum absolute distance from the
effective target weight, the first such entry in table order. -/
theorem resolveFontPath_closest_of_near (lib : GoLib) (f : String) (w : Int) (b : Bool)
    (h1 : -2147482947 < targetWeight w b) (h2 : targetWeight w b < 2147483947) :
    some (resolveFontPath lib f w b) =
      (closestVariant (fontLibraryAt (normaliseFamily lib f)) (targetWeight w b)).map
        fontVariant.path := by
  unfold resolveFontPath
  apply bestVariant_eq_closest
  · intro v hv
    have hw := fontLibraryAt_weights _ v hv
    unfold maxInt32
    rw [abs_lt]
    constructor <;> linarith [hw.1, hw.2]
  · exact fontLibraryAt_ne_nil_of_has _ (fontLibraryHas_normaliseFamily lib f)

/-- The example of the tie rule: at target 550 the entries 700 and 400 of
"courier new" are equally far, and the first one, 700, is returned. -/
theorem resolveFontPath_courier_tie (lib : GoLib) :
    resolveFontPath lib "courier new" 550 false =
      "/usr/share/fonts/liberation/LiberationMono-Bold.ttf" := by
  have hfam : normaliseFamily lib "courier new" = "courier new" := by rfl
  unfold resolveFontPath
  rw [hfam]
  decide!

/-! ## Lemmas on substrings -/

theorem listContains_of_split (a p b : List Char) : listContains (a ++ (p ++ b)) p = true := by
  induction a with
  | nil =>
    rw [List.nil_append]
    cases hpb : p ++ b with
    | nil =>
      have hp : p = [] := (List.append_eq_nil.mp hpb).1
      rw [hp]
      rfl
    | cons x xs =>
      unfold listContains
      rw [← hpb, Bool.or_eq_true]
      left
      rw [List.isPrefixOf_iff_prefix]
      exact List.prefix_append p b
  | cons x xs ih =>
    rw [List.cons_append]
    unfold listContains
    rw [ih, Bool.or_true]

theorem split_of_listContains (l p : List Char) (h : listContains l p = true) :
    ∃ a b : List Char, l = a ++ (p ++ b) := by
  induction l with
  | nil =>
    unfold listContains at h
    have hp : p = [] := List.isEmpty_iff.mp h
    exact ⟨[], [], by rw [hp]; rfl⟩
  | cons x xs ih =>
    unfold listContains at h
    rcases Bool.or_eq_true_iff.mp h with h1 | h1
    · obtain ⟨b, hb⟩ := List.isPrefixOf_iff_prefix.mp h1
      exact ⟨[], b, by rw [List.nil_append, hb]⟩
    · obtain ⟨a, b, hab⟩ := ih h1
      exact ⟨x :: a, b, by rw [hab, List.cons_append]⟩

theorem dropWhile_keeps_block (q : Char → Bool) (a rest : List Char) (c : Char)
    (hc : q c = false) :
    ∃ a0 : List Char, (a ++ c :: rest).dropWhile q = a0 ++ c :: rest := by
  induction a with
  | nil =>
    refine ⟨[], ?_⟩
    rw [List.nil_append, List.dropWhile_cons_of_neg (by rw [hc]; exact Bool.false_ne_true)]
  | cons x xs ih =>
    by_cases hx : q x = true
    · rw [List.cons_append, List.dropWhile_cons_of_pos hx]
      exact ih
    · exact ⟨x :: xs, by rw [List.cons_append, List.dropWhile_cons_of_neg hx]⟩

/-- A block that starts and ends with a rune that is not white space
survives trimming. -/
theorem trimSpaceList_keeps_block (a b mid : List Char) (c d : Char)
    (hc : unicodeIsSpace c = false) (hd : unicodeIsSpace d = false) :
    ∃ a0 b0 : List Char,
      trimSpaceList (a ++ ((c :: mid ++ [d]) ++ b)) = a0 ++ ((c :: mid ++ [d]) ++ b0) := by
  unfold trimSpaceList
  obtain ⟨a0, ha0⟩ := dropWhile_keeps_block unicodeIsSpace a (mid ++ [d] ++ b) c hc
  have e1 : a ++ ((c :: mid ++ [d]) ++ b) = a ++ c :: (mid ++ [d] ++ b) := by simp
  rw [e1, ha0]
  have e2 : (a0 ++ c :: (mid ++ [d] ++ b)).reverse =
      b.reverse ++ d :: (mid.reverse ++ c :: a0.reverse) := by simp
  rw [e2]
  obtain ⟨b1, hb1⟩ :=
    dropWhile_keeps_block unicodeIsSpace b.reverse (mid.reverse ++ c :: a0.reverse) d hd
  rw [hb1]
  exact ⟨a0, b1.reverse, by simp⟩

/-- A pattern of lower-case ASCII letters and inner blanks that occurs in a
family name still occurs in its folded form. -/
theorem stringsContains_foldedFamily (lib : GoLib) (f : String) (mid : List Char) (c d : Char)
    (hc : unicodeIsSpace c = false) (hd : unicodeIsSpace d = false)
    (hlow : ∀ x ∈ c :: mid ++ [d], x.toNat ≤ 0x7F ∧ ¬ (65 ≤ x.toNat ∧ x.toNat ≤ 90))
    (h : stringsContains f ⟨c :: mid ++ [d]⟩ = true) :
    stringsContains (foldedFamily lib f) ⟨c :: mid ++ [d]⟩ = true := by
  unfold stringsContains at h ⊢
  obtain ⟨a, b, hab⟩ := split_of_listContains _ _ h
  obtain ⟨a0, b0, htrim⟩ := trimSpaceList_keeps_block a b mid c d hc hd
  have hfix : (c :: mid ++ [d]).map (unicodeToLower lib) = c :: mid ++ [d] := by
    have hid : (c :: mid ++ [d]).map (unicodeToLower lib) = (c :: mid ++ [d]).map id := by
      apply List.map_congr_left
      intro x hx
      unfold unicodeToLower
      rw [if_pos (hlow x hx).1, if_neg (hlow x hx).2]
      rfl
    rw [hid, List.map_id]
  unfold foldedFamily stringsToLower stringsTrimSpace
  simp only []
  rw [hab, htrim, List.map_append, List.map_append, hfix]
  exact listContains_of_split _ _ _

theorem normaliseFamily_of_space_grotesk (lib : GoLib) (f : String)
    (h1 : stringsContains (foldedFamily lib f) "space" = true)
    (h2 : stringsContains (foldedFamily lib f) "grotesk" = true) :
    normaliseFamily lib f = "space grotesk" := by
  have hne := foldedFamily_ne_empty_of_contains lib f "space" (by decide) h1
  unfold foldedFamily at h1 h2 hne
  unfold normaliseFamily
  simp only [hne, if_false, h1, h2, Bool.and_self, if_true]

theorem normaliseFamily_of_courier (lib : GoLib) (f : String)
    (h1 : (stringsContains (foldedFamily lib f) "space" &&
      stringsContains (foldedFamily lib f) "grotesk") = false)
    (h2 : stringsContains (foldedFamily lib f) "playfair" = false)
    (h3 : stringsContains (foldedFamily lib f) "courier" = true) :
    normaliseFamily lib f = "courier new" := by
  have hne := foldedFamily_ne_empty_of_contains lib f "courier" (by decide) h3
  unfold foldedFamily at h1 h2 h3 hne
  unfold normaliseFamily
  simp [hne, h1, h2, h3]

theorem normaliseFamily_of_mono (lib : GoLib) (f : String)
    (h1 : (stringsContains (foldedFamily lib f) "space" &&
      stringsContains (foldedFamily lib f) "grotesk") = false)
    (h2 : stringsContains (foldedFamily lib f) "playfair" = false)
    (h3 : stringsContains (foldedFamily lib f) "courier" = false)
    (h4 : stringsContains (foldedFamily lib f) "mono" = true) :
    normaliseFamily lib f = "monospace" := by
  have hne := foldedFamily_ne_empty_of_contains lib f "mono" (by decide) h4
  unfold foldedFamily at h1 h2 h3 h4 hne
  unfold normaliseFamily
  simp [hne, h1, h2, h3, h4]

theorem normaliseFamily_of_unknown (lib : GoLib) (f : String)
    (h1 : (stringsContains (foldedFamily lib f) "space" &&
      stringsContains (foldedFamily lib f) "grotesk") = false)
    (h2 : stringsContains (foldedFamily lib f) "playfair" = false)
    (h3 : stringsContains (foldedFamily lib f) "courier" = false)
    (h4 : stringsContains (foldedFamily lib f) "mono" = false)
    (h5 : stringsContains (foldedFamily lib f) "open sans" = false)
    (h6 : stringsContains (foldedFamily lib f) "poppins" = false)
    (h7 : stringsContains (foldedFamily lib f) "inter" = false)
    (h8 : fontLibraryHas (foldedFamily lib f) = false) :
    normaliseFamily lib f = "default" := by
  unfold foldedFamily at h1 h2 h3 h4 h5 h6 h7 h8
  unfold normaliseFamily
  by_cases h0 : stringsToLower lib (stringsTrimSpace f) = ""
  · simp only [h0, if_true]
    rfl
  · simp [h0, h1, h2, h3, h4, h5, h6, h7, h8]

theorem asciiLib_lowerKeepsSpace : asciiLib.LowerKeepsSpace := fun _ _ => rfl

/-! ## Font resolution: theorems -/

/-- C1 (the code departs from the claim on a far-away weight): for family
"default", weight -3000000000 and no emphasis, the family resolves to
"default" and the effective target is -3000000000; the table entry at
minimum absolute distance from that target is the one of weight 300
(LiberationSans-Regular), but every distance exceeds the initial
`bestDiff = math.MaxInt32`, no entry is ever selected, and `resolveFontPath`
returns the path of the first entry, of weight 700 (DejaVuSans-Bold). -/
theorem resolveFontPath_far_weight_not_closest (lib : GoLib) :
    normaliseFamily lib "default" = "default" ∧
    targetWeight (-3000000000) false = -3000000000 ∧
    closestVariant (fontLibraryAt "default") (-3000000000) =
      some ⟨300, "/usr/share/fonts/liberation/LiberationSans-Regular.ttf"⟩ ∧
    resolveFontPath lib "default" (-3000000000) false =
      "/usr/share/fonts/dejavu/DejaVuSans-Bold.ttf" := by
  have hfam : normaliseFamily lib "default" = "default" := by rfl
  refine ⟨hfam, by decide, by decide!, ?_⟩
  unfold resolveFontPath
  rw [hfam]
  decide!

/-- C2: the effective target weight is 400 for weight 0 and the requested
weight otherwise, raised to 600 under the emphasis flag when it is below 600.
Hence `resolveFontPath f 0 b = resolveFontPath f 400 b`, and
`resolveFontPath f w true = resolveFontPath f (max w' 600) false` with
`w' = w`, or `400` when `w = 0`. -/
theorem resolveFontPath_effective_target (lib : GoLib) (f : String) (w : Int) (b : Bool) :
    targetWeight w false = (if w = 0 then 400 else w) ∧
    targetWeight w true = max (if w = 0 then 400 else w) 600 ∧
    resolveFontPath lib f 0 b = resolveFontPath lib f 400 b ∧
    resolveFontPath lib f w true =
      resolveFontPath lib f (max (if w = 0 then 400 else w) 600) false := by
  have hT : targetWeight w true = max (if w = 0 then 400 else w) 600 := by
    unfold targetWeight
    by_cases h0 : w = 0
    · simp [h0]
    · simp only [h0, if_false, Bool.true_and, decide_eq_true_eq]
      split_ifs with h6
      · exact (max_eq_right (le_of_lt h6)).symm
      · exact (max_eq_left (not_lt.mp h6)).symm
  have hF : ∀ v : Int, 600 ≤ v → targetWeight v false = v := by
    intro v hv
    unfold targetWeight
    have : v ≠ 0 := by omega
    simp [this]
  refine ⟨by simp [targetWeight], hT, ?_, ?_⟩
  · unfold resolveFontPath
    have : targetWeight 0 b = targetWeight 400 b := by cases b <;> rfl
    rw [this]
  · unfold resolveFontPath
    rw [hT, hF _ (le_max_right _ _)]

/-- C3 (counterexample): a name containing "courier" does not always resolve
as "courier new": "playfair courier" is caught by the earlier "playfair"
alias and resolves to the serif font of "playfair display". -/
theorem courier_alias_shadowed :
    ¬ ∀ (lib : GoLib) (f : String) (w : Int) (b : Bool),
      stringsContains (foldedFamily lib f) "courier" = true →
        resolveFontPath lib f w b = resolveFontPath lib "courier new" w b :=
  fun h => absurd (h asciiLib "playfair courier" 400 false (by decide!)) (by decide!)

/-- C3 (amended): family normalisation is insensitive to letter case and to
leading and trailing white space, and it applies the aliases in the order of
the switch, to the trimmed and lower-cased name (in which an alias that
occurs in the name as given still occurs). For every weight and flag: names
that differ only in case and in white-space padding resolve alike; a name
whose folded form contains both "space" and "grotesk" resolves as
"space grotesk"; one that contains "courier", but neither that pair nor
"playfair", resolves as "courier new"; one that contains "mono" and none of
the earlier aliases resolves as "monospace"; and a name that matches no alias
and is not a key of the font library, the empty name included, resolves as
"default". -/
theorem resolveFontPath_family_normalisation (lib : GoLib) (hlib : lib.LowerKeepsSpace) :
    (∀ (l r f g : String) (w : Int) (b : Bool),
      allSpace l → allSpace r → sameUpToCase lib f g →
        resolveFontPath lib (l ++ f ++ r) w b = resolveFontPath lib g w b) ∧
    (∀ (f : String) (w : Int) (b : Bool),
      stringsContains (foldedFamily lib f) "space" = true →
      stringsContains (foldedFamily lib f) "grotesk" = true →
        resolveFontPath lib f w b = resolveFontPath lib "space grotesk" w b) ∧
    (∀ (f : String) (w : Int) (b : Bool),
      stringsContains (foldedFamily lib f) "courier" = true →
      (stringsContains (foldedFamily lib f) "space" &&
        stringsContains (foldedFamily lib f) "grotesk") = false →
      stringsContains (foldedFamily lib f) "playfair" = false →
        resolveFontPath lib f w b = resolveFontPath lib "courier new" w b) ∧
    (∀ (f : String) (w : Int) (b : Bool),
      stringsContains (foldedFamily lib f) "mono" = true →
      (stringsContains (foldedFamily lib f) "space" &&
        stringsContains (foldedFamily lib f) "grotesk") = false →
      stringsContains (foldedFamily lib f) "playfair" = false →
      stringsContains (foldedFamily lib f) "courier" = false →
        resolveFontPath lib f w b = resolveFontPath lib "monospace" w b) ∧
    (∀ (f : String) (w : Int) (b : Bool),
      (stringsContains (foldedFamily lib f) "space" &&
        stringsContains (foldedFamily lib f) "grotesk") = false →
      stringsContains (foldedFamily lib f) "playfair" = false →
      stringsContains (foldedFamily lib f) "courier" = false →
      stringsContains (foldedFamily lib f) "mono" = false →
      stringsContains (foldedFamily lib f) "open sans" = false →
      stringsContains (foldedFamily lib f) "poppins" = false →
      stringsContains (foldedFamily lib f) "inter" = false →
      fontLibraryHas (foldedFamily lib f) = false →
        resolveFontPath lib f w b = resolveFontPath lib "default" w b) ∧
    (∀ (w : Int) (b : Bool), resolveFontPath lib "" w b = resolveFontPath lib "default" w b) ∧
    (∀ (f p : String),
      p ∈ ["space", "grotesk", "playfair", "courier", "mono", "open sans", "poppins", "inter"] →
      stringsContains f p = true → stringsContains (foldedFamily lib f) p = true) := by
  refine ⟨?_, ?_, ?_, ?_, ?_, ?_, ?_⟩
  · intro l r f g w b hl hr hfg
    unfold resolveFontPath
    rw [normaliseFamily_congr lib _ _ (foldedFamily_pad_case lib hlib l r f g hl hr hfg)]
  · intro f w b h1 h2
    unfold resolveFontPath
    rw [normaliseFamily_of_space_grotesk lib f h1 h2]
    rfl
  · intro f w b h3 h1 h2
    unfold resolveFontPath
    rw [normaliseFamily_of_courier lib f h1 h2 h3]
    rfl
  · intro f w b h4 h1 h2 h3
    unfold resolveFontPath
    rw [normaliseFamily_of_mono lib f h1 h2 h3 h4]
    rfl
  · intro f w b h1 h2 h3 h4 h5 h6 h7 h8
    unfold resolveFontPath
    rw [normaliseFamily_of_unknown lib f h1 h2 h3 h4 h5 h6 h7 h8]
    rfl
  · intro w b
    rfl
  · intro f p hp h
    simp only [List.mem_cons, List.mem_singleton, List.not_mem_nil, or_false] at hp
    rcases hp with hp | hp | hp | hp | hp | hp | hp | hp
    · rw [hp] at h ⊢
      exact stringsContains_foldedFamily lib f "pac".data 's' 'e' (by decide) (by decide)
        (by decide) h
    · rw [hp] at h ⊢
      exact stringsContains_foldedFamily lib f "rotes".data 'g' 'k' (by decide) (by decide)
        (by decide) h
    · rw [hp] at h ⊢
      exact stringsContains_foldedFamily lib f "layfai".data 'p' 'r' (by decide) (by decide)
        (by decide) h
    · rw [hp] at h ⊢
      exact stringsContains_foldedFamily lib f "ourie".data 'c' 'r' (by decide) (by decide)
        (by decide) h
    · rw [hp] at h ⊢
      exact stringsContains_foldedFamily lib f "on".data 'm' 'o' (by decide) (by decide)
        (by decide) h
    · rw [hp] at h ⊢
      exact stringsContains_foldedFamily lib f "pen san".data 'o' 's' (by decide) (by decide)
        (by decide) h
    · rw [hp] at h ⊢
      exact stringsContains_foldedFamily lib f "oppin".data 'p' 's' (by decide) (by decide)
        (by decide) h
    · rw [hp] at h ⊢
      exact stringsContains_foldedFamily lib f "nte".data 'i' 'r' (by decide) (by decide)
        (by decide) h

/-- C3 (witness): " Courier New" followed by a tab resolves as "courier new"
does, at weight 700. -/
theorem resolveFontPath_family_normalisation_witness :
    asciiLib.LowerKeepsSpace ∧
    resolveFontPath asciiLib (" " ++ "Courier New" ++ "\t") 700 false =
      resolveFontPath asciiLib "courier new" 700 false :=
  ⟨asciiLib_lowerKeepsSpace,
    (resolveFontPath_family_normalisation asciiLib asciiLib_lowerKeepsSpace).1
      " " "\t" "Courier New" "courier new" 700 false (by unfold allSpace; decide)
      (by unfold allSpace; decide) (by unfold sameUpToCase; decide)⟩

/-! ## Filter builder: theorems -/

/-- C4 (counterexample): a cue with background opacity 1/2 whose text is
blank gets no layer at all, so no shadow layer either. -/
theorem blank_cue_has_no_shadow :
    ¬ ∀ (lib : GoLib) (c : SubtitleConfig),
      0 < c.BgOpacity → shadowFilter lib c ∈ buildFilters lib [c] :=
  fun h => absurd (h asciiLib blankCue (by decide!)) (by decide!)

/-- C4 (amended): for every cue with a non-blank text and background opacity
above 0, at any place of the cue list, the builder emits the shadow layer of
the cue immediately before its base layer, after all layers of the earlier
cues and before all layers of the later ones; the shadow layer is a box-only
drawtext: its font colour is the fully transparent `0x000000@0` and it draws
a box. -/
theorem shadow_layer_before_base (lib : GoLib) (pre post : List SubtitleConfig)
    (c : SubtitleConfig) (hblank : isBlank c = false) (hop : 0 < c.BgOpacity) :
    buildFilters lib (pre ++ c :: post) =
      buildFilters lib pre ++
        (shadowFilter lib c :: baseFilter lib c ::
          (activeFilters lib c ++ buildFilters lib post)) ∧
    shadowFilter lib c =
      ("drawtext=text=\x27" ++ escapedText c ++ "\x27:fontfile=" ++ fontPath lib c ++
        ":fontsize=" ++ fmtD (scaledFontSize c)) ++
      ":fontcolor=0x000000@0:box=1:boxcolor=" ++
      (shadowColor c ++ ":boxborderw=" ++ fmtD (shadowBorder c) ++ ":x=" ++ xExpr ++
        ":y=" ++ yExpr lib c ++ "+" ++ fmtD shadowYOffset ++ ":" ++ enableExpr c) := by
  constructor
  · rw [buildFilters_middle, cueFilters_of_not_blank lib c hblank]
    unfold shadowFilters
    rw [if_pos (bgOpacity_pos_of_pos c hop)]
    simp
  · simp only [shadowFilter, String.append_assoc]

/-- C4 (witness): the cue "Hi" with background opacity 1/2, followed by the
scenario cue. -/
theorem shadow_layer_before_base_witness :
    isBlank halfCue = false ∧ 0 < halfCue.BgOpacity ∧
    buildFilters asciiLib ([] ++ halfCue :: [hiCue]) =
      buildFilters asciiLib [] ++
        (shadowFilter asciiLib halfCue :: baseFilter asciiLib halfCue ::
          (activeFilters asciiLib halfCue ++ buildFilters asciiLib [hiCue])) :=
  ⟨by decide, by decide!,
    (shadow_layer_before_base asciiLib [] [hiCue] halfCue (by decide) (by decide!)).1⟩

/-- C5: the effective background opacity is the float64 constant 0.8 when the
cue has `BgOpacity` 0 and an empty `BgColor`, and `BgOpacity` clamped to
[0, 1] otherwise; it always lies in [0, 1]. For the scenario cue "Hi" the
box colour of the base layer is `0x000000CC` (black, alpha 0.8), and the
layers are exactly the shadow layer and the base layer: no highlight. -/
theorem bgOpacity_default_and_clamp (lib : GoLib) (c : SubtitleConfig) :
    bgOpacity c =
      (if c.BgOpacity = 0 ∧ c.BgColor = "" then f64 (4 / 5)
        else if c.BgOpacity < 0 then 0 else if 1 < c.BgOpacity then 1 else c.BgOpacity) ∧
    0 ≤ bgOpacity c ∧ bgOpacity c ≤ 1 ∧
    |f64 (4 / 5) - 4 / 5| ≤ 1 / 2 ^ 54 ∧
    bgOpacity hiCue = f64 (4 / 5) ∧
    bgColorHex lib hiCue = "0x000000CC" ∧
    baseFilter lib hiCue =
      ("drawtext=text=\x27" ++ escapedText hiCue ++ "\x27:fontfile=" ++ fontPath lib hiCue ++
        ":fontsize=" ++ fmtD (scaledFontSize hiCue) ++ ":fontcolor=" ++ textColor lib hiCue) ++
      ":box=1:boxcolor=" ++ "0x000000CC" ++
      (":boxborderw=" ++ fmtD (boxBorder hiCue) ++ ":x=" ++ xExpr ++ ":y=" ++
        yExpr lib hiCue ++ ":" ++ enableExpr hiCue ++ ":shadowx=" ++ fmtD 0 ++ ":shadowy=" ++
        fmtD textShadowY ++ ":shadowcolor=" ++ "black@0.5") ∧
    buildFilters lib [hiCue] = [shadowFilter lib hiCue, baseFilter lib hiCue] := by
  have hform : bgOpacity c =
      (if c.BgOpacity = 0 ∧ c.BgColor = "" then f64 (4 / 5)
        else if c.BgOpacity < 0 then 0 else if 1 < c.BgOpacity then 1 else c.BgOpacity) := by
    unfold bgOpacity
    simp only []
    split_ifs with h1 h2 h3 h4 <;> first | rfl | (exfalso; linarith)
  have hhi : bgOpacity hiCue = f64 (4 / 5) := by decide!
  have hhex : bgColorHex lib hiCue = "0x000000CC" := by
    unfold bgColorHex
    rw [hhi]
    have hcol : hiCue.BgColor = "" := rfl
    rw [hcol]
    unfold parseColorWithAlpha
    have h1 : stringsStartsWith "" "rgba" = false := by decide
    have h2 : stringsStartsWith "" "#" = false := by decide
    simp only [h1, h2, if_false, Bool.false_eq_true]
    have h3 : fmtX02 (floatToInt (f64 (f64 (4 / 5) * 255))) = "CC" := by decide!
    rw [h3]
    decide
  refine ⟨hform, ?_, ?_, ?_, hhi, hhex, ?_, ?_⟩
  · rw [hform, f64_four_fifths]
    split_ifs with h1 h2 h3
    · norm_num
    · exact le_refl _
    · exact zero_le_one
    · exact not_lt.mp h2
  · rw [hform, f64_four_fifths]
    split_ifs with h1 h2 h3
    · norm_num
    · exact zero_le_one
    · exact le_refl _
    · exact not_lt.mp h3
  · rw [f64_four_fifths]
    norm_num [abs_le]
  · simp only [baseFilter, String.append_assoc, hhex]
  · rw [buildFilters_eq_flatMap]
    have hb : isBlank hiCue = false := by decide
    have hsh : shadowFilters lib hiCue = [shadowFilter lib hiCue] := by
      unfold shadowFilters
      rw [if_pos (by rw [hhi, f64_four_fifths]; norm_num)]
    have hact : activeFilters lib hiCue = [] := by
      unfold activeFilters
      rw [if_neg (by decide)]
    simp [cueFilters_of_not_blank lib hiCue hb, hsh, hact]

/-- C6 (counterexample): for the cue shown from 1/256 s to 257/256 s the gate
is `between(t,0.00,1.00)`: its bounds are 0 and 1, not the times of the cue. -/
theorem gate_bounds_not_exact :
    enableExpr offGridCue = "enable=\x27between(t,0.00,1.00)\x27" ∧
    offGridCue.StartTime = 1 / 256 ∧ offGridCue.EndTime = 257 / 256 ∧
    valF2 offGridCue.StartTime = 0 ∧ valF2 offGridCue.EndTime = 1 ∧
    ¬ (valF2 offGridCue.StartTime = offGridCue.StartTime ∧
        valF2 offGridCue.EndTime = offGridCue.EndTime) := by
  decide!

/-- C6 (amended): every layer that the builder emits is the shadow, base or
highlight layer of a non-blank cue of the list and carries the visibility
gate of that cue, `enable='between(t,S,E)'`, where `S` and `E` are the start
and end time of the cue printed with two decimals; the printed numbers are
within half a hundredth of a second of the times of the cue. -/
theorem gate_on_every_layer (lib : GoLib) (subs : List SubtitleConfig) (layer : String)
    (h : layer ∈ buildFilters lib subs) :
    ∃ c ∈ subs, isBlank c = false ∧
      (layer = shadowFilter lib c ∨ layer = baseFilter lib c ∨ layer = activeFilter lib c) ∧
      carriesGate layer c ∧
      enableExpr c =
        "enable=\x27between(t," ++ fmtF2 c.StartTime ++ "," ++ fmtF2 c.EndTime ++ ")\x27" ∧
      |valF2 c.StartTime - c.StartTime| ≤ 1 / 200 ∧
      |valF2 c.EndTime - c.EndTime| ≤ 1 / 200 := by
  rw [buildFilters_eq_flatMap, List.mem_flatMap] at h
  obtain ⟨c, hc, hl⟩ := h
  obtain ⟨hb, hkind⟩ := mem_cueFilters lib c layer hl
  refine ⟨c, hc, hb, hkind, ?_, rfl, valF2_error _, valF2_error _⟩
  rcases hkind with h1 | h1 | h1
  · rw [h1]
    exact shadowFilter_carriesGate lib c
  · rw [h1]
    exact baseFilter_carriesGate lib c
  · rw [h1]
    exact activeFilter_carriesGate lib c

/-- C6 (witness): the base layer of the scenario cue. -/
theorem gate_on_every_layer_witness :
    baseFilter asciiLib hiCue ∈ buildFilters asciiLib [hiCue] ∧
    ∃ c ∈ [hiCue], isBlank c = false ∧
      (baseFilter asciiLib hiCue = shadowFilter asciiLib c ∨
        baseFilter asciiLib hiCue = baseFilter asciiLib c ∨
        baseFilter asciiLib hiCue = activeFilter asciiLib c) ∧
      carriesGate (baseFilter asciiLib hiCue) c ∧
      enableExpr c =
        "enable=\x27between(t," ++ fmtF2 c.StartTime ++ "," ++ fmtF2 c.EndTime ++ ")\x27" ∧
      |valF2 c.StartTime - c.StartTime| ≤ 1 / 200 ∧
      |valF2 c.EndTime - c.EndTime| ≤ 1 / 200 :=
  ⟨by decide!, gate_on_every_layer asciiLib [hiCue] (baseFilter asciiLib hiCue) (by decide!)⟩

/-- C7 (counterexample): for the cue with start 5 s and end 3 s the gate is
`between(t,5.00,3.00)`; its upper bound is not above its lower bound. -/
theorem reversed_cue_gate_not_widened :
    reversedCue.EndTime ≤ reversedCue.StartTime ∧
    enableExpr reversedCue = "enable=\x27between(t,5.00,3.00)\x27" ∧
    ¬ (valF2 reversedCue.StartTime < valF2 reversedCue.EndTime) := by
  decide!

/-- C7 (amended): for every cue with end ≤ start the gate is still
`between(t,S,E)` with the start and end time of the cue printed with two
decimals, so its upper bound is at most its lower bound; what degenerates to
a minimum is the duration used for the highlight fade, 0.1 s, whose fade
duration prints as 0.09. -/
theorem gate_of_reversed_cue (c : SubtitleConfig) (h : c.EndTime ≤ c.StartTime) :
    enableExpr c =
      "enable=\x27between(t," ++ fmtF2 c.StartTime ++ "," ++ fmtF2 c.EndTime ++ ")\x27" ∧
    valF2 c.EndTime ≤ valF2 c.StartTime ∧
    duration c = f64 (1 / 10) ∧
    fmtF2 (fadeDuration c) = "0.09" := by
  have hd : duration c = f64 (1 / 10) := by
    unfold duration
    simp only []
    rw [if_pos (f64_nonpos (sub_nonpos.mpr h))]
  refine ⟨rfl, valF2_mono h, hd, ?_⟩
  unfold fadeDuration
  rw [hd]
  decide!

/-- C7 (witness): the cue with start 5 s and end 3 s. -/
theorem gate_of_reversed_cue_witness :
    reversedCue.EndTime ≤ reversedCue.StartTime ∧
    valF2 reversedCue.EndTime ≤ valF2 reversedCue.StartTime ∧
    duration reversedCue = f64 (1 / 10) :=
  ⟨by decide!, (gate_of_reversed_cue reversedCue (by decide!)).2.1,
    (gate_of_reversed_cue reversedCue (by decide!)).2.2.1⟩

/-- C8: for every non-blank cue, at any place of the cue list, the layers of
the cue are its shadow layers, its base layer and then, exactly when the
active colour is non-empty and differs from the base colour, one highlight
layer, which is therefore the last layer of the cue; the highlight layer is
text-only (`box=0`, no box colour) and its font colour is the active colour
in the renderer form. -/
theorem highlight_layer_iff (lib : GoLib) (pre post : List SubtitleConfig)
    (c : SubtitleConfig) (hblank : isBlank c = false) :
    buildFilters lib (pre ++ c :: post) =
      buildFilters lib pre ++
        ((shadowFilters lib c ++ baseFilter lib c ::
          (if c.ActiveTextColor ≠ "" ∧ c.ActiveTextColor ≠ c.Color
            then [activeFilter lib c] else [])) ++ buildFilters lib post) ∧
    activeFilter lib c =
      ("drawtext=text=\x27" ++ escapedText c ++ "\x27:fontfile=" ++ fontPath lib c ++
        ":fontsize=" ++ fmtD (scaledFontSize c)) ++
      ":fontcolor=" ++ activeColor lib c ++ ":box=0:x=" ++
      (xExpr ++ ":y=" ++ yExpr lib c ++ ":" ++ enableExpr c ++
        ":alpha=\x27min(1\\,max(0\\,(t-" ++ fmtF2 c.StartTime ++ ")/" ++
        fmtF2 (fadeDuration c) ++ "))\x27") ∧
    (c.ActiveTextColor ≠ "" →
      ∀ d : String, activeColor lib c = parseColorToFFmpeg lib c.ActiveTextColor d) := by
  refine ⟨?_, ?_, ?_⟩
  · rw [buildFilters_middle, cueFilters_of_not_blank lib c hblank]
    unfold activeFilters hasActive
    by_cases h1 : c.ActiveTextColor = ""
    · simp [h1]
    · by_cases h2 : c.ActiveTextColor = c.Color
      · simp [h1, h2]
      · simp [h1, h2]
  · simp only [activeFilter, String.append_assoc]
  · intro h d
    unfold activeColor parseColorToFFmpeg
    simp only [h, if_false]

/-- C8 (witness): the quarter-second cue with a red active colour has its
highlight layer last. -/
theorem highlight_layer_iff_witness :
    isBlank quarterCue = false ∧
    buildFilters asciiLib ([] ++ quarterCue :: []) =
      buildFilters asciiLib [] ++
        ((shadowFilters asciiLib quarterCue ++ baseFilter asciiLib quarterCue ::
          (if quarterCue.ActiveTextColor ≠ "" ∧ quarterCue.ActiveTextColor ≠ quarterCue.Color
            then [activeFilter asciiLib quarterCue] else [])) ++ buildFilters asciiLib []) :=
  ⟨by decide, (highlight_layer_iff asciiLib [] [] quarterCue (by decide)).1⟩

/-! ## Text escaping -/

theorem escapeRune_eq (r : Char) :
    (if r = Char.ofNat 39 then quoteEscape.data else [r]).flatMap
        (fun c => if c = ':' then "\\:".data else [c]) = escapeRune r := by
  unfold escapeRune
  by_cases h1 : r = Char.ofNat 39
  · rw [if_pos h1, if_pos h1]
    decide
  · rw [if_neg h1, if_neg h1]
    by_cases h2 : r = ':'
    · rw [if_pos h2, h2]
      decide
    · rw [if_neg h2]
      simp [h2]

theorem escapedText_data (c : SubtitleConfig) :
    (escapedText c).data = c.Text.data.flatMap escapeRune := by
  unfold escapedText stringsReplaceAllRune
  simp only []
  induction c.Text.data with
  | nil => rfl
  | cons r rs ih =>
    rw [List.flatMap_cons, List.flatMap_append, ih, List.flatMap_cons, escapeRune_eq]

theorem flatMap_escapeRune_plain (l : List Char)
    (h : ∀ r ∈ l, r ≠ Char.ofNat 39 ∧ r ≠ ':') : l.flatMap escapeRune = l := by
  induction l with
  | nil => rfl
  | cons r rs ih =>
    have hr := h r (List.mem_cons_self _ _)
    rw [List.flatMap_cons, ih (fun x hx => h x (List.mem_cons_of_mem _ hx))]
    unfold escapeRune
    rw [if_neg hr.1, if_neg hr.2]
    rfl

theorem colonsEscaped_nil : ColonsEscaped [] := by
  intro pre post h
  exact absurd h (by simp)

theorem colonsEscaped_append {a b : List Char} (ha : ColonsEscaped a) (hb : ColonsEscaped b) :
    ColonsEscaped (a ++ b) := by
  intro pre post h
  rcases List.append_eq_append_iff.mp h with ⟨m, hm1, hm2⟩ | ⟨m, hm1, hm2⟩
  · obtain ⟨p0, hp0⟩ := hb m post hm2
    exact ⟨a ++ p0, by rw [hm1, hp0, List.append_assoc]⟩
  · cases m with
    | nil =>
      rw [List.nil_append] at hm2
      obtain ⟨p0, hp0⟩ := hb [] post hm2.symm
      exact absurd hp0 (by simp)
    | cons x m =>
      rw [List.cons_append] at hm2
      have hx : x = ':' := (List.cons.inj hm2).1.symm
      rw [hx] at hm1
      exact ha pre m hm1

theorem colonsEscaped_escapeRune (r : Char) : ColonsEscaped (escapeRune r) := by
  unfold escapeRune
  by_cases h1 : r = Char.ofNat 39
  · rw [if_pos h1]
    intro pre post h
    have hmem : (':' : Char) ∈ quoteEscape.data := by
      rw [h]
      simp
    exact absurd hmem (by decide)
  · rw [if_neg h1]
    by_cases h2 : r = ':'
    · rw [if_pos h2]
      intro pre post h
      refine ⟨[], ?_⟩
      cases pre with
      | nil => exact absurd (List.cons.inj h).1 (by decide)
      | cons x pre =>
        have hx : x = '\\' := (List.cons.inj h).1.symm
        have ht : [':'] = pre ++ ':' :: post := (List.cons.inj h).2
        cases pre with
        | nil => rw [hx]; rfl
        | cons y pre =>
          have := (List.cons.inj ht).2
          exact absurd this (by simp)
    · rw [if_neg h2]
      intro pre post h
      have hmem : (':' : Char) ∈ [r] := by
        rw [h]
        simp
      exact absurd (List.mem_singleton.mp hmem).symm h2

theorem colonsEscaped_flatMap (l : List Char) : ColonsEscaped (l.flatMap escapeRune) := by
  induction l with
  | nil => exact colonsEscaped_nil
  | cons r rs ih =>
    rw [List.flatMap_cons]
    exact colonsEscaped_append (colonsEscaped_escapeRune r) ih

/-- C10: the text embedded in the layers is the cue text in which every
single quote is replaced by the fixed escape sequence (quote, three
backslashes, two quotes), every colon by backslash-colon, and every other
rune is kept, in order; a text with neither rune is embedded unchanged; in
the embedded text every colon stands right after a backslash; and the
shadow, base and highlight layer of a cue all embed this same text, between
`drawtext=text='` and `':fontfile=`. -/
theorem text_escaping (lib : GoLib) (c : SubtitleConfig) :
    (escapedText c).data = c.Text.data.flatMap escapeRune ∧
    escapeRune (Char.ofNat 39) = [Char.ofNat 39, '\\', '\\', '\\', Char.ofNat 39, Char.ofNat 39] ∧
    escapeRune ':' = ['\\', ':'] ∧
    (∀ r : Char, r ≠ Char.ofNat 39 → r ≠ ':' → escapeRune r = [r]) ∧
    ((∀ r ∈ c.Text.data, r ≠ Char.ofNat 39 ∧ r ≠ ':') → escapedText c = c.Text) ∧
    ColonsEscaped (escapedText c).data ∧
    shadowFilter lib c =
      "drawtext=text=\x27" ++ escapedText c ++ "\x27:fontfile=" ++
        (fontPath lib c ++ ":fontsize=" ++ fmtD (scaledFontSize c) ++
          ":fontcolor=0x000000@0:box=1:boxcolor=" ++ shadowColor c ++ ":boxborderw=" ++
          fmtD (shadowBorder c) ++ ":x=" ++ xExpr ++ ":y=" ++ yExpr lib c ++ "+" ++
          fmtD shadowYOffset ++ ":" ++ enableExpr c) ∧
    baseFilter lib c =
      "drawtext=text=\x27" ++ escapedText c ++ "\x27:fontfile=" ++
        (fontPath lib c ++ ":fontsize=" ++ fmtD (scaledFontSize c) ++ ":fontcolor=" ++
          textColor lib c ++ ":box=1:boxcolor=" ++ bgColorHex lib c ++ ":boxborderw=" ++
          fmtD (boxBorder c) ++ ":x=" ++ xExpr ++ ":y=" ++ yExpr lib c ++ ":" ++
          enableExpr c ++ ":shadowx=" ++ fmtD 0 ++ ":shadowy=" ++ fmtD textShadowY ++
          ":shadowcolor=" ++ "black@0.5") ∧
    activeFilter lib c =
      "drawtext=text=\x27" ++ escapedText c ++ "\x27:fontfile=" ++
        (fontPath lib c ++ ":fontsize=" ++ fmtD (scaledFontSize c) ++ ":fontcolor=" ++
          activeColor lib c ++ ":box=0:x=" ++ xExpr ++ ":y=" ++ yExpr lib c ++ ":" ++
          enableExpr c ++ ":alpha=\x27min(1\\,max(0\\,(t-" ++ fmtF2 c.StartTime ++ ")/" ++
          fmtF2 (fadeDuration c) ++ "))\x27") := by
  refine ⟨escapedText_data c, by decide, by decide, ?_, ?_, ?_, ?_, ?_, ?_⟩
  · intro r h1 h2
    unfold escapeRune
    rw [if_neg h1, if_neg h2]
  · intro h
    have := escapedText_data c
    rw [flatMap_escapeRune_plain _ h] at this
    exact String.ext this
  · rw [escapedText_data]
    exact colonsEscaped_flatMap _
  · simp only [shadowFilter, String.append_assoc]
  · simp only [baseFilter, String.append_assoc]
  · simp only [activeFilter, String.append_assoc]

/-! ## Lemmas on joining -/

theorem intercalate_go_append (p acc sep : String) (l : List String) :
    String.intercalate.go (p ++ acc) sep l = p ++ String.intercalate.go acc sep l := by
  induction l generalizing acc with
  | nil => rfl
  | cons a l ih =>
    unfold String.intercalate.go
    rw [String.append_assoc, String.append_assoc, ← String.append_assoc acc, ih]

theorem intercalate_go_split (acc sep : String) (xs : List String) (y : String)
    (ys : List String) :
    String.intercalate.go acc sep (xs ++ y :: ys) =
      String.intercalate.go acc sep xs ++ sep ++ String.intercalate.go y sep ys := by
  induction xs generalizing acc with
  | nil =>
    rw [List.nil_append]
    show String.intercalate.go (acc ++ sep ++ y) sep ys = _
    rw [intercalate_go_append]
    rfl
  | cons x xs ih =>
    rw [List.cons_append]
    show String.intercalate.go (acc ++ sep ++ x) sep (xs ++ y :: ys) = _
    rw [ih]
    rfl

/-- Joining two non-empty lists joins each and puts one separator between. -/
theorem stringsJoin_append (xs ys : List String) (sep : String) (hx : xs ≠ []) (hy : ys ≠ []) :
    stringsJoin (xs ++ ys) sep = stringsJoin xs sep ++ sep ++ stringsJoin ys sep := by
  unfold stringsJoin
  cases xs with
  | nil => exact absurd rfl hx
  | cons x xs =>
    cases ys with
    | nil => exact absurd rfl hy
    | cons y ys =>
      show String.intercalate.go x sep (xs ++ y :: ys) = _
      rw [intercalate_go_split]
      rfl

theorem buildFilters_append (lib : GoLib) (xs ys : List SubtitleConfig) :
    buildFilters lib (xs ++ ys) = buildFilters lib xs ++ buildFilters lib ys := by
  simp only [buildFilters_eq_flatMap, List.flatMap_append]

theorem cueFilters_eq (lib : GoLib) (c : SubtitleConfig) :
    cueFilters lib c =
      if isBlank c then []
      else shadowFilters lib c ++ baseFilter lib c :: activeFilters lib c := by
  cases hb : isBlank c with
  | true => rw [cueFilters_of_blank lib c hb]; rfl
  | false => rw [cueFilters_of_not_blank lib c hb]; rfl

/-! ## Cue lists, renderer and stages: theorems -/

/-- C11: the builder is a homomorphism on cue lists and keeps the input order.
The layers of a concatenation are the layers of the first list followed by
the layers of the second, and the output is their join by commas (the two
outputs joined by one comma when neither list of layers is empty, the other
output when one is). The layers of a list are those of its cues, in input
order, whatever their time windows; a cue with a blank text contributes none,
any other cue its shadow layer (when there is one), its base layer and its
highlight layer (when there is one), in this order. -/
theorem buildSubtitlesFilter_append (lib : GoLib) (xs ys : List SubtitleConfig) :
    buildFilters lib (xs ++ ys) = buildFilters lib xs ++ buildFilters lib ys ∧
    buildSubtitlesFilter lib (xs ++ ys) =
      stringsJoin (buildFilters lib xs ++ buildFilters lib ys) "," ∧
    buildSubtitlesFilter lib (xs ++ ys) =
      (if buildFilters lib xs = [] then buildSubtitlesFilter lib ys
        else if buildFilters lib ys = [] then buildSubtitlesFilter lib xs
        else buildSubtitlesFilter lib xs ++ "," ++ buildSubtitlesFilter lib ys) ∧
    buildFilters lib xs = xs.flatMap (cueFilters lib) ∧
    (∀ c : SubtitleConfig,
      cueFilters lib c =
        if isBlank c then []
        else (if bgOpacity c > 0 then [shadowFilter lib c] else []) ++
          baseFilter lib c :: (if hasActive c then [activeFilter lib c] else [])) := by
  refine ⟨buildFilters_append lib xs ys, ?_, ?_, buildFilters_eq_flatMap lib xs, ?_⟩
  · unfold buildSubtitlesFilter
    rw [buildFilters_append]
  · unfold buildSubtitlesFilter
    rw [buildFilters_append]
    split_ifs with h1 h2
    · rw [h1, List.nil_append]
    · rw [h2, List.append_nil]
    · exact stringsJoin_append _ _ _ h1 h2
  · intro c
    rw [cueFilters_eq]
    rfl

/-- C12 (the code departs from the claim): for the render request with
`start_time = 10` and `end_time = 5` on a video whose file exists,
`CreateClip` makes no check of the window. It invokes the engine, with
`-ss 10.00` and the duration `-t -5.00`, and when the engine returns no error
it returns none either and marks the clip `completed`. -/
theorem createClip_reversed_window_runs_engine :
    reversedClip.EndTime ≤ reversedClip.StartTime ∧
    demoService.CreateClip asciiLib demoSys demoVideo reversedClip =
      { effects := [.exec "ffmpeg"
          ["-y", "-ss", "10.00", "-i", "/srv/storage/videos/v1.mp4", "-t", "-5.00", "-vf",
            "scale=-1:1920,crop=min(iw\\,1080):1920", "-s", "1080x1920", "-c:v", "libx264",
            "-preset", "medium", "-crf", "18", "-pix_fmt", "yuv420p", "-c:a", "aac",
            "-b:a", "192k", "-movflags", "+faststart", "../storage/clips/c1.mp4"]],
        err := none,
        clip := { reversedClip with FilePath := "../storage/clips/c1.mp4",
                                    Status := "completed",
                                    CompletedAt := some 1700000000 } } := by
  decide!

theorem createClipRun_cases (s : ProcessingService) (lib : GoLib) (w : Sys) (clip : Clip)
    (inputPath outputPath : String) :
    ((createClipRun s lib w clip inputPath outputPath).err = none ∧
      (createClipRun s lib w clip inputPath outputPath).clip =
        { clip with FilePath := outputPath, Status := "completed",
                    CompletedAt := some w.now }) ∨
    ((createClipRun s lib w clip inputPath outputPath).err ≠ none ∧
      (createClipRun s lib w clip inputPath outputPath).clip = clip) := by
  unfold createClipRun
  split_ifs with h1
  · right
    exact ⟨by simp, rfl⟩
  · simp only []
    split
    · right
      exact ⟨by simp, rfl⟩
    · left
      exact ⟨rfl, rfl⟩

/-- On return, `CreateClip` either reports no error and has set the output
path, the status `completed` and the completion time, or reports an error
and has left the clip as it was. -/
theorem createClip_cases (s : ProcessingService) (lib : GoLib) (w : Sys) (video : Video)
    (clip : Clip) :
    ((s.CreateClip lib w video clip).err = none ∧
      (s.CreateClip lib w video clip).clip =
        { clip with FilePath := w.pathJoin [s.storagePath, "clips", clip.ID ++ ".mp4"],
                    Status := "completed", CompletedAt := some w.now }) ∨
    ((s.CreateClip lib w video clip).err ≠ none ∧ (s.CreateClip lib w video clip).clip = clip) := by
  unfold ProcessingService.CreateClip
  simp only []
  split_ifs with h1
  · split
    · right
      exact ⟨by simp, rfl⟩
    · exact createClipRun_cases s lib w clip _ _
  · exact createClipRun_cases s lib w clip _ _

theorem getClip_after_update (rows : List ClipRow) (row : ClipRow) (clip : Clip)
    (hid : row.id = clip.ID) (hnew : rows.any (fun r => r.id == clip.ID) = false)
    (title : String) (created : Nat)
    (h1 : row.title = some title) (h2 : row.created_at = some created) :
    ∃ c : Clip,
      ClipService.GetClip (ClipService.UpdateClip ⟨rows ++ [row]⟩ none clip).2 clip.ID = .ok c ∧
      c.Status = clip.Status ∧ c.FilePath = clip.FilePath ∧
      c.CompletedAt = clip.CompletedAt := by
  unfold ClipService.UpdateClip ClipService.GetClip
  simp only [List.map_append, List.map_cons, List.map_nil, hid, if_true]
  have hnone : List.find? (fun r => r.id == clip.ID)
      (List.map (fun r =>
        if r.id = clip.ID then
          { r with file_path := some clip.FilePath, status := some clip.Status,
                   subtitles := some clip.Subtitles, completed_at := clip.CompletedAt }
        else r) rows) = none := by
    rw [List.find?_eq_none]
    intro x hx
    obtain ⟨r, hr, hrx⟩ := List.mem_map.mp hx
    have hrne : (r.id == clip.ID) = false := by
      have := List.any_eq_false.mp hnew r hr
      simpa using this
    have hrne2 : r.id ≠ clip.ID := by simpa using hrne
    rw [if_neg hrne2] at hrx
    rw [← hrx]
    simp [hrne2]
  rw [List.find?_append, hnone]
  simp [hid, h1, h2]

theorem clipService_createClip_ok (store store1 : ClipService) (w : Sys) (k : Nat)
    (request clip : Clip) (h : store.CreateClip w k none request = (none, clip, store1)) :
    store.db.any (fun r => r.id == clip.ID) = false ∧
    store1.db = store.db ++
      [{ id := clip.ID, video_id := clip.VideoID, title := some clip.Title,
         start_time := clip.StartTime, end_time := clip.EndTime, file_path := none,
         status := some clip.Status, subtitles := some clip.Subtitles,
         created_at := some clip.CreatedAt, completed_at := none }] := by
  unfold ClipService.CreateClip at h
  simp only [] at h
  split_ifs at h with h0 hany hany
  · simp at h
  · simp only [Prod.mk.injEq, true_and] at h
    obtain ⟨hclip, hdb⟩ := h
    subst hclip
    subst hdb
    exact ⟨by simpa using hany, rfl⟩
  · simp at h
  · simp only [Prod.mk.injEq, true_and] at h
    obtain ⟨hclip, hdb⟩ := h
    subst hclip
    subst hdb
    exact ⟨by simpa using hany, rfl⟩

/-- C13 (counterexample): a clip that is already `completed`, with a file
path and a completion time, is rendered again while the source file is
missing: `CreateClip` returns an error and leaves the clip completed, with
its path and its completion time. -/
theorem createClip_error_keeps_completed :
    (demoService.CreateClip asciiLib missingSys demoVideo renderedClip).err =
      some "input video file does not exist: /srv/storage/videos/v1.mp4" ∧
    (demoService.CreateClip asciiLib missingSys demoVideo renderedClip).clip.Status =
      "completed" ∧
    (demoService.CreateClip asciiLib missingSys demoVideo renderedClip).clip.FilePath ≠ "" ∧
    (demoService.CreateClip asciiLib missingSys demoVideo renderedClip).clip.CompletedAt ≠
      none ∧
    ¬ ((demoService.CreateClip asciiLib missingSys demoVideo renderedClip).err = none ↔
      ((demoService.CreateClip asciiLib missingSys demoVideo renderedClip).clip.Status =
          "completed" ∧
        (demoService.CreateClip asciiLib missingSys demoVideo renderedClip).clip.FilePath ≠
          "" ∧
        (demoService.CreateClip asciiLib missingSys demoVideo renderedClip).clip.CompletedAt ≠
          none)) := by
  decide!

/-- C13 (amended): `CreateClip` returns no error only after setting the
status `completed`, the output path `storagePath/clips/<clip id>.mp4` (not
empty, as `filepath.Join` never returns an empty path for these elements)
and the completion time; when it returns an error the clip is left as it
was. So, for a clip that is not already completed with a path and a
completion time, it returns no error if and only if it leaves the clip so.
A clip stored with `ClipService.CreateClip`, rendered without error, stored
with `UpdateClip` and then queried reports the status `completed`, a
non-empty file path and a completion time. -/
theorem createClip_outcome (s : ProcessingService) (lib : GoLib) (w : Sys) (video : Video)
    (clip : Clip) (hjoin : w.pathJoin [s.storagePath, "clips", clip.ID ++ ".mp4"] ≠ "") :
    ((s.CreateClip lib w video clip).err = none →
      (s.CreateClip lib w video clip).clip =
        { clip with FilePath := w.pathJoin [s.storagePath, "clips", clip.ID ++ ".mp4"],
                    Status := "completed", CompletedAt := some w.now }) ∧
    ((s.CreateClip lib w video clip).err ≠ none → (s.CreateClip lib w video clip).clip = clip) ∧
    (¬ (clip.Status = "completed" ∧ clip.FilePath ≠ "" ∧ clip.CompletedAt ≠ none) →
      ((s.CreateClip lib w video clip).err = none ↔
        ((s.CreateClip lib w video clip).clip.Status = "completed" ∧
          (s.CreateClip lib w video clip).clip.FilePath ≠ "" ∧
          (s.CreateClip lib w video clip).clip.CompletedAt ≠ none))) ∧
    (∀ (store store1 : ClipService) (k : Nat) (request : Clip),
      store.CreateClip w k none request = (none, clip, store1) →
      (s.CreateClip lib w video clip).err = none →
      ∃ c : Clip,
        (store1.UpdateClip none (s.CreateClip lib w video clip).clip).2.GetClip clip.ID =
          .ok c ∧
        c.Status = "completed" ∧ c.FilePath ≠ "" ∧ c.CompletedAt ≠ none) := by
  have hcases := createClip_cases s lib w video clip
  refine ⟨?_, ?_, ?_, ?_⟩
  · intro h
    rcases hcases with ⟨_, h2⟩ | ⟨h1, _⟩
    · exact h2
    · exact absurd h h1
  · intro h
    rcases hcases with ⟨h1, _⟩ | ⟨_, h2⟩
    · exact absurd h1 h
    · exact h2
  · intro hnot
    rcases hcases with ⟨h1, h2⟩ | ⟨h1, h2⟩
    · rw [h2]
      exact ⟨fun _ => ⟨rfl, hjoin, by simp⟩, fun _ => h1⟩
    · rw [h2]
      exact ⟨fun h => absurd h h1, fun h => absurd h hnot⟩
  · intro store store1 k request hstore herr
    rcases hcases with ⟨_, h2⟩ | ⟨h1, _⟩
    · rw [h2]
      obtain ⟨hany, hdb⟩ := clipService_createClip_ok store store1 w k request clip hstore
      obtain ⟨c, hc, hs, hf, ht⟩ := getClip_after_update store.db
        { id := clip.ID, video_id := clip.VideoID, title := some clip.Title,
          start_time := clip.StartTime, end_time := clip.EndTime, file_path := none,
          status := some clip.Status, subtitles := some clip.Subtitles,
          created_at := some clip.CreatedAt, completed_at := none }
        { clip with FilePath := w.pathJoin [s.storagePath, "clips", clip.ID ++ ".mp4"],
                    Status := "completed", CompletedAt := some w.now }
        rfl hany clip.Title clip.CreatedAt rfl rfl
      have hstore1 : store1 = ⟨store1.db⟩ := rfl
      rw [hstore1, hdb]
      refine ⟨c, hc, hs, ?_, ?_⟩
      · rw [hf]
        exact hjoin
      · rw [ht]
        simp
    · exact absurd herr h1

/-- C13 (witness): a render request for the window 0 s to 5 s, stored,
rendered in a world where the source exists and the engine succeeds, stored
again and queried. -/
theorem createClip_outcome_witness :
    demoSys.pathJoin [demoService.storagePath, "clips",
      (ClipService.CreateClip ⟨[]⟩ demoSys 0 none freshClip).2.1.ID ++ ".mp4"] ≠ "" ∧
    ∃ c : Clip,
      ((ClipService.CreateClip ⟨[]⟩ demoSys 0 none freshClip).2.2.UpdateClip none
        (demoService.CreateClip asciiLib demoSys demoVideo
          (ClipService.CreateClip ⟨[]⟩ demoSys 0 none freshClip).2.1).clip).2.GetClip
        (ClipService.CreateClip ⟨[]⟩ demoSys 0 none freshClip).2.1.ID = .ok c ∧
      c.Status = "completed" ∧ c.FilePath ≠ "" ∧ c.CompletedAt ≠ none :=
  ⟨by decide!,
    (createClip_outcome demoService asciiLib demoSys demoVideo
      (ClipService.CreateClip ⟨[]⟩ demoSys 0 none freshClip).2.1 (by decide!)).2.2.2
      ⟨[]⟩ (ClipService.CreateClip ⟨[]⟩ demoSys 0 none freshClip).2.2 0 freshClip
      (by decide!) (by decide!)⟩

/-! ## Analysis stage: lemmas -/

/-- When the cloud backend path succeeds, the reply had status 200, its
first choice was not empty, and the clips are those parsed from the cleaned
content of that choice, at least one. -/
theorem deepSeek_success (w : Sys) (t : Transcript) (clips : List SuggestedClip)
    (h : (analyzeWithDeepSeekAPI w t).2 = .ok clips) :
    clips ≠ [] ∧
    ∃ (body : String) (response : ChatResponse) (content : String) (rest : List String),
      w.http (getEnv w "DEEPSEEK_API_URL" "https://api.deepseek.com" ++ "/chat/completions")
        t.FullText = .reply 200 body none ∧
      w.decodeChat body = .ok response ∧ response.Error = none ∧
      response.Choices = content :: rest ∧ content ≠ "" ∧
      w.parseClips (cleanContentDeepSeek content) = .ok clips := by
  unfold analyzeWithDeepSeekAPI at h
  simp only [] at h
  generalize getEnv w "DEEPSEEK_API_URL" "https://api.deepseek.com" ++ "/chat/completions" = url
    at h ⊢
  by_cases hkey : w.getenv "DEEPSEEK_API_KEY" = ""
  · simp [hkey] at h
  · rw [if_neg hkey] at h
    cases hreq : w.newRequest url with
    | some e => simp [hreq] at h
    | none =>
      simp only [hreq] at h
      cases hhttp : w.http url t.FullText with
      | failed e => simp [hhttp] at h
      | reply status body rerr =>
        cases rerr with
        | some e => simp [hhttp] at h
        | none =>
          simp only [hhttp] at h
          by_cases hb : body = ""
          · simp [hb] at h
          · rw [if_neg hb] at h
            by_cases hs : status ≠ 200
            · rw [if_pos hs] at h
              simp at h
            · rw [if_neg hs] at h
              have hs200 : status = 200 := not_not.mp hs
              subst hs200
              cases hdec : w.decodeChat body with
              | error e => simp [hdec] at h
              | ok response =>
                simp only [hdec] at h
                cases herr : response.Error with
                | some e => simp [herr] at h
                | none =>
                  simp only [herr] at h
                  cases hch : response.Choices with
                  | nil => simp [hch] at h
                  | cons content rest =>
                    simp only [hch] at h
                    by_cases hc : content = ""
                    · simp [hc] at h
                    · rw [if_neg hc] at h
                      cases hparse : w.parseClips (cleanContentDeepSeek content) with
                      | error e => simp [hparse] at h
                      | ok parsed =>
                        simp only [hparse] at h
                        by_cases hlen : parsed.length = 0
                        · simp [hlen] at h
                        · rw [if_neg hlen] at h
                          simp only [Except.ok.injEq] at h
                          subst h
                          refine ⟨?_, body, response, content, rest, rfl, hdec, herr, hch, hc,
                            hparse⟩
                          intro hnil
                          rw [hnil] at hlen
                          exact hlen rfl

/-- When the local backend path succeeds, its content was not empty and the
clips are those parsed from the cleaned content, at least one. -/
theorem ollama_success (w : Sys) (t : Transcript) (clips : List SuggestedClip)
    (h : (analyzeWithOllama w t).2 = .ok clips) :
    clips ≠ [] ∧
    ∃ (status : Int) (body : String) (readErr : Option String) (content : String),
      w.http (getEnv w "OLLAMA_URL" "http://localhost:11434" ++ "/api/generate") t.FullText =
        .reply status body readErr ∧
      w.decodeOllama body = .ok content ∧ content ≠ "" ∧
      w.parseClips (cleanContentOllama content) = .ok clips := by
  unfold analyzeWithOllama at h
  simp only [] at h
  generalize getEnv w "OLLAMA_URL" "http://localhost:11434" ++ "/api/generate" = url at h ⊢
  cases hreq : w.newRequest url with
  | some e => simp [hreq] at h
  | none =>
    simp only [hreq] at h
    cases hhttp : w.http url t.FullText with
    | failed e => simp [hhttp] at h
    | reply status body rerr =>
      simp only [hhttp] at h
      cases hdec : w.decodeOllama body with
      | error e => simp [hdec] at h
      | ok content =>
        simp only [hdec] at h
        by_cases hc : content = ""
        · simp [hc] at h
        · rw [if_neg hc] at h
          cases hparse : w.parseClips (cleanContentOllama content) with
          | error e => simp [hparse] at h
          | ok parsed =>
            simp only [hparse] at h
            by_cases hlen : parsed.length = 0
            · simp [hlen] at h
            · rw [if_neg hlen] at h
              simp only [Except.ok.injEq] at h
              subst h
              refine ⟨?_, status, body, rerr, content, rfl, hdec, hc, hparse⟩
              intro hnil
              rw [hnil] at hlen
              exact hlen rfl

/-- The backend result behind `AnalyzeTranscript`. -/
theorem analyzeTranscript_success (s : ProcessingService) (w : Sys) (k : Nat) (t : Transcript)
    (videoID : String) (clips : List SuggestedClip)
    (h : (s.AnalyzeTranscript w k t videoID).2 = .ok clips) :
    ∃ parsed : List SuggestedClip,
      (if getEnv w "USE_OLLAMA" "false" = "true" then analyzeWithOllama w t
        else analyzeWithDeepSeekAPI w t).2 = .ok parsed ∧
      clips = stampClips w videoID k parsed := by
  unfold ProcessingService.AnalyzeTranscript at h
  simp only [] at h
  generalize (if getEnv w "USE_OLLAMA" "false" = "true" then analyzeWithOllama w t
    else analyzeWithDeepSeekAPI w t) = r at h ⊢
  obtain ⟨eff, res⟩ := r
  cases res with
  | error e => simp at h
  | ok parsed =>
    simp only [Except.ok.injEq] at h
    exact ⟨parsed, rfl, h.symm⟩

theorem stampClips_length (w : Sys) (videoID : String) (k : Nat) (l : List SuggestedClip) :
    (stampClips w videoID k l).length = l.length := by
  induction l generalizing k with
  | nil => rfl
  | cons c cs ih =>
    unfold stampClips
    rw [List.length_cons, List.length_cons, ih]

theorem stampClips_getElem (w : Sys) (videoID : String) (k : Nat) (l : List SuggestedClip)
    (i : Nat) (hi : i < l.length) :
    (stampClips w videoID k l)[i]? =
      some { l[i] with VideoID := videoID, ID := w.uuid (k + i) } := by
  induction l generalizing k i with
  | nil => exact absurd hi (Nat.not_lt_zero _)
  | cons c cs ih =>
    unfold stampClips
    cases i with
    | zero => simp
    | succ j =>
      rw [List.getElem?_cons_succ, ih (k + 1) j (Nat.lt_of_succ_lt_succ hi)]
      simp only [List.getElem_cons_succ]
      have : k + 1 + j = k + (j + 1) := by omega
      rw [this]

/-! ## Analysis and transcription stages: theorems -/

/-- C14: `AnalyzeTranscript` never succeeds with zero suggestions. Whenever it
returns clips, the list is not empty, and the backend path that produced it
went through every check: on the cloud path the reply had status 200, no
error object and at least one choice, whose content was not empty and,
after fence stripping, parsed as a non-empty array; on the local path the
content was not empty and, after fence stripping, parsed as a non-empty
array. So an empty array, a parse failure or a reply without choices is an
error. The content of a fenced empty array is cleaned to `[]`. -/
theorem analyzeTranscript_never_empty (s : ProcessingService) (w : Sys) (k : Nat)
    (t : Transcript) (videoID : String) (clips : List SuggestedClip)
    (h : (s.AnalyzeTranscript w k t videoID).2 = .ok clips) :
    clips ≠ [] ∧
    (getEnv w "USE_OLLAMA" "false" ≠ "true" →
      ∃ (body : String) (response : ChatResponse) (content : String) (rest : List String)
        (parsed : List SuggestedClip),
        w.http (getEnv w "DEEPSEEK_API_URL" "https://api.deepseek.com" ++ "/chat/completions")
          t.FullText = .reply 200 body none ∧
        w.decodeChat body = .ok response ∧ response.Error = none ∧
        response.Choices = content :: rest ∧ content ≠ "" ∧
        w.parseClips (cleanContentDeepSeek content) = .ok parsed ∧ parsed ≠ [] ∧
        clips.length = parsed.length) ∧
    (getEnv w "USE_OLLAMA" "false" = "true" →
      ∃ (status : Int) (body : String) (readErr : Option String) (content : String)
        (parsed : List SuggestedClip),
        w.http (getEnv w "OLLAMA_URL" "http://localhost:11434" ++ "/api/generate") t.FullText =
          .reply status body readErr ∧
        w.decodeOllama body = .ok content ∧ content ≠ "" ∧
        w.parseClips (cleanContentOllama content) = .ok parsed ∧ parsed ≠ [] ∧
        clips.length = parsed.length) ∧
    cleanContentDeepSeek "\x60\x60\x60json\n[]\n\x60\x60\x60" = "[]" ∧
    cleanContentOllama "\x60\x60\x60json\n[]\n\x60\x60\x60" = "[]" := by
  obtain ⟨parsed, hback, hclips⟩ := analyzeTranscript_success s w k t videoID clips h
  have hlen : clips.length = parsed.length := by rw [hclips, stampClips_length]
  refine ⟨?_, ?_, ?_, by decide, by decide⟩
  · have hne : parsed ≠ [] := by
      by_cases ho : getEnv w "USE_OLLAMA" "false" = "true"
      · rw [if_pos ho] at hback
        exact (ollama_success w t parsed hback).1
      · rw [if_neg ho] at hback
        exact (deepSeek_success w t parsed hback).1
    intro hnil
    rw [hnil] at hlen
    exact hne (List.length_eq_zero.mp hlen.symm)
  · intro ho
    rw [if_neg ho] at hback
    obtain ⟨hne, body, response, content, rest, h1, h2, h3, h4, h5, h6⟩ :=
      deepSeek_success w t parsed hback
    exact ⟨body, response, content, rest, parsed, h1, h2, h3, h4, h5, h6, hne, hlen⟩
  · intro ho
    rw [if_pos ho] at hback
    obtain ⟨hne, status, body, rerr, content, h1, h2, h3, h4⟩ := ollama_success w t parsed hback
    exact ⟨status, body, rerr, content, parsed, h1, h2, h3, h4, hne, hlen⟩

/-- C14 (witness): the cloud backend answers with one suggestion in a JSON
code fence. -/
theorem analyzeTranscript_never_empty_witness :
    (demoService.AnalyzeTranscript analysisSys 7 demoTranscript "v1").2 =
      .ok [{ rawSuggestion with ID := "id-7", VideoID := "v1" }] ∧
    [{ rawSuggestion with ID := "id-7", VideoID := "v1" }] ≠ ([] : List SuggestedClip) :=
  ⟨by decide!,
    (analyzeTranscript_never_empty demoService analysisSys 7 demoTranscript "v1"
      [{ rawSuggestion with ID := "id-7", VideoID := "v1" }] (by decide!)).1⟩

/-! ## Lemmas on code fences -/

theorem dropWhile_block_mem (q : Char → Bool) (a rest : List Char) (c : Char)
    (hc : q c = false) :
    ∃ a0 : List Char, (a ++ c :: rest).dropWhile q = a0 ++ c :: rest ∧ ∀ x ∈ a0, x ∈ a := by
  induction a with
  | nil =>
    refine ⟨[], ?_, fun x hx => hx⟩
    rw [List.nil_append, List.dropWhile_cons_of_neg (by rw [hc]; exact Bool.false_ne_true)]
  | cons x xs ih =>
    by_cases hx : q x = true
    · rw [List.cons_append, List.dropWhile_cons_of_pos hx]
      obtain ⟨a0, h1, h2⟩ := ih
      exact ⟨a0, h1, fun y hy => List.mem_cons_of_mem _ (h2 y hy)⟩
    · exact ⟨x :: xs, by rw [List.cons_append, List.dropWhile_cons_of_neg hx], fun y hy => hy⟩

/-- Trimming a text around a block whose first and last runes are not white
space removes runes of the text before and after the block only. -/
theorem trimSpaceList_block_mem (a b mid : List Char) (c d : Char)
    (hc : unicodeIsSpace c = false) (hd : unicodeIsSpace d = false) :
    ∃ a0 b0 : List Char,
      trimSpaceList (a ++ ((c :: mid ++ [d]) ++ b)) = a0 ++ ((c :: mid ++ [d]) ++ b0) ∧
      (∀ x ∈ a0, x ∈ a) ∧ (∀ x ∈ b0, x ∈ b) := by
  unfold trimSpaceList
  obtain ⟨a0, ha0, hmem0⟩ := dropWhile_block_mem unicodeIsSpace a (mid ++ [d] ++ b) c hc
  have e1 : a ++ ((c :: mid ++ [d]) ++ b) = a ++ c :: (mid ++ [d] ++ b) := by simp
  rw [e1, ha0]
  have e2 : (a0 ++ c :: (mid ++ [d] ++ b)).reverse =
      b.reverse ++ d :: (mid.reverse ++ c :: a0.reverse) := by simp
  rw [e2]
  obtain ⟨b1, hb1, hmem1⟩ :=
    dropWhile_block_mem unicodeIsSpace b.reverse (mid.reverse ++ c :: a0.reverse) d hd
  rw [hb1]
  refine ⟨a0, b1.reverse, by simp, hmem0, ?_⟩
  intro x hx
  exact List.mem_reverse.mp (hmem1 x (List.mem_reverse.mp hx))

theorem isPrefixOf_cons_of_ne (c x : Char) (pt l : List Char) (h : x ≠ c) :
    (c :: pt).isPrefixOf (x :: l) = false := by
  rw [List.isPrefixOf_cons₂, Bool.and_eq_false_iff]
  left
  exact beq_false_of_ne (fun hcx => h hcx.symm)

/-- A pattern is first found right after a text that has none of the
pattern's first rune. -/
theorem indexList_skip (a rest pt : List Char) (c : Char) (ha : ∀ x ∈ a, x ≠ c) :
    indexList (a ++ ((c :: pt) ++ rest)) (c :: pt) = some a.length := by
  induction a with
  | nil =>
    rw [List.nil_append, List.cons_append]
    unfold indexList
    rw [if_pos]
    · rfl
    · rw [← List.cons_append, List.isPrefixOf_iff_prefix]
      exact List.prefix_append _ _
  | cons x xs ih =>
    rw [List.cons_append]
    unfold indexList
    rw [if_neg, ih (fun y hy => ha y (List.mem_cons_of_mem _ hy))]
    · rfl
    · rw [isPrefixOf_cons_of_ne c x pt _ (ha x (List.mem_cons_self _ _))]
      exact Bool.false_ne_true

theorem listContains_of_no_head (l pt : List Char) (c : Char) (h : ∀ x ∈ l, x ≠ c) :
    listContains l (c :: pt) = false := by
  induction l with
  | nil => rfl
  | cons x xs ih =>
    unfold listContains
    rw [isPrefixOf_cons_of_ne c x pt xs (h x (List.mem_cons_self _ _)),
      ih (fun y hy => h y (List.mem_cons_of_mem _ hy))]
    rfl

theorem lastIndexList_none (l pat : List Char) (h : listContains l pat = false) :
    lastIndexList l pat = none := by
  induction l with
  | nil =>
    unfold listContains at h
    unfold lastIndexList
    rw [h]
    rfl
  | cons x xs ih =>
    unfold listContains at h
    rw [Bool.or_eq_false_iff] at h
    unfold lastIndexList
    rw [ih h.2]
    simp only [h.1]
    rfl

theorem lastIndexList_append (a l pat : List Char) (i : Nat)
    (h : lastIndexList l pat = some i) :
    lastIndexList (a ++ l) pat = some (a.length + i) := by
  induction a with
  | nil => rw [List.nil_append, h, List.length_nil, Nat.zero_add]
  | cons x xs ih =>
    rw [List.cons_append]
    unfold lastIndexList
    rw [ih]
    simp only [List.length_cons]
    congr 1
    omega

theorem lastIndexList_head (x : Char) (l pat : List Char) (h1 : listContains l pat = false)
    (h2 : pat.isPrefixOf (x :: l) = true) : lastIndexList (x :: l) pat = some 0 := by
  unfold lastIndexList
  rw [lastIndexList_none l pat h1]
  simp only [h2]
  rfl

/-- The closing fence is last found where the text after it has no backtick. -/
theorem lastIndexList_fence (b : List Char) (hb : ∀ x ∈ b, x ≠ tick) :
    lastIndexList ([tick, tick, tick] ++ b) [tick, tick, tick] = some 0 := by
  apply lastIndexList_head
  · have h0 := listContains_of_no_head b [tick, tick] tick hb
    show listContains (tick :: tick :: b) [tick, tick, tick] = false
    cases b with
    | nil => rfl
    | cons y ys =>
      have hy : y ≠ tick := hb y (List.mem_cons_self _ _)
      have hyb : (tick == y) = false := beq_false_of_ne (fun h => hy h.symm)
      rw [listContains, listContains, h0]
      simp only [List.isPrefixOf_cons₂, beq_self_eq_true, Bool.true_and, hyb,
        Bool.false_and, Bool.or_false, Bool.or_self]
  · rw [List.isPrefixOf_iff_prefix]
    exact List.prefix_append _ _

/-- Containment as a block is the infix relation. -/
theorem listContains_iff_inside (l p : List Char) : listContains l p = true ↔ p <:+: l := by
  constructor
  · intro h
    obtain ⟨a, b, hab⟩ := split_of_listContains l p h
    exact ⟨a, b, by rw [hab, List.append_assoc]⟩
  · rintro ⟨a, b, hab⟩
    rw [← hab, List.append_assoc]
    exact listContains_of_split a p b

theorem trimSpaceList_inside (l : List Char) : trimSpaceList l <:+: l := by
  unfold trimSpaceList
  have h1 : ((l.dropWhile unicodeIsSpace).reverse.dropWhile unicodeIsSpace).reverse <+:
      l.dropWhile unicodeIsSpace := by
    rw [← List.reverse_suffix, List.reverse_reverse]
    exact List.dropWhile_suffix _
  exact h1.isInfix.trans (List.dropWhile_suffix _).isInfix

/-- A block that does not occur in a text does not occur in the trimmed
text. -/
theorem stringsContains_trimSpace (s p : String) (h : stringsContains s p = false) :
    stringsContains (stringsTrimSpace s) p = false := by
  unfold stringsContains at h ⊢
  rw [Bool.eq_false_iff] at h ⊢
  intro hc
  apply h
  rw [listContains_iff_inside] at hc ⊢
  exact hc.trans (trimSpaceList_inside s.data)

/-- A text without the fence has no opening JSON fence either. -/
theorem stringsContains_fenceJson (s : String) (h : stringsContains s fence = false) :
    stringsContains s fenceJson = false := by
  unfold stringsContains at h ⊢
  rw [Bool.eq_false_iff] at h ⊢
  intro hc
  apply h
  rw [listContains_iff_inside] at hc ⊢
  have hp : fence.data <+: fenceJson.data := ⟨['j', 's', 'o', 'n'], rfl⟩
  exact hp.isInfix.trans hc

/-- The cut between the fences: in a trimmed text made of a part without
backtick, an opening fence, a body, the closing fence and a part without
backtick, the opening fence is first found after the first part, the closing
fence is last found after the body, and the slice between them is the
body. -/
theorem fenced_cut (a0 po body b0 : List Char) (ha : ∀ x ∈ a0, x ≠ tick)
    (hb : ∀ x ∈ b0, x ≠ tick) :
    indexList (a0 ++ ((tick :: po) ++ (body ++ ([tick, tick, tick] ++ b0)))) (tick :: po) =
      some a0.length ∧
    lastIndexList (a0 ++ ((tick :: po) ++ (body ++ ([tick, tick, tick] ++ b0))))
      [tick, tick, tick] = some (a0.length + (po.length + 1) + body.length) ∧
    ((a0 ++ ((tick :: po) ++ (body ++ ([tick, tick, tick] ++ b0)))).drop
      (a0.length + (po.length + 1))).take body.length = body := by
  refine ⟨indexList_skip a0 _ po tick ha, ?_, ?_⟩
  · have h := lastIndexList_append (a0 ++ ((tick :: po) ++ body)) _ _ 0
      (lastIndexList_fence b0 hb)
    simp only [List.append_assoc, List.length_append, List.length_cons, Nat.add_zero] at h ⊢
    rw [h]
    congr 1
    omega
  · have e : a0 ++ ((tick :: po) ++ (body ++ ([tick, tick, tick] ++ b0))) =
        (a0 ++ (tick :: po)) ++ (body ++ ([tick, tick, tick] ++ b0)) := by
      simp only [List.append_assoc]
    have hl : a0.length + (po.length + 1) = (a0 ++ (tick :: po)).length := by
      simp only [List.length_append, List.length_cons]
    rw [e, hl, List.drop_left, List.take_left]

/-- The strip of one fenced block: the text between the opening fence and
the closing fence, trimmed. -/
theorem fenced_branch (opening : String) (a0 po body b0 : List Char) (n : Int)
    (hopen : opening.data = tick :: po) (hn : n = (po.length : Int) + 1)
    (ha : ∀ x ∈ a0, x ≠ tick) (hb : ∀ x ∈ b0, x ≠ tick) (hbody : body ≠ []) :
    (if stringsLastIndex ⟨a0 ++ ((tick :: po) ++ (body ++ ([tick, tick, tick] ++ b0)))⟩ fence >
        stringsIndex ⟨a0 ++ ((tick :: po) ++ (body ++ ([tick, tick, tick] ++ b0)))⟩ opening + n
      then stringsTrimSpace
        (sliceString ⟨a0 ++ ((tick :: po) ++ (body ++ ([tick, tick, tick] ++ b0)))⟩
          (stringsIndex ⟨a0 ++ ((tick :: po) ++ (body ++ ([tick, tick, tick] ++ b0)))⟩ opening
            + n)
          (stringsLastIndex ⟨a0 ++ ((tick :: po) ++ (body ++ ([tick, tick, tick] ++ b0)))⟩
            fence))
      else ⟨a0 ++ ((tick :: po) ++ (body ++ ([tick, tick, tick] ++ b0)))⟩) =
      stringsTrimSpace ⟨body⟩ := by
  obtain ⟨h1, h2, h3⟩ := fenced_cut a0 po body b0 ha hb
  have hf : fence.data = [tick, tick, tick] := rfl
  have hi : stringsIndex ⟨a0 ++ ((tick :: po) ++ (body ++ ([tick, tick, tick] ++ b0)))⟩ opening =
      (a0.length : Int) := by
    unfold stringsIndex
    rw [hopen]
    simp only [h1]
  have hl : stringsLastIndex ⟨a0 ++ ((tick :: po) ++ (body ++ ([tick, tick, tick] ++ b0)))⟩
      fence = ((a0.length + (po.length + 1) + body.length : Nat) : Int) := by
    unfold stringsLastIndex
    rw [hf]
    simp only [h2]
  have hpos : 0 < body.length := List.length_pos.mpr hbody
  rw [hi, hl, hn, if_pos (by push_cast; omega)]
  unfold sliceString
  have e1 : ((a0.length : Int) + ((po.length : Int) + 1)).toNat = a0.length + (po.length + 1) := by
    omega
  have e2 : (((a0.length + (po.length + 1) + body.length : Nat) : Int) -
      ((a0.length : Int) + ((po.length : Int) + 1))).toNat = body.length := by
    push_cast
    omega
  rw [e1, e2]
  simp only [h3]

/-- C15 (counterexample): the strip is not made for every wrapping. An empty
body between the fences leaves the content as it is, fences included; a
closing fence followed by a second fence in the suffix is cut at the last
fence, so the first closing fence stays in the result; a backtick right
before a plain opening fence stays in the result as well. In each case the
body has no triple backtick. -/
theorem fence_stripping_not_for_all_wrappings :
    ¬ (∀ pre body suf : String, stringsContains body fence = false →
        cleanContentDeepSeek (pre ++ fenceJson ++ body ++ fence ++ suf) =
          stringsTrimSpace body) ∧
    cleanContentDeepSeek ("" ++ fenceJson ++ "" ++ fence ++ "") = "\x60\x60\x60json\x60\x60\x60" ∧
    stringsContains "[1]" fence = false ∧
    cleanContentDeepSeek ("" ++ fenceJson ++ "[1]" ++ fence ++ " \x60\x60\x60") =
      "[1]\x60\x60\x60" ∧
    stringsContains ("\x60" ++ fence ++ "\n[]\n" ++ fence ++ "") fenceJson = false ∧
    cleanContentDeepSeek ("\x60" ++ fence ++ "\n[]\n" ++ fence ++ "") = "\x60\n[]" := by
  refine ⟨fun h => ?_, by decide, by decide, by decide, by decide, by decide⟩
  exact absurd (h "" "" "" (by decide)) (by decide)

/-- C15 (amended): the analysis stage strips markdown code-fence wrapping
before parsing. For every body that is not empty, every prefix and every
suffix without a backtick, content of the form prefix, opening JSON fence,
body, closing fence, suffix is reduced to the body with surrounding white
space trimmed; likewise with a plain opening fence when the content has no
opening JSON fence. Content without any fence is only trimmed. Both
backends apply the same cleaning. -/
theorem fence_stripping (pre body suf : String)
    (hpre : ∀ x ∈ pre.data, x ≠ tick) (hsuf : ∀ x ∈ suf.data, x ≠ tick) (hbody : body ≠ "") :
    cleanContentDeepSeek (pre ++ fenceJson ++ body ++ fence ++ suf) = stringsTrimSpace body ∧
    (stringsContains (pre ++ fence ++ body ++ fence ++ suf) fenceJson = false →
      cleanContentDeepSeek (pre ++ fence ++ body ++ fence ++ suf) = stringsTrimSpace body) ∧
    (∀ content : String, stringsContains content fence = false →
      cleanContentDeepSeek content = stringsTrimSpace content) ∧
    (∀ content : String, cleanContentOllama content = cleanContentDeepSeek content) := by
  have htick : unicodeIsSpace tick = false := by decide
  have hbd : body.data ≠ [] := fun h => hbody (String.ext h)
  refine ⟨?_, ?_, ?_, fun _ => rfl⟩
  · obtain ⟨a0, b0, htrim, ha, hb⟩ := trimSpaceList_block_mem pre.data suf.data
      ([tick, tick, 'j', 's', 'o', 'n'] ++ body.data ++ [tick, tick]) tick tick htick htick
    have hshape : stringsTrimSpace (pre ++ fenceJson ++ body ++ fence ++ suf) =
        ⟨a0 ++ ((tick :: [tick, tick, 'j', 's', 'o', 'n']) ++
          (body.data ++ ([tick, tick, tick] ++ b0)))⟩ := by
      unfold stringsTrimSpace
      congr 1
      have hd : (pre ++ fenceJson ++ body ++ fence ++ suf).data =
          pre.data ++ ((tick :: ([tick, tick, 'j', 's', 'o', 'n'] ++ body.data ++ [tick, tick])
            ++ [tick]) ++ suf.data) := by
        simp only [String.data_append]
        have e1 : fenceJson.data = tick :: [tick, tick, 'j', 's', 'o', 'n'] := rfl
        have e2 : fence.data = [tick, tick, tick] := rfl
        rw [e1, e2]
        simp only [List.append_assoc, List.cons_append, List.nil_append]
      rw [hd, htrim]
      simp only [List.append_assoc, List.cons_append, List.nil_append]
    unfold cleanContentDeepSeek
    simp only []
    rw [hshape]
    have hc : stringsContains ⟨a0 ++ ((tick :: [tick, tick, 'j', 's', 'o', 'n']) ++
        (body.data ++ ([tick, tick, tick] ++ b0)))⟩ fenceJson = true :=
      listContains_of_split a0 _ _
    rw [if_pos hc]
    exact fenced_branch fenceJson a0 _ body.data b0 7 rfl rfl
      (fun x hx => hpre x (ha x hx)) (fun x hx => hsuf x (hb x hx)) hbd
  · intro hnj
    obtain ⟨a0, b0, htrim, ha, hb⟩ := trimSpaceList_block_mem pre.data suf.data
      ([tick, tick] ++ body.data ++ [tick, tick]) tick tick htick htick
    have hshape : stringsTrimSpace (pre ++ fence ++ body ++ fence ++ suf) =
        ⟨a0 ++ ((tick :: [tick, tick]) ++ (body.data ++ ([tick, tick, tick] ++ b0)))⟩ := by
      unfold stringsTrimSpace
      congr 1
      have hd : (pre ++ fence ++ body ++ fence ++ suf).data =
          pre.data ++ ((tick :: ([tick, tick] ++ body.data ++ [tick, tick]) ++ [tick]) ++
            suf.data) := by
        simp only [String.data_append]
        have e2 : fence.data = [tick, tick, tick] := rfl
        rw [e2]
        simp only [List.append_assoc, List.cons_append, List.nil_append]
      rw [hd, htrim]
      simp only [List.append_assoc, List.cons_append, List.nil_append]
    have hnj2 := stringsContains_trimSpace _ _ hnj
    unfold cleanContentDeepSeek
    simp only []
    rw [if_neg (by rw [hnj2]; exact Bool.false_ne_true), hshape]
    have hc : stringsContains ⟨a0 ++ ((tick :: [tick, tick]) ++
        (body.data ++ ([tick, tick, tick] ++ b0)))⟩ fence = true :=
      listContains_of_split a0 _ _
    rw [if_pos hc]
    exact fenced_branch fence a0 _ body.data b0 3 rfl rfl
      (fun x hx => hpre x (ha x hx)) (fun x hx => hsuf x (hb x hx)) hbd
  · intro content hnf
    have h1 := stringsContains_trimSpace _ _ hnf
    have h2 := stringsContains_fenceJson _ h1
    unfold cleanContentDeepSeek
    simp only []
    rw [if_neg (by rw [h2]; exact Bool.false_ne_true),
      if_neg (by rw [h1]; exact Bool.false_ne_true)]

/-- C15 (witness): a chatty reply with a JSON block between two sentences. -/
theorem fence_stripping_witness :
    cleanContentDeepSeek ("Here you go:\n" ++ fenceJson ++ "\n[1]\n" ++ fence ++ "\nDone.") =
      stringsTrimSpace "\n[1]\n" ∧
    stringsTrimSpace "\n[1]\n" = "[1]" :=
  ⟨(fence_stripping "Here you go:\n" "\n[1]\n" "\nDone." (by decide) (by decide)
      (by decide)).1, by decide⟩

theorem stampClips_ids (w : Sys) (videoID : String) (k : Nat) (l : List SuggestedClip) :
    (stampClips w videoID k l).map (fun c => c.ID) = (List.range' k l.length).map w.uuid := by
  induction l generalizing k with
  | nil => rfl
  | cons c cs ih =>
    unfold stampClips
    rw [List.map_cons, ih (k + 1), List.length_cons, List.range'_succ, List.map_cons]

/-- C16: on success `AnalyzeTranscript` returns the items parsed from the
backend response, as many and in the same order, each with the owning video
id in place of whatever video id the backend gave, with an identity drawn
anew from the generator in place of whatever id the backend gave, and with
start time, end time, title, description, score and reason as parsed. The
identities are pairwise distinct when the generator never repeats itself. -/
theorem analyzeTranscript_stamps (s : ProcessingService) (w : Sys) (k : Nat) (t : Transcript)
    (videoID : String) (clips : List SuggestedClip)
    (h : (s.AnalyzeTranscript w k t videoID).2 = .ok clips) :
    ∃ parsed : List SuggestedClip,
      (if getEnv w "USE_OLLAMA" "false" = "true" then analyzeWithOllama w t
        else analyzeWithDeepSeekAPI w t).2 = .ok parsed ∧
      clips.length = parsed.length ∧
      (∀ (i : Nat) (hi : i < parsed.length),
        clips[i]? = some { ID := w.uuid (k + i), VideoID := videoID,
                           StartTime := parsed[i].StartTime, EndTime := parsed[i].EndTime,
                           Title := parsed[i].Title, Description := parsed[i].Description,
                           Score := parsed[i].Score, Reason := parsed[i].Reason }) ∧
      (Function.Injective w.uuid → (clips.map (fun c => c.ID)).Nodup) := by
  obtain ⟨parsed, hback, hclips⟩ := analyzeTranscript_success s w k t videoID clips h
  refine ⟨parsed, hback, by rw [hclips, stampClips_length], ?_, ?_⟩
  · intro i hi
    rw [hclips, stampClips_getElem w videoID k parsed i hi]
  · intro hinj
    rw [hclips, stampClips_ids]
    exact (List.nodup_range' k parsed.length).map hinj

/-- C16 (witness): the backend gives one suggestion with an id and a video id
of its own; both are replaced. -/
theorem analyzeTranscript_stamps_witness :
    (demoService.AnalyzeTranscript analysisSys 7 demoTranscript "v1").2 =
      .ok [{ rawSuggestion with ID := "id-7", VideoID := "v1" }] ∧
    rawSuggestion.ID ≠ "id-7" ∧ rawSuggestion.VideoID ≠ "v1" ∧
    ∃ parsed : List SuggestedClip,
      (if getEnv analysisSys "USE_OLLAMA" "false" = "true"
        then analyzeWithOllama analysisSys demoTranscript
        else analyzeWithDeepSeekAPI analysisSys demoTranscript).2 = .ok parsed ∧
      [{ rawSuggestion with ID := "id-7", VideoID := "v1" }].length = parsed.length :=
  ⟨by decide!, by decide, by decide,
    (analyzeTranscript_stamps demoService analysisSys 7 demoTranscript "v1"
      [{ rawSuggestion with ID := "id-7", VideoID := "v1" }] (by decide!)).imp
      (fun _ hp => ⟨hp.1, hp.2.1⟩)⟩

/-- C17: `TranscribeVideo` returns an error if and only if the audio
extraction command fails. Once the extraction has succeeded: with no
transcription credential it returns the placeholder transcript and its only
action on the outside world is the extraction command, no request being
sent; and when the transcription backend fails it returns the same
placeholder. The placeholder has the given video id, language `en`, the two
segments from 0 to 5 and from 5 to 10, each with start before end and the
first ending where the second starts, and a full text that is the two
segment texts joined by a space. -/
theorem transcribeVideo_fallback (s : ProcessingService) (w : Sys) (k : Nat)
    (videoPath videoID : String) :
    ((∃ e : String, (s.TranscribeVideo w k videoPath videoID).2 = .error e) ↔
      (w.run s.ffmpegPath ["-y", "-i", videoPath, "-vn", "-acodec", "pcm_s16le", "-ar", "16000",
        "-ac", "1", w.pathJoin [s.storagePath, "transcripts", videoID ++ ".wav"]]).2 ≠ none) ∧
    ((w.run s.ffmpegPath ["-y", "-i", videoPath, "-vn", "-acodec", "pcm_s16le", "-ar", "16000",
        "-ac", "1", w.pathJoin [s.storagePath, "transcripts", videoID ++ ".wav"]]).2 = none →
      (w.getenv "OPENAI_API_KEY" = "" →
        s.TranscribeVideo w k videoPath videoID =
          ([.exec s.ffmpegPath ["-y", "-i", videoPath, "-vn", "-acodec", "pcm_s16le", "-ar",
            "16000", "-ac", "1", w.pathJoin [s.storagePath, "transcripts", videoID ++ ".wav"]]],
            .ok (createMockTranscript w k videoID))) ∧
      (∀ e : String,
        (transcribeWithWhisperAPI w k
          (w.pathJoin [s.storagePath, "transcripts", videoID ++ ".wav"]) videoID).2 = .error e →
        (s.TranscribeVideo w k videoPath videoID).2 = .ok (createMockTranscript w k videoID))) ∧
    (createMockTranscript w k videoID).VideoID = videoID ∧
    (createMockTranscript w k videoID).Language = "en" ∧
    (createMockTranscript w k videoID).Segments.map (fun g => (g.Start, g.End)) =
      [(0, 5), (5, 10)] ∧
    (∀ g ∈ (createMockTranscript w k videoID).Segments, g.Start < g.End) ∧
    (createMockTranscript w k videoID).Segments.Pairwise (fun g g2 => g.End ≤ g2.Start) ∧
    (createMockTranscript w k videoID).FullText =
      " ".intercalate ((createMockTranscript w k videoID).Segments.map (fun g => g.Text)) := by
  have hjoin : "This is a sample transcript. Whisper integration needed." =
      " ".intercalate ["This is a sample transcript.", "Whisper integration needed."] := by
    decide
  refine ⟨?_, ?_, rfl, rfl, rfl, ?_, ?_, hjoin⟩
  · unfold ProcessingService.TranscribeVideo
    simp only []
    rcases hrun : w.run s.ffmpegPath ["-y", "-i", videoPath, "-vn", "-acodec", "pcm_s16le",
      "-ar", "16000", "-ac", "1", w.pathJoin [s.storagePath, "transcripts", videoID ++ ".wav"]]
      with ⟨output, _ | err⟩
    · simp only [ne_eq, not_true_eq_false, iff_false, not_exists]
      intro e
      split_ifs
      · simp
      · rcases transcribeWithWhisperAPI w k
          (w.pathJoin [s.storagePath, "transcripts", videoID ++ ".wav"]) videoID
          with ⟨eff, _ | _⟩ <;> simp
    · simp
  · intro hrun
    unfold ProcessingService.TranscribeVideo
    simp only []
    rcases hrun2 : w.run s.ffmpegPath ["-y", "-i", videoPath, "-vn", "-acodec", "pcm_s16le",
      "-ar", "16000", "-ac", "1", w.pathJoin [s.storagePath, "transcripts", videoID ++ ".wav"]]
      with ⟨output, _ | err⟩
    · refine ⟨fun hkey => ?_, fun e he => ?_⟩
      · simp only [hkey, if_true]
      · split_ifs
        · rfl
        · rcases hw : transcribeWithWhisperAPI w k
            (w.pathJoin [s.storagePath, "transcripts", videoID ++ ".wav"]) videoID
            with ⟨eff, e2 | tr⟩
          · rfl
          · rw [hw] at he
            cases he
    · rw [hrun2] at hrun
      cases hrun
  · intro g hg
    simp only [createMockTranscript, List.mem_cons, List.mem_singleton, List.not_mem_nil,
      or_false] at hg
    rcases hg with rfl | rfl <;> norm_num
  · simp only [createMockTranscript, List.pairwise_cons, List.mem_singleton, List.not_mem_nil,
      forall_eq, List.Pairwise.nil, and_true]
    norm_num

/-- With a credential configured and the network down, the request is sent,
fails, and the placeholder is returned. -/
theorem transcribeVideo_offline :
    demoService.TranscribeVideo offlineSys 3 "/srv/storage/videos/v1.mp4" "v1" =
      ([.exec "ffmpeg" ["-y", "-i", "/srv/storage/videos/v1.mp4", "-vn", "-acodec",
          "pcm_s16le", "-ar", "16000", "-ac", "1", "../storage/transcripts/v1.wav"],
        .http "https://api.openai.com/v1/audio/transcriptions"],
        .ok (createMockTranscript offlineSys 3 "v1")) := by
  decide!

/-! ## Background job: theorems -/

theorem except_cases {ε α : Type} (x : Except ε α) :
    (∃ e, x = .error e) ∨ (∃ a, x = .ok a) := by
  cases x with
  | error e => exact Or.inl ⟨e, rfl⟩
  | ok a => exact Or.inr ⟨a, rfl⟩

/-- C18: for every combination of phase outcomes, the statuses persisted and
the statuses notified by the background job are the same sequence:
`downloading`, `transcribing`, `analyzing` up to and including the first
phase that fails, then one `error`; or all three, then `completed`, when no
phase fails. Each status is handed to the store right before it is notified,
the phases started are the phases up to and including the first that fails,
the last call of the job is the notification of `error` or `completed`, and
the record ends with that status. -/
theorem pipeline_status_sequence (p : Pipeline) (url : String) (video : Video) :
    persistedStatuses (processVideoJob p url video).1 =
      expectedStatuses (phasesPassed p url video) ∧
    notifiedStatuses (processVideoJob p url video).1 =
      expectedStatuses (phasesPassed p url video) ∧
    statusCalls (processVideoJob p url video).1 =
      (expectedStatuses (phasesPassed p url video)).flatMap
        (fun status => [(false, status), (true, status)]) ∧
    phasesStarted (processVideoJob p url video).1 =
      ["download", "transcription", "analysis"].take (phasesPassed p url video + 1) ∧
    (processVideoJob p url video).1.getLast? =
      some (.broadcast video.ID
        (if phasesPassed p url video = 3 then "completed" else "error")) ∧
    (processVideoJob p url video).2.Status =
      (if phasesPassed p url video = 3 then "completed" else "error") := by
  rcases except_cases (p.DownloadVideo url video.ID) with ⟨e, hd⟩ | ⟨d, hd⟩
  · unfold processVideoJob phasesPassed
    simp only [hd]
    exact ⟨rfl, rfl, rfl, rfl, rfl, rfl⟩
  · rcases except_cases (p.TranscribeVideo d.FilePath video.ID) with ⟨e, ht⟩ | ⟨t, ht⟩
    · unfold processVideoJob phasesPassed transcriptionPhase
      simp only [hd, ht]
      exact ⟨rfl, rfl, rfl, rfl, rfl, rfl⟩
    · rcases except_cases (p.AnalyzeTranscript t video.ID) with ⟨e, ha⟩ | ⟨clips, ha⟩
      · unfold processVideoJob phasesPassed transcriptionPhase analysisPhase
        simp only [hd, ht, ha]
        exact ⟨rfl, rfl, rfl, rfl, rfl, rfl⟩
      · unfold processVideoJob phasesPassed transcriptionPhase analysisPhase
        simp only [hd, ht, ha]
        exact ⟨rfl, rfl, rfl, rfl, rfl, rfl⟩

/-- C19: a failure of secondary persistence never changes the outcome of the
job. In every run in which the three phases succeed, whatever the two saves
return, the statuses persisted and notified are `downloading`,
`transcribing`, `analyzing`, `completed`, with no `error`, the record ends as
`completed`, and the calls after the transcription are: the save of the
transcript, the status calls of the analysis phase, the analysis of the
transcript that the transcription returned, the save of the suggestions, and
the status calls of the completion. -/
theorem secondary_persistence_not_escalated (p : Pipeline) (url : String) (video d : Video)
    (t : Transcript) (clips : List SuggestedClip)
    (hd : p.DownloadVideo url video.ID = .ok d)
    (ht : p.TranscribeVideo d.FilePath video.ID = .ok t)
    (ha : p.AnalyzeTranscript t video.ID = .ok clips)
    (saveT : Transcript → Option String) (saveC : List SuggestedClip → Option String) :
    persistedStatuses
      (processVideoJob { p with SaveTranscript := saveT, SaveSuggestedClips := saveC }
        url video).1 = ["downloading", "transcribing", "analyzing", "completed"] ∧
    notifiedStatuses
      (processVideoJob { p with SaveTranscript := saveT, SaveSuggestedClips := saveC }
        url video).1 = ["downloading", "transcribing", "analyzing", "completed"] ∧
    (processVideoJob { p with SaveTranscript := saveT, SaveSuggestedClips := saveC }
      url video).2.Status = "completed" ∧
    ∃ v1 v2 : Video,
      (processVideoJob { p with SaveTranscript := saveT, SaveSuggestedClips := saveC }
        url video).1.drop 7 =
        [.transcribeVideo d.FilePath video.ID, .saveTranscript t (saveT t),
          .updateVideo v1 (p.UpdateVideo v1), .broadcast video.ID "analyzing", .sleep 300,
          .analyzeTranscript t video.ID, .saveSuggestedClips clips (saveC clips),
          .updateVideo v2 (p.UpdateVideo v2), .broadcast video.ID "completed"] := by
  have hjob : ∃ v0 v1 v2 v3 : Video,
      processVideoJob { p with SaveTranscript := saveT, SaveSuggestedClips := saveC } url video =
        ([.updateVideo v0 (p.UpdateVideo v0), .broadcast video.ID "downloading", .sleep 500,
          .downloadVideo url video.ID,
          .updateVideo v1 (p.UpdateVideo v1), .broadcast video.ID "transcribing", .sleep 300,
          .transcribeVideo d.FilePath video.ID, .saveTranscript t (saveT t),
          .updateVideo v2 (p.UpdateVideo v2), .broadcast video.ID "analyzing", .sleep 300,
          .analyzeTranscript t video.ID, .saveSuggestedClips clips (saveC clips),
          .updateVideo v3 (p.UpdateVideo v3), .broadcast video.ID "completed"], v3) ∧
      v0.Status = "downloading" ∧ v1.Status = "transcribing" ∧ v2.Status = "analyzing" ∧
      v3.Status = "completed" := by
    unfold processVideoJob transcriptionPhase analysisPhase
    simp only [hd, ht, ha]
    exact ⟨_, _, _, _, rfl, rfl, rfl, rfl, rfl⟩
  obtain ⟨v0, v1, v2, v3, hj, h0, h1, h2, h3⟩ := hjob
  rw [hj]
  refine ⟨?_, ?_, h3, v2, v3, rfl⟩
  · simp only [persistedStatuses, List.filterMap_cons, List.filterMap_nil, h0, h1, h2, h3]
  · rfl

/-- C19 (witness): the three phases succeed and both saves report a locked
database. -/
theorem secondary_persistence_not_escalated_witness :
    savesFailPipeline.SaveTranscript demoTranscript ≠ none ∧
    savesFailPipeline.SaveSuggestedClips [rawSuggestion] ≠ none ∧
    persistedStatuses (processVideoJob savesFailPipeline "https://example.org/watch" newVideo).1 =
      ["downloading", "transcribing", "analyzing", "completed"] ∧
    notifiedStatuses (processVideoJob savesFailPipeline "https://example.org/watch" newVideo).1 =
      ["downloading", "transcribing", "analyzing", "completed"] :=
  ⟨by decide, by decide,
    (secondary_persistence_not_escalated savesFailPipeline "https://example.org/watch" newVideo
      demoVideo demoTranscript [rawSuggestion] rfl rfl rfl savesFailPipeline.SaveTranscript
      savesFailPipeline.SaveSuggestedClips).1,
    (secondary_persistence_not_escalated savesFailPipeline "https://example.org/watch" newVideo
      demoVideo demoTranscript [rawSuggestion] rfl rfl rfl savesFailPipeline.SaveTranscript
      savesFailPipeline.SaveSuggestedClips).2.1⟩

/-- C20 (code defect): a background colour in `rgb(...)` form is not read.
Whatever its components, `parseColorWithAlpha` falls through to its last
branch and gives black with the alpha of the opacity, while for the same text
`parseColorToFFmpeg` scans the components. For the cue on `rgb(255,0,0)` at
opacity 1/2 the box colour of the base layer is `0x0000007F`; for the cue on
`#FF0000` it is `0xFF00007F`; the text-colour path turns `rgb(255,0,0)` into
`0xFF0000`. -/
theorem rgb_background_rendered_black :
    (∀ (lib : GoLib) (components : String) (opacity : ℚ),
      parseColorWithAlpha lib ("rgb(" ++ components) opacity =
        "0x000000" ++ fmtX02 (floatToInt (f64 (opacity * 255)))) ∧
    (∀ (lib : GoLib) (components : String) (defaultColor : String),
      parseColorToFFmpeg lib ("rgb(" ++ components) defaultColor =
        "0x" ++ fmtX02 (lib.sscanRGB ("rgb(" ++ components)).1 ++
          fmtX02 (lib.sscanRGB ("rgb(" ++ components)).2.1 ++
          fmtX02 (lib.sscanRGB ("rgb(" ++ components)).2.2) ∧
    bgColorHex scanLib rgbCue = "0x0000007F" ∧
    bgColorHex scanLib hexCue = "0xFF00007F" ∧
    parseColorToFFmpeg scanLib rgbCue.BgColor "#FFFFFF" = "0xFF0000" ∧
    baseFilter scanLib rgbCue =
      "drawtext=text=\x27Hi\x27:fontfile=/usr/share/fonts/dejavu/DejaVuSans.ttf:fontsize=53" ++
      ":fontcolor=0xFFFFFF:box=1:boxcolor=0x0000007F:boxborderw=32:x=(w-text_w)/2" ++
      ":y=(1813.33)-text_h/2:enable=\x27between(t,0.00,2.00)\x27:shadowx=0:shadowy=3" ++
      ":shadowcolor=black@0.5" ∧
    baseFilter scanLib hexCue =
      "drawtext=text=\x27Hi\x27:fontfile=/usr/share/fonts/dejavu/DejaVuSans.ttf:fontsize=53" ++
      ":fontcolor=0xFFFFFF:box=1:boxcolor=0xFF00007F:boxborderw=32:x=(w-text_w)/2" ++
      ":y=(1813.33)-text_h/2:enable=\x27between(t,0.00,2.00)\x27:shadowx=0:shadowy=3" ++
      ":shadowcolor=black@0.5" := by
  have hrgba : ∀ components : String, stringsStartsWith ("rgb(" ++ components) "rgba" = false :=
    fun _ => rfl
  have hhash : ∀ components : String, stringsStartsWith ("rgb(" ++ components) "#" = false :=
    fun _ => rfl
  have hrgb : ∀ components : String, stringsStartsWith ("rgb(" ++ components) "rgb" = true :=
    fun _ => rfl
  have hne : ∀ components : String, "rgb(" ++ components ≠ "" := by
    intro components h
    have hlen := congrArg String.length h
    rw [String.length_append] at hlen
    have h4 : "rgb(".length = 4 := by decide
    have h0 : "".length = 0 := by decide
    omega
  refine ⟨?_, ?_, by decide!, by decide!, by decide!, by decide!, by decide!⟩
  · intro lib components opacity
    unfold parseColorWithAlpha
    simp only [hrgba, hhash, Bool.false_eq_true, if_false]
  · intro lib components defaultColor
    unfold parseColorToFFmpeg
    simp only [hne, hrgba, hhash, hrgb, Bool.false_eq_true, if_false, Bool.or_true, if_true,
      Bool.false_or]

/-! ## Suggestions, positions and raw extraction: theorems -/

theorem stampClips_times (w : Sys) (videoID : String) (k : Nat) (l : List SuggestedClip) :
    (stampClips w videoID k l).map (fun c => (c.StartTime, c.EndTime)) =
      l.map (fun c => (c.StartTime, c.EndTime)) := by
  induction l generalizing k with
  | nil => rfl
  | cons c cs ih =>
    unfold stampClips
    rw [List.map_cons, List.map_cons, ih (k + 1)]

/-- C21 (counterexample): for a video of 600 s the backend answers with a
suggestion from -5 s to 100000 s; `AnalyzeTranscript` returns it with these
times. -/
theorem analyzeTranscript_times_outside_video :
    demoVideo.Duration = 600 ∧
    (demoService.AnalyzeTranscript wildSys 7 demoTranscript demoVideo.ID).2 =
      .ok [{ wildSuggestion with ID := "id-7", VideoID := "v1" }] ∧
    wildSuggestion.StartTime = -5 ∧ wildSuggestion.EndTime = 100000 ∧
    ¬ (0 ≤ wildSuggestion.StartTime ∧ wildSuggestion.EndTime ≤ (demoVideo.Duration : ℚ)) := by
  decide!

/-- C21 (amended): every `SuggestedClip` returned by `AnalyzeTranscript` has
the start and end times that the backend response gives for it, unchanged
and in the same order. The duration of the video is no input of the stage:
two video records with the same id get the same result. -/
theorem analyzeTranscript_times_as_parsed (s : ProcessingService) (w : Sys) (k : Nat)
    (t : Transcript) (videoID : String) (clips : List SuggestedClip)
    (h : (s.AnalyzeTranscript w k t videoID).2 = .ok clips) :
    (∃ parsed : List SuggestedClip,
      (if getEnv w "USE_OLLAMA" "false" = "true" then analyzeWithOllama w t
        else analyzeWithDeepSeekAPI w t).2 = .ok parsed ∧
      clips.map (fun c => (c.StartTime, c.EndTime)) =
        parsed.map (fun c => (c.StartTime, c.EndTime))) ∧
    (∀ v1 v2 : Video, v1.ID = v2.ID →
      s.AnalyzeTranscript w k t v1.ID = s.AnalyzeTranscript w k t v2.ID) := by
  obtain ⟨parsed, hback, hclips⟩ := analyzeTranscript_success s w k t videoID clips h
  refine ⟨⟨parsed, hback, ?_⟩, fun v1 v2 hid => by rw [hid]⟩
  rw [hclips, stampClips_times]

/-- C21 (witness): the backend gives one suggestion from 12 s to 40 s. -/
theorem analyzeTranscript_times_as_parsed_witness :
    (demoService.AnalyzeTranscript analysisSys 7 demoTranscript "v1").2 =
      .ok [{ rawSuggestion with ID := "id-7", VideoID := "v1" }] ∧
    ∃ parsed : List SuggestedClip,
      (if getEnv analysisSys "USE_OLLAMA" "false" = "true"
        then analyzeWithOllama analysisSys demoTranscript
        else analyzeWithDeepSeekAPI analysisSys demoTranscript).2 = .ok parsed ∧
      [{ rawSuggestion with ID := "id-7", VideoID := "v1" }].map
          (fun c => (c.StartTime, c.EndTime)) =
        parsed.map (fun c => (c.StartTime, c.EndTime)) :=
  ⟨by decide!,
    (analyzeTranscript_times_as_parsed demoService analysisSys 7 demoTranscript "v1"
      [{ rawSuggestion with ID := "id-7", VideoID := "v1" }] (by decide!)).1⟩

theorem shadowFilter_carriesPosition (lib : GoLib) (c : SubtitleConfig) :
    carriesPosition lib (shadowFilter lib c) c :=
  ⟨"drawtext=text=\x27" ++ escapedText c ++ "\x27:fontfile=" ++ fontPath lib c ++
      ":fontsize=" ++ fmtD (scaledFontSize c) ++ ":fontcolor=0x000000@0:box=1:boxcolor=" ++
      shadowColor c ++ ":boxborderw=" ++ fmtD (shadowBorder c),
    "+" ++ fmtD shadowYOffset ++ ":" ++ enableExpr c, by
    have hx : ":x=(w-text_w)/2:y=" = ":x=" ++ (xExpr ++ ":y=") := by decide
    rw [hx]
    simp only [shadowFilter, String.append_assoc]⟩

theorem baseFilter_carriesPosition (lib : GoLib) (c : SubtitleConfig) :
    carriesPosition lib (baseFilter lib c) c :=
  ⟨"drawtext=text=\x27" ++ escapedText c ++ "\x27:fontfile=" ++ fontPath lib c ++
      ":fontsize=" ++ fmtD (scaledFontSize c) ++ ":fontcolor=" ++ textColor lib c ++
      ":box=1:boxcolor=" ++ bgColorHex lib c ++ ":boxborderw=" ++ fmtD (boxBorder c),
    ":" ++ enableExpr c ++ ":shadowx=" ++ fmtD 0 ++ ":shadowy=" ++ fmtD textShadowY ++
      ":shadowcolor=" ++ "black@0.5", by
    have hx : ":x=(w-text_w)/2:y=" = ":x=" ++ (xExpr ++ ":y=") := by decide
    rw [hx]
    simp only [baseFilter, String.append_assoc]⟩

theorem activeFilter_carriesPosition (lib : GoLib) (c : SubtitleConfig) :
    carriesPosition lib (activeFilter lib c) c :=
  ⟨"drawtext=text=\x27" ++ escapedText c ++ "\x27:fontfile=" ++ fontPath lib c ++
      ":fontsize=" ++ fmtD (scaledFontSize c) ++ ":fontcolor=" ++ activeColor lib c ++ ":box=0",
    ":" ++ enableExpr c ++ ":alpha=\x27min(1\\,max(0\\,(t-" ++ fmtF2 c.StartTime ++ ")/" ++
      fmtF2 (fadeDuration c) ++ "))\x27", by
    have hx : ":box=0:x=" = ":box=0" ++ ":x=" := by decide
    have hy : ":x=(w-text_w)/2:y=" = ":x=" ++ (xExpr ++ ":y=") := by decide
    rw [hy]
    simp only [activeFilter, hx, String.append_assoc]⟩

/-- Every layer of a cue places the text at the position of the cue. -/
theorem cueFilters_carriesPosition (lib : GoLib) (c : SubtitleConfig) (layer : String)
    (h : layer ∈ cueFilters lib c) : carriesPosition lib layer c := by
  rcases (mem_cueFilters lib c layer h).2 with h1 | h1 | h1
  · rw [h1]
    exact shadowFilter_carriesPosition lib c
  · rw [h1]
    exact baseFilter_carriesPosition lib c
  · rw [h1]
    exact activeFilter_carriesPosition lib c

/-- C22 (counterexample): for the scenario cue, whose position is empty, and
for the same cue at `bottom` and at an unrecognised position, the anchor
printed is 1813.33, which is (720 - 40) × 1920/720; the bottom margin of
40 px scaled by 1920/720 prints as 106.67. -/
theorem bottom_anchor_not_margin :
    yExpr asciiLib hiCue = "(1813.33)-text_h/2" ∧
    yExpr asciiLib bottomCue = "(1813.33)-text_h/2" ∧
    yExpr asciiLib middleCue = "(1813.33)-text_h/2" ∧
    bottomMargin = 40 ∧
    fmtF2 (f64 (bottomMargin * scaleFactor)) = "106.67" ∧
    targetY asciiLib hiCue ≠ f64 (bottomMargin * scaleFactor) := by
  decide!

/-- C22 (amended): for every cue whose position, in lower case, is neither
`top` nor `center` (so `bottom`, empty or unrecognised), the vertical anchor
is the reference canvas height minus the bottom margin, 720 - 40 = 680 px,
scaled by the canvas factor 1920/720, and every layer of the cue places the
text box with its middle at that coordinate: `y = (1813.33)-text_h/2`. -/
theorem bottom_anchor (lib : GoLib) (sub : SubtitleConfig)
    (htop : stringsToLower lib sub.Position ≠ "top")
    (hcenter : stringsToLower lib sub.Position ≠ "center") :
    targetY lib sub = f64 ((canvasHeight - bottomMargin) * scaleFactor) ∧
    canvasHeight - bottomMargin = 680 ∧
    scaleFactor = f64 (1920 / 720) ∧
    yExpr lib sub = "(1813.33)-text_h/2" ∧
    (∀ layer ∈ cueFilters lib sub, ∃ pre post : String,
      layer = pre ++ ":x=(w-text_w)/2:y=" ++ "(1813.33)-text_h/2" ++ post) := by
  have ht : targetY lib sub = f64 ((canvasHeight - bottomMargin) * scaleFactor) := by
    unfold targetY
    simp only [htop, hcenter, if_false]
  have hy : yExpr lib sub = "(1813.33)-text_h/2" := by
    unfold yExpr
    rw [ht]
    decide!
  refine ⟨ht, by decide!, rfl, hy, ?_⟩
  intro layer hl
  have hp := cueFilters_carriesPosition lib sub layer hl
  unfold carriesPosition at hp
  rw [hy] at hp
  exact hp

/-- C22 (witness): the scenario cue at position `bottom`. -/
theorem bottom_anchor_witness :
    stringsToLower asciiLib bottomCue.Position ≠ "top" ∧
    stringsToLower asciiLib bottomCue.Position ≠ "center" ∧
    yExpr asciiLib bottomCue = "(1813.33)-text_h/2" :=
  ⟨by decide, by decide, (bottom_anchor asciiLib bottomCue (by decide) (by decide)).2.2.2.1⟩

/-- The anchor of a cue at position `center`, in any letter case. -/
theorem yExpr_center (lib : GoLib) (c : SubtitleConfig)
    (hpos : stringsToLower lib c.Position = "center") :
    targetY lib c = f64 (canvasHeight / 2 * scaleFactor) ∧
    yExpr lib c = "(960.00)-text_h/2" := by
  have ht : targetY lib c = f64 (canvasHeight / 2 * scaleFactor) := by
    unfold targetY
    simp only [hpos]
    rfl
  refine ⟨ht, ?_⟩
  unfold yExpr
  rw [ht]
  decide!

/-- The anchor of a cue at position `top`, in any letter case. -/
theorem yExpr_top (lib : GoLib) (c : SubtitleConfig)
    (hpos : stringsToLower lib c.Position = "top") :
    targetY lib c = f64 (bottomMargin * scaleFactor) ∧
    yExpr lib c = "(106.67)-text_h/2" := by
  have ht : targetY lib c = f64 (bottomMargin * scaleFactor) := by
    unfold targetY
    simp only [hpos, if_true]
  refine ⟨ht, ?_⟩
  unfold yExpr
  rw [ht]
  decide!

/-- C23: the layers of a cue stand in the output of the builder at the place
of the cue in the list, whatever the cues before and after it, and each of
them, the shadow, base or highlight layer of that cue, places the text
horizontally in the middle of the frame, `x=(w-text_w)/2`, and vertically at
the anchor of that same cue. For a cue whose position is `center` in any
letter case the anchor is half the reference canvas height scaled by
1920/720, and each of its layers has `y=(960.00)-text_h/2`; for position
`top` it is the 40 px margin scaled by the same factor, and each of its
layers has `y=(106.67)-text_h/2`. Conversely every layer of the output is a
layer of a cue of the list and carries the position of that cue. -/
theorem position_center_top (lib : GoLib) (pre post : List SubtitleConfig)
    (c : SubtitleConfig) (layer : String) (h : layer ∈ cueFilters lib c) :
    buildFilters lib (pre ++ c :: post) =
      buildFilters lib pre ++ (cueFilters lib c ++ buildFilters lib post) ∧
    layer ∈ buildFilters lib (pre ++ c :: post) ∧
    isBlank c = false ∧
    (layer = shadowFilter lib c ∨ layer = baseFilter lib c ∨ layer = activeFilter lib c) ∧
    (∃ p q : String, layer = p ++ ":x=(w-text_w)/2:y=" ++ yExpr lib c ++ q) ∧
    (stringsToLower lib c.Position = "center" →
      targetY lib c = f64 (canvasHeight / 2 * scaleFactor) ∧
      yExpr lib c = "(960.00)-text_h/2" ∧
      ∃ p q : String, layer = p ++ ":x=(w-text_w)/2:y=" ++ "(960.00)-text_h/2" ++ q) ∧
    (stringsToLower lib c.Position = "top" →
      targetY lib c = f64 (bottomMargin * scaleFactor) ∧
      yExpr lib c = "(106.67)-text_h/2" ∧
      ∃ p q : String, layer = p ++ ":x=(w-text_w)/2:y=" ++ "(106.67)-text_h/2" ++ q) ∧
    (∀ (subs : List SubtitleConfig) (l : String), l ∈ buildFilters lib subs →
      ∃ d ∈ subs, l ∈ cueFilters lib d ∧ isBlank d = false ∧
        (l = shadowFilter lib d ∨ l = baseFilter lib d ∨ l = activeFilter lib d) ∧
        (∃ p q : String, l = p ++ ":x=(w-text_w)/2:y=" ++ yExpr lib d ++ q) ∧
        (stringsToLower lib d.Position = "center" → yExpr lib d = "(960.00)-text_h/2") ∧
        (stringsToLower lib d.Position = "top" → yExpr lib d = "(106.67)-text_h/2")) ∧
    canvasHeight = 720 ∧ bottomMargin = 40 ∧ scaleFactor = f64 (1920 / 720) := by
  have hmid := buildFilters_middle lib pre post c
  have hcarry := cueFilters_carriesPosition lib c layer h
  obtain ⟨hb, hkind⟩ := mem_cueFilters lib c layer h
  refine ⟨hmid, ?_, hb, hkind, hcarry, ?_, ?_, ?_, rfl, rfl, rfl⟩
  · rw [hmid]
    exact List.mem_append_right _ (List.mem_append_left _ h)
  · intro hpos
    obtain ⟨ht, hy⟩ := yExpr_center lib c hpos
    refine ⟨ht, hy, ?_⟩
    rw [← hy]
    exact hcarry
  · intro hpos
    obtain ⟨ht, hy⟩ := yExpr_top lib c hpos
    refine ⟨ht, hy, ?_⟩
    rw [← hy]
    exact hcarry
  · intro subs l hl
    rw [buildFilters_eq_flatMap, List.mem_flatMap] at hl
    obtain ⟨d, hd, hld⟩ := hl
    obtain ⟨hdb, hdkind⟩ := mem_cueFilters lib d l hld
    exact ⟨d, hd, hld, hdb, hdkind, cueFilters_carriesPosition lib d l hld,
      fun hpos => (yExpr_center lib d hpos).2, fun hpos => (yExpr_top lib d hpos).2⟩

/-- C23 (witness): the cue at position `CeNtEr` between a cue at position
`Top` and a cue at the bottom: its base layer is in the output, at the
centre anchor, while the layers of the first cue are at the top anchor. -/
theorem position_center_top_witness :
    baseFilter asciiLib centerCue ∈ cueFilters asciiLib centerCue ∧
    stringsToLower asciiLib centerCue.Position = "center" ∧
    stringsToLower asciiLib topCue.Position = "top" ∧
    buildFilters asciiLib [topCue, centerCue, hiCue] =
      [shadowFilter asciiLib topCue, baseFilter asciiLib topCue,
        shadowFilter asciiLib centerCue, baseFilter asciiLib centerCue,
        shadowFilter asciiLib hiCue, baseFilter asciiLib hiCue] ∧
    baseFilter asciiLib topCue =
      "drawtext=text=\x27Hi\x27:fontfile=/usr/share/fonts/dejavu/DejaVuSans.ttf:fontsize=53" ++
      ":fontcolor=0xFFFFFF:box=1:boxcolor=0x000000CC:boxborderw=32" ++
      ":x=(w-text_w)/2:y=(106.67)-text_h/2:enable=\x27between(t,0.00,2.00)\x27" ++
      ":shadowx=0:shadowy=3:shadowcolor=black@0.5" ∧
    baseFilter asciiLib centerCue =
      "drawtext=text=\x27Hi\x27:fontfile=/usr/share/fonts/dejavu/DejaVuSans.ttf:fontsize=53" ++
      ":fontcolor=0xFFFFFF:box=1:boxcolor=0x000000CC:boxborderw=32" ++
      ":x=(w-text_w)/2:y=(960.00)-text_h/2:enable=\x27between(t,0.00,2.00)\x27" ++
      ":shadowx=0:shadowy=3:shadowcolor=black@0.5" ∧
    baseFilter asciiLib centerCue ∈ buildFilters asciiLib ([topCue] ++ centerCue :: [hiCue]) ∧
    ∃ p q : String,
      baseFilter asciiLib centerCue = p ++ ":x=(w-text_w)/2:y=" ++ "(960.00)-text_h/2" ++ q :=
  ⟨by decide!, by decide, by decide, by decide!, by decide!, by decide!,
    (position_center_top asciiLib [topCue] [hiCue] centerCue (baseFilter asciiLib centerCue)
      (by decide!)).2.1,
    ((position_center_top asciiLib [topCue] [hiCue] centerCue (baseFilter asciiLib centerCue)
      (by decide!)).2.2.2.2.2.1 (by decide)).2.2⟩

/-- The actions of `ExtractClipOnly` on the outside world: none, or one run
of the engine on its argument list. -/
theorem extractClipOnly_effects (s : ProcessingService) (w : Sys) (mkdirErr : Option String)
    (inputPath videoID : String) (startTime endTime : ℚ) :
    (s.ExtractClipOnly w mkdirErr inputPath videoID startTime endTime).1 = [] ∨
    (s.ExtractClipOnly w mkdirErr inputPath videoID startTime endTime).1 =
      [.exec s.ffmpegPath
        (extractClipArgs inputPath
          (w.pathJoin [w.pathJoin [s.storagePath, "clips"],
            extractFilename videoID startTime endTime]) startTime endTime)] := by
  unfold ProcessingService.ExtractClipOnly
  cases mkdirErr with
  | some err => exact Or.inl rfl
  | none =>
    simp only []
    split_ifs with h1
    · exact Or.inl rfl
    · right
      split <;> rfl

/-- The actions of `CreateClip` on the outside world: none, or one run of the
engine on the arguments built for the resolved input path, which is the file
path of the video when that is absolute and its absolute form otherwise. -/
theorem createClip_effects (s : ProcessingService) (lib : GoLib) (w : Sys) (video : Video)
    (clip : Clip) :
    (s.CreateClip lib w video clip).effects = [] ∨
    ∃ resolved : String,
      (s.CreateClip lib w video clip).effects =
        [.exec s.ffmpegPath
          (createClipArgs lib clip resolved
            (w.pathJoin [s.storagePath, "clips", clip.ID ++ ".mp4"]))] ∧
      (w.isAbs video.FilePath = true → resolved = video.FilePath) ∧
      (w.isAbs video.FilePath = false → w.absPath video.FilePath = .ok resolved) := by
  have hrun : ∀ inputPath outputPath : String,
      (createClipRun s lib w clip inputPath outputPath).effects = [] ∨
      (createClipRun s lib w clip inputPath outputPath).effects =
        [.exec s.ffmpegPath (createClipArgs lib clip inputPath outputPath)] := by
    intro inputPath outputPath
    unfold createClipRun
    split_ifs
    · exact Or.inl rfl
    · right
      simp only []
      split <;> rfl
  unfold ProcessingService.CreateClip
  simp only []
  cases habs : w.isAbs video.FilePath with
  | false =>
    simp only [Bool.not_false, if_true]
    rcases except_cases (w.absPath video.FilePath) with ⟨e, he⟩ | ⟨p, hp⟩
    · rw [he]
      exact Or.inl rfl
    · rw [hp]
      simp only []
      rcases hrun p (w.pathJoin [s.storagePath, "clips", clip.ID ++ ".mp4"]) with h | h
      · exact Or.inl h
      · exact Or.inr ⟨p, h, fun hc => (by cases hc), fun _ => rfl⟩
  | true =>
    simp only [Bool.not_true, Bool.false_eq_true, if_false]
    rcases hrun video.FilePath (w.pathJoin [s.storagePath, "clips", clip.ID ++ ".mp4"])
      with h | h
    · exact Or.inl h
    · exact Or.inr ⟨video.FilePath, h, fun _ => rfl, fun hc => (by cases hc)⟩

/-- C24 (counterexample): the video of the evaluations with the relative file
path `../storage/videos/v1.mp4`, in a server whose working directory is
`/srv/backend`, and the window 0 s to 5 s without cues. `ExtractClipOnly`
hands the path to the engine as given; `CreateClip` first makes it absolute,
so the two argument lists differ in the input path (argument 4) as well as
in the preset and the output path. -/
theorem relative_input_path_differs :
    backendSys.isAbs relativeVideo.FilePath = false ∧
    backendSys.absPath relativeVideo.FilePath = .ok "/srv/storage/videos/v1.mp4" ∧
    freshClip.StartTime = 0 ∧ freshClip.EndTime = 5 ∧ freshClip.Subtitles = [] ∧
    (demoService.ExtractClipOnly backendSys none relativeVideo.FilePath "v1"
        freshClip.StartTime freshClip.EndTime) =
      ([.exec "ffmpeg"
          ["-y", "-ss", "0.00", "-i", "../storage/videos/v1.mp4", "-t", "5.00", "-vf",
            "scale=-1:1920,crop=min(iw\\,1080):1920", "-s", "1080x1920", "-c:v", "libx264",
            "-preset", "fast", "-crf", "18", "-pix_fmt", "yuv420p", "-c:a", "aac",
            "-b:a", "192k", "-movflags", "+faststart", "../storage/clips/v1_raw_0-5.mp4"]],
        .ok "../storage/clips/v1_raw_0-5.mp4") ∧
    (demoService.CreateClip asciiLib backendSys relativeVideo
        { freshClip with ID := "c1" }).effects =
      [.exec "ffmpeg"
          ["-y", "-ss", "0.00", "-i", "/srv/storage/videos/v1.mp4", "-t", "5.00", "-vf",
            "scale=-1:1920,crop=min(iw\\,1080):1920", "-s", "1080x1920", "-c:v", "libx264",
            "-preset", "medium", "-crf", "18", "-pix_fmt", "yuv420p", "-c:a", "aac",
            "-b:a", "192k", "-movflags", "+faststart", "../storage/clips/c1.mp4"]] ∧
    (∀ out1 out2 : String,
      extractClipArgs relativeVideo.FilePath out2 freshClip.StartTime freshClip.EndTime ≠
        ((createClipArgs asciiLib { freshClip with ID := "c1" } "/srv/storage/videos/v1.mp4"
          out1).set 14 "fast").set 25 out2) := by
  refine ⟨by decide, by decide, by decide!, by decide!, by decide, by decide!, by decide!, ?_⟩
  intro out1 out2 h
  have h4 :
      (extractClipArgs relativeVideo.FilePath out2 freshClip.StartTime freshClip.EndTime)[4]? =
        (((createClipArgs asciiLib { freshClip with ID := "c1" } "/srv/storage/videos/v1.mp4"
          out1).set 14 "fast").set 25 out2)[4]? := by
    rw [h]
  have e1 :
      (extractClipArgs relativeVideo.FilePath out2 freshClip.StartTime freshClip.EndTime)[4]? =
        some "../storage/videos/v1.mp4" := rfl
  have e2 :
      (((createClipArgs asciiLib { freshClip with ID := "c1" } "/srv/storage/videos/v1.mp4"
          out1).set 14 "fast").set 25 out2)[4]? = some "/srv/storage/videos/v1.mp4" := rfl
  rw [e1, e2] at h4
  exact absurd h4 (by decide)

/-- C24 (amended): for every input path that exists and every window,
`ExtractClipOnly`, once the clips directory is there, runs the engine once,
on its argument list with the input path as given and the raw output name,
and returns the output path when the engine reports no error.
`CreateClip`, for a video with that file path and a clip with the same
window and no cues, runs the engine once with the path itself when it is
absolute, and with its absolute form when it is relative and the absolute
form exists. The list of `ExtractClipOnly` is the list of `CreateClip` for
the same input path except for the preset (argument 14), `fast` in place of
`medium`, and the output path (argument 25, the last); against the list of
`CreateClip` for another input path it differs in the input path (argument
4) as well. Seek, duration and the scale-and-crop filter are the same; the
filter argument is the scale-and-crop chain alone and has no `drawtext`
layer. Neither method runs anything else. -/
theorem extractClipOnly_args (s : ProcessingService) (lib : GoLib) (w : Sys)
    (clip : Clip) (inputPath videoID : String)
    (hexists : w.notExist inputPath = false) :
    (s.ExtractClipOnly w none inputPath videoID clip.StartTime clip.EndTime).1 =
      [.exec s.ffmpegPath
        (extractClipArgs inputPath
          (w.pathJoin [w.pathJoin [s.storagePath, "clips"],
            extractFilename videoID clip.StartTime clip.EndTime])
          clip.StartTime clip.EndTime)] ∧
    ((w.run s.ffmpegPath
        (extractClipArgs inputPath
          (w.pathJoin [w.pathJoin [s.storagePath, "clips"],
            extractFilename videoID clip.StartTime clip.EndTime])
          clip.StartTime clip.EndTime)).2 = none →
      (s.ExtractClipOnly w none inputPath videoID clip.StartTime clip.EndTime).2 =
        .ok (w.pathJoin [w.pathJoin [s.storagePath, "clips"],
          extractFilename videoID clip.StartTime clip.EndTime])) ∧
    (∀ video : Video, w.isAbs inputPath = true →
      (s.CreateClip lib w { video with FilePath := inputPath }
          { clip with Subtitles := [] }).effects =
        [.exec s.ffmpegPath
          (createClipArgs lib { clip with Subtitles := [] } inputPath
            (w.pathJoin [s.storagePath, "clips", clip.ID ++ ".mp4"]))]) ∧
    (∀ (video : Video) (resolved : String), w.isAbs inputPath = false →
      w.absPath inputPath = .ok resolved → w.notExist resolved = false →
      (s.CreateClip lib w { video with FilePath := inputPath }
          { clip with Subtitles := [] }).effects =
        [.exec s.ffmpegPath
          (createClipArgs lib { clip with Subtitles := [] } resolved
            (w.pathJoin [s.storagePath, "clips", clip.ID ++ ".mp4"]))]) ∧
    (∀ out1 out2 : String,
      extractClipArgs inputPath out2 clip.StartTime clip.EndTime =
        ((createClipArgs lib { clip with Subtitles := [] } inputPath out1).set 14 "fast").set
          25 out2) ∧
    (∀ resolved out1 out2 : String,
      extractClipArgs inputPath out2 clip.StartTime clip.EndTime =
        (((createClipArgs lib { clip with Subtitles := [] } resolved out1).set 4
          inputPath).set 14 "fast").set 25 out2 ∧
      (createClipArgs lib { clip with Subtitles := [] } resolved out1).length = 26 ∧
      (createClipArgs lib { clip with Subtitles := [] } resolved out1)[4]? = some resolved ∧
      (createClipArgs lib { clip with Subtitles := [] } resolved out1)[14]? = some "medium" ∧
      (createClipArgs lib { clip with Subtitles := [] } resolved out1)[25]? = some out1) ∧
    (∀ out2 : String,
      (extractClipArgs inputPath out2 clip.StartTime clip.EndTime).take 8 =
        ["-y", "-ss", fmtF2 clip.StartTime, "-i", inputPath, "-t",
          fmtF2 (f64 (clip.EndTime - clip.StartTime)), "-vf"] ∧
      (extractClipArgs inputPath out2 clip.StartTime clip.EndTime)[8]? = some scaleCrop ∧
      (extractClipArgs inputPath out2 clip.StartTime clip.EndTime)[14]? = some "fast" ∧
      (extractClipArgs inputPath out2 clip.StartTime clip.EndTime)[25]? = some out2) ∧
    stringsContains scaleCrop "drawtext" = false ∧
    (∀ (mkdirErr : Option String) (path : String) (e : Effect),
      e ∈ (s.ExtractClipOnly w mkdirErr path videoID clip.StartTime clip.EndTime).1 →
      e = .exec s.ffmpegPath
        (extractClipArgs path
          (w.pathJoin [w.pathJoin [s.storagePath, "clips"],
            extractFilename videoID clip.StartTime clip.EndTime])
          clip.StartTime clip.EndTime)) ∧
    (∀ (video : Video) (e : Effect),
      e ∈ (s.CreateClip lib w video { clip with Subtitles := [] }).effects →
      ∃ resolved : String,
        e = .exec s.ffmpegPath
          (createClipArgs lib { clip with Subtitles := [] } resolved
            (w.pathJoin [s.storagePath, "clips", clip.ID ++ ".mp4"])) ∧
        (w.isAbs video.FilePath = true → resolved = video.FilePath) ∧
        (w.isAbs video.FilePath = false → w.absPath video.FilePath = .ok resolved)) := by
  have hrun : ∀ p out : String, w.notExist p = false →
      (createClipRun s lib w { clip with Subtitles := [] } p out).effects =
        [.exec s.ffmpegPath (createClipArgs lib { clip with Subtitles := [] } p out)] := by
    intro p out hp
    unfold createClipRun
    rw [hp]
    simp only [Bool.false_eq_true, if_false]
    split <;> rfl
  refine ⟨?_, ?_, ?_, ?_, fun _ _ => rfl, fun _ _ _ => ⟨rfl, rfl, rfl, rfl, rfl⟩,
    fun _ => ⟨rfl, rfl, rfl, rfl⟩, by decide, ?_, ?_⟩
  · unfold ProcessingService.ExtractClipOnly
    simp only [hexists, Bool.false_eq_true, if_false]
    split <;> rfl
  · intro hok
    unfold ProcessingService.ExtractClipOnly
    simp only [hexists, Bool.false_eq_true, if_false]
    rcases hr : w.run s.ffmpegPath
        (extractClipArgs inputPath
          (w.pathJoin [w.pathJoin [s.storagePath, "clips"],
            extractFilename videoID clip.StartTime clip.EndTime])
          clip.StartTime clip.EndTime) with ⟨o, _ | err⟩
    · rfl
    · rw [hr] at hok
      cases hok
  · intro video habs
    unfold ProcessingService.CreateClip
    simp only [habs, Bool.not_true, Bool.false_eq_true, if_false]
    exact hrun _ _ hexists
  · intro video resolved habs hres hex
    unfold ProcessingService.CreateClip
    simp only [habs, Bool.not_false, if_true, hres]
    exact hrun _ _ hex
  · intro mkdirErr path e he
    rcases extractClipOnly_effects s w mkdirErr path videoID clip.StartTime clip.EndTime
      with h | h
    · rw [h] at he
      exact absurd he (List.not_mem_nil _)
    · rw [h] at he
      exact List.mem_singleton.mp he
  · intro video e he
    rcases createClip_effects s lib w video { clip with Subtitles := [] } with
      h | ⟨p, h, h1, h2⟩
    · rw [h] at he
      exact absurd he (List.not_mem_nil _)
    · rw [h] at he
      exact ⟨p, List.mem_singleton.mp he, h1, h2⟩

/-- C24 (witness): the video of the evaluations at the absolute path
`/srv/storage/videos/v1.mp4`, window 0 s to 5 s: each method runs the engine
once, on lists that differ in the preset and the output path only. -/
theorem extractClipOnly_args_witness :
    demoSys.notExist "/srv/storage/videos/v1.mp4" = false ∧
    (demoService.ExtractClipOnly demoSys none "/srv/storage/videos/v1.mp4" "v1" 0 5) =
      ([.exec "ffmpeg"
          ["-y", "-ss", "0.00", "-i", "/srv/storage/videos/v1.mp4", "-t", "5.00", "-vf",
            "scale=-1:1920,crop=min(iw\\,1080):1920", "-s", "1080x1920", "-c:v", "libx264",
            "-preset", "fast", "-crf", "18", "-pix_fmt", "yuv420p", "-c:a", "aac",
            "-b:a", "192k", "-movflags", "+faststart", "../storage/clips/v1_raw_0-5.mp4"]],
        .ok "../storage/clips/v1_raw_0-5.mp4") ∧
    (demoService.CreateClip asciiLib demoSys demoVideo
        { freshClip with ID := "c1" }).effects =
      [.exec "ffmpeg"
          ["-y", "-ss", "0.00", "-i", "/srv/storage/videos/v1.mp4", "-t", "5.00", "-vf",
            "scale=-1:1920,crop=min(iw\\,1080):1920", "-s", "1080x1920", "-c:v", "libx264",
            "-preset", "medium", "-crf", "18", "-pix_fmt", "yuv420p", "-c:a", "aac",
            "-b:a", "192k", "-movflags", "+faststart", "../storage/clips/c1.mp4"]] ∧
    (demoService.ExtractClipOnly demoSys none "/srv/storage/videos/v1.mp4" "v1"
        ({ freshClip with ID := "c1" } : Clip).StartTime
        ({ freshClip with ID := "c1" } : Clip).EndTime).1 =
      [.exec demoService.ffmpegPath
        (extractClipArgs "/srv/storage/videos/v1.mp4"
          (demoSys.pathJoin [demoSys.pathJoin [demoService.storagePath, "clips"],
            extractFilename "v1" ({ freshClip with ID := "c1" } : Clip).StartTime
              ({ freshClip with ID := "c1" } : Clip).EndTime])
          ({ freshClip with ID := "c1" } : Clip).StartTime
          ({ freshClip with ID := "c1" } : Clip).EndTime)] :=
  ⟨by decide, by decide!, by decide!,
    (extractClipOnly_args demoService asciiLib demoSys { freshClip with ID := "c1" }
      "/srv/storage/videos/v1.mp4" "v1" (by decide)).1⟩

/-! ## Lemmas on binary64 rounding -/

theorem log2Fuel_spec (fuel n : Nat) (hn : 0 < n) (hf : n ≤ fuel) :
    2 ^ log2Fuel fuel n ≤ n ∧ n < 2 ^ (log2Fuel fuel n + 1) := by
  induction fuel generalizing n with
  | zero => omega
  | succ f ih =>
    unfold log2Fuel
    by_cases h2 : n < 2
    · rw [if_pos h2]
      have h1 : n = 1 := by omega
      rw [h1]
      decide
    · rw [if_neg h2]
      obtain ⟨ha, hb⟩ := ih (n / 2) (by omega) (by omega)
      rw [pow_succ] at hb ⊢
      rw [pow_succ]
      constructor <;> omega

theorem two_zpow_split (z : ℤ) :
    (2 : ℚ) ^ z = ((2 ^ z.toNat : Nat) : ℚ) / ((2 ^ (-z).toNat : Nat) : ℚ) := by
  rcases le_or_lt 0 z with h | h
  · obtain ⟨k, rfl⟩ := Int.eq_ofNat_of_zero_le h
    simp
  · obtain ⟨k, rfl⟩ := Int.exists_eq_neg_ofNat (le_of_lt h)
    simp

theorem pos_eq_natAbs_div_den (x : ℚ) (hx : 0 ≤ x) :
    x = (x.num.natAbs : ℚ) / (x.den : ℚ) := by
  have h := abs_eq_natAbs_div_den x
  rw [abs_of_nonneg hx] at h
  exact h

/-- The shape of a rounded value: for `x > 0` with `2^e ≤ x < 2^(e+1)`, the
binary64 value is a multiple `n` of the unit `2^u`, `u = max (e - 52) (-1074)`,
and `n` is within one half of `x / 2^u`. -/
theorem f64_spec (x : ℚ) (hx : 0 < x) :
    ∃ (e : ℤ) (n : Nat), (2 : ℚ) ^ e ≤ x ∧ x < 2 ^ (e + 1) ∧
      f64 x = (n : ℚ) * 2 ^ (max (e - 52) (-1074)) ∧
      |(n : ℚ) - x / 2 ^ (max (e - 52) (-1074))| ≤ 1 / 2 := by
  have hxe := pos_eq_natAbs_div_den x (le_of_lt hx)
  have hq : 0 < x.den := x.den_pos
  have hqQ : (0 : ℚ) < (x.den : ℚ) := by exact_mod_cast hq
  have hp : 0 < x.num.natAbs := by
    rcases Nat.eq_zero_or_pos x.num.natAbs with h0 | h0
    · exfalso
      rw [h0] at hxe
      simp at hxe
      exact (ne_of_gt hx) hxe
    · exact h0
  have hpQ : (0 : ℚ) < (x.num.natAbs : ℚ) := by exact_mod_cast hp
  obtain ⟨ha1, ha2⟩ := log2Fuel_spec x.num.natAbs x.num.natAbs hp (le_refl _)
  obtain ⟨hb1, hb2⟩ := log2Fuel_spec x.den x.den hq (le_refl _)
  set p := x.num.natAbs with hpdef
  set q := x.den with hqdef
  set a := log2Fuel p p with hadef
  set b := log2Fuel q q with hbdef
  have two_pos : ∀ z : ℤ, (0 : ℚ) < 2 ^ z := fun z => zpow_pos (by norm_num) z
  -- bounds on x in terms of a - b
  have hlow : (2 : ℚ) ^ ((a : ℤ) - (b : ℤ) - 1) < x := by
    have h1 : (2 : ℚ) ^ ((a : ℤ) - (b : ℤ) - 1) = (2 : ℚ) ^ a / 2 ^ (b + 1) := by
      rw [show (a : ℤ) - (b : ℤ) - 1 = (a : ℤ) - ((b + 1 : Nat) : ℤ) by push_cast; ring,
        zpow_sub₀ (by norm_num), zpow_natCast, zpow_natCast]
    rw [h1, hxe, div_lt_div_iff₀ (by positivity) hqQ]
    have h2 : ((2 ^ a : Nat) : ℚ) ≤ (p : ℚ) := by exact_mod_cast ha1
    have h3 : ((q : Nat) : ℚ) < ((2 ^ (b + 1) : Nat) : ℚ) := by exact_mod_cast hb2
    push_cast at h2 h3
    calc (2 : ℚ) ^ a * (q : ℚ) < 2 ^ a * 2 ^ (b + 1) :=
          mul_lt_mul_of_pos_left h3 (by positivity)
      _ ≤ (p : ℚ) * 2 ^ (b + 1) := mul_le_mul_of_nonneg_right h2 (by positivity)
  have hhigh : x < (2 : ℚ) ^ ((a : ℤ) - (b : ℤ) + 1) := by
    have h1 : (2 : ℚ) ^ ((a : ℤ) - (b : ℤ) + 1) = (2 : ℚ) ^ (a + 1) / 2 ^ b := by
      rw [show (a : ℤ) - (b : ℤ) + 1 = ((a + 1 : Nat) : ℤ) - (b : ℤ) by push_cast; ring,
        zpow_sub₀ (by norm_num), zpow_natCast, zpow_natCast]
    rw [h1, hxe, div_lt_div_iff₀ hqQ (by positivity)]
    have h2 : ((p : Nat) : ℚ) < ((2 ^ (a + 1) : Nat) : ℚ) := by exact_mod_cast ha2
    have h3 : ((2 ^ b : Nat) : ℚ) ≤ (q : ℚ) := by exact_mod_cast hb1
    push_cast at h2 h3
    calc (p : ℚ) * 2 ^ b < 2 ^ (a + 1) * 2 ^ b :=
          mul_lt_mul_of_pos_right h2 (by positivity)
      _ ≤ 2 ^ (a + 1) * (q : ℚ) := mul_le_mul_of_nonneg_left h3 (by positivity)
  -- the comparison made by the code
  have hcond : ∀ z : ℤ, (p * 2 ^ (-z).toNat < q * 2 ^ z.toNat) ↔ x < (2 : ℚ) ^ z := by
    intro z
    rw [two_zpow_split z, hxe, div_lt_div_iff₀ hqQ (by positivity)]
    constructor
    · intro h
      have : ((p * 2 ^ (-z).toNat : Nat) : ℚ) < ((q * 2 ^ z.toNat : Nat) : ℚ) := by
        exact_mod_cast h
      push_cast at this ⊢
      linarith
    · intro h
      have : ((p * 2 ^ (-z).toNat : Nat) : ℚ) < ((q * 2 ^ z.toNat : Nat) : ℚ) := by
        push_cast at h ⊢
        linarith
      exact_mod_cast this
  -- the value computed by the code
  have hval : ∀ e : ℤ,
      (if x < 0 then
          -(((roundDivHalfEven (p * 2 ^ (-(max (e - 52) (-1074))).toNat)
              (q * 2 ^ (max (e - 52) (-1074)).toNat) *
            2 ^ (max (e - 52) (-1074)).toNat : Nat) : ℚ) /
            ((2 ^ (-(max (e - 52) (-1074))).toNat : Nat) : ℚ))
        else
          ((roundDivHalfEven (p * 2 ^ (-(max (e - 52) (-1074))).toNat)
              (q * 2 ^ (max (e - 52) (-1074)).toNat) *
            2 ^ (max (e - 52) (-1074)).toNat : Nat) : ℚ) /
            ((2 ^ (-(max (e - 52) (-1074))).toNat : Nat) : ℚ)) =
        ((roundDivHalfEven (p * 2 ^ (-(max (e - 52) (-1074))).toNat)
            (q * 2 ^ (max (e - 52) (-1074)).toNat) : Nat) : ℚ) *
          2 ^ (max (e - 52) (-1074)) ∧
      |((roundDivHalfEven (p * 2 ^ (-(max (e - 52) (-1074))).toNat)
            (q * 2 ^ (max (e - 52) (-1074)).toNat) : Nat) : ℚ) -
          x / 2 ^ (max (e - 52) (-1074))| ≤ 1 / 2 := by
    intro e
    generalize max (e - 52) (-1074) = u
    constructor
    · rw [if_neg (not_lt.mpr (le_of_lt hx)), two_zpow_split u]
      push_cast
      ring
    · have herr := roundDivHalfEven_error (p * 2 ^ (-u).toNat) (q * 2 ^ u.toNat)
        (Nat.mul_pos hq (pow_pos (by norm_num) _))
      have hdiv : ((p * 2 ^ (-u).toNat : Nat) : ℚ) / ((q * 2 ^ u.toNat : Nat) : ℚ) =
          x / 2 ^ u := by
        rw [two_zpow_split u]
        conv_rhs => rw [hxe]
        push_cast
        field_simp
      rw [hdiv] at herr
      exact herr
  have hfx : ∀ e : ℤ, e = (if p * 2 ^ (-((a : ℤ) - (b : ℤ))).toNat <
        q * 2 ^ ((a : ℤ) - (b : ℤ)).toNat then (a : ℤ) - (b : ℤ) - 1 else (a : ℤ) - (b : ℤ)) →
      f64 x = (if x < 0 then
          -(((roundDivHalfEven (p * 2 ^ (-(max (e - 52) (-1074))).toNat)
              (q * 2 ^ (max (e - 52) (-1074)).toNat) *
            2 ^ (max (e - 52) (-1074)).toNat : Nat) : ℚ) /
            ((2 ^ (-(max (e - 52) (-1074))).toNat : Nat) : ℚ))
        else
          ((roundDivHalfEven (p * 2 ^ (-(max (e - 52) (-1074))).toNat)
              (q * 2 ^ (max (e - 52) (-1074)).toNat) *
            2 ^ (max (e - 52) (-1074)).toNat : Nat) : ℚ) /
            ((2 ^ (-(max (e - 52) (-1074))).toNat : Nat) : ℚ)) := by
    intro e he
    unfold f64
    simp only []
    rw [if_neg (ne_of_gt hp), he]
  by_cases hc : p * 2 ^ (-((a : ℤ) - (b : ℤ))).toNat < q * 2 ^ ((a : ℤ) - (b : ℤ)).toNat
  · have hlt := (hcond _).mp hc
    refine ⟨(a : ℤ) - (b : ℤ) - 1, _, le_of_lt hlow, ?_, ?_, (hval _).2⟩
    · rw [sub_add_cancel]
      exact hlt
    · rw [hfx _ (by rw [if_pos hc])]
      exact (hval _).1
  · have hge : (2 : ℚ) ^ ((a : ℤ) - (b : ℤ)) ≤ x := not_lt.mp (fun h => hc ((hcond _).mpr h))
    refine ⟨(a : ℤ) - (b : ℤ), _, hge, hhigh, ?_, (hval _).2⟩
    rw [hfx _ (by rw [if_neg hc])]
    exact (hval _).1

theorem f64_zero : f64 0 = 0 := by decide!

/-- Rounding to binary64 keeps a non-negative value non-negative. -/
theorem f64_nonneg {x : ℚ} (hx : 0 ≤ x) : 0 ≤ f64 x := by
  rcases eq_or_lt_of_le hx with h0 | hpos
  · rw [← h0, f64_zero]
  · obtain ⟨e, n, _, _, hf, _⟩ := f64_spec x hpos
    rw [hf]
    exact mul_nonneg (Nat.cast_nonneg _) (le_of_lt (zpow_pos (by norm_num) _))

/-- Below 2^53 the rounded value is a multiple `n / 2^k` of a unit `1 / 2^k`,
with `n` within one half of `x · 2^k`. -/
theorem f64_grid (x : ℚ) (hx : 0 < x) (h53 : x < 2 ^ 53) :
    ∃ k n : Nat, f64 x = (n : ℚ) / 2 ^ k ∧ |(n : ℚ) - x * 2 ^ k| ≤ 1 / 2 := by
  obtain ⟨e, n, he1, _, hf, herr⟩ := f64_spec x hx
  have he : e < 53 := by
    by_contra hcon
    have h1 : (2 : ℚ) ^ (53 : ℤ) ≤ 2 ^ e := zpow_le_zpow_right₀ (by norm_num) (not_lt.mp hcon)
    have h2 : (2 : ℚ) ^ (53 : ℤ) = 2 ^ 53 := by norm_num
    rw [h2] at h1
    linarith
  have hu : max (e - 52) (-1074) ≤ 0 := max_le (by omega) (by norm_num)
  obtain ⟨k, hk⟩ := Int.exists_eq_neg_ofNat hu
  rw [hk] at hf herr
  rw [zpow_neg, zpow_natCast] at hf herr
  refine ⟨k, n, ?_, ?_⟩
  · rw [hf]
    rfl
  · rw [div_inv_eq_mul] at herr
    exact herr

/-- A natural number below 2^53 that bounds a value from above bounds its
rounded value. -/
theorem f64_le_nat (x : ℚ) (M : Nat) (hM : (M : ℚ) < 2 ^ 53) (h : x ≤ M) : f64 x ≤ M := by
  rcases le_or_lt x 0 with h0 | hpos
  · exact le_trans (f64_nonpos h0) (Nat.cast_nonneg _)
  · obtain ⟨k, n, hf, herr⟩ := f64_grid x hpos (lt_of_le_of_lt h hM)
    have hk : (0 : ℚ) < 2 ^ k := by positivity
    rw [hf, div_le_iff₀ hk]
    rw [abs_le] at herr
    have h1 : (n : ℚ) < ((M * 2 ^ k : Nat) : ℚ) + 1 := by
      push_cast
      have : x * 2 ^ k ≤ (M : ℚ) * 2 ^ k := mul_le_mul_of_nonneg_right h (le_of_lt hk)
      linarith [herr.2]
    have h2 : n < M * 2 ^ k + 1 := by exact_mod_cast h1
    have h3 : ((n : Nat) : ℚ) ≤ ((M * 2 ^ k : Nat) : ℚ) := by
      exact_mod_cast Nat.lt_succ_iff.mp h2
    push_cast at h3
    exact h3

/-- A natural number that bounds a value below 2^53 from below bounds its
rounded value. -/
theorem f64_ge_nat (x : ℚ) (M : Nat) (h : (M : ℚ) ≤ x) (h53 : x < 2 ^ 53) : (M : ℚ) ≤ f64 x := by
  rcases le_or_lt x 0 with h0 | hpos
  · have hM : (M : ℚ) = 0 := le_antisymm (le_trans h h0) (Nat.cast_nonneg _)
    rw [hM]
    exact f64_nonneg (le_trans (by rw [← hM]) h)
  · obtain ⟨k, n, hf, herr⟩ := f64_grid x hpos h53
    have hk : (0 : ℚ) < 2 ^ k := by positivity
    rw [hf, le_div_iff₀ hk]
    rw [abs_le] at herr
    have h1 : ((M * 2 ^ k : Nat) : ℚ) < (n : ℚ) + 1 := by
      push_cast
      have : (M : ℚ) * 2 ^ k ≤ x * 2 ^ k := mul_le_mul_of_nonneg_right h (le_of_lt hk)
      linarith [herr.1]
    have h2 : M * 2 ^ k < n + 1 := by exact_mod_cast h1
    have h3 : ((M * 2 ^ k : Nat) : ℚ) ≤ ((n : Nat) : ℚ) := by
      exact_mod_cast Nat.lt_succ_iff.mp h2
    push_cast at h3
    exact h3

/-- Natural numbers below 2^53 are binary64 values. -/
theorem f64_natCast (M : Nat) (hM : (M : ℚ) < 2 ^ 53) : f64 (M : ℚ) = M :=
  le_antisymm (f64_le_nat _ M hM (le_refl _)) (f64_ge_nat _ M (le_refl _) hM)

/-- The conversion of an `int` between 0 and 2^53 to `float64` is exact. -/
theorem intToFloat_of_small (v : Int) (h0 : 0 ≤ v) (h1 : v < 2 ^ 53) :
    intToFloat v = (v : ℚ) := by
  obtain ⟨m, rfl⟩ := Int.eq_ofNat_of_zero_le h0
  unfold intToFloat
  have hm : ((m : Nat) : ℚ) < 2 ^ 53 := by exact_mod_cast h1
  have hc : (((m : Nat) : ℤ) : ℚ) = ((m : Nat) : ℚ) := by push_cast; rfl
  rw [hc]
  exact f64_natCast m hm

/-- The rounding error of a value below `2^K` is at most `2^K / 2^54`. -/
theorem f64_error (x : ℚ) (K : Nat) (hx : 0 < x) (hK : x < 2 ^ K) :
    |f64 x - x| ≤ 2 ^ K / 2 ^ 54 := by
  obtain ⟨e, n, he1, _, hf, herr⟩ := f64_spec x hx
  have he : e < (K : ℤ) := by
    by_contra hcon
    have h1 : (2 : ℚ) ^ (K : ℤ) ≤ 2 ^ e := zpow_le_zpow_right₀ (by norm_num) (not_lt.mp hcon)
    rw [zpow_natCast] at h1
    linarith
  have hu : max (e - 52) (-1074) ≤ (K : ℤ) - 53 := max_le (by omega) (by omega)
  have hpu : (0 : ℚ) < 2 ^ (max (e - 52) (-1074)) := zpow_pos (by norm_num) _
  have hle : (2 : ℚ) ^ (max (e - 52) (-1074)) ≤ 2 ^ K / 2 ^ 53 := by
    have h1 : (2 : ℚ) ^ (max (e - 52) (-1074)) ≤ 2 ^ ((K : ℤ) - 53) :=
      zpow_le_zpow_right₀ (by norm_num) hu
    have h2 : (2 : ℚ) ^ ((K : ℤ) - 53) = 2 ^ K / 2 ^ 53 := by
      rw [zpow_sub₀ (by norm_num), zpow_natCast]
      norm_num
    rw [h2] at h1
    exact h1
  have hx2 : f64 x - x =
      ((n : ℚ) - x / 2 ^ (max (e - 52) (-1074))) * 2 ^ (max (e - 52) (-1074)) := by
    rw [hf]
    field_simp
  rw [hx2, abs_mul, abs_of_pos hpu]
  calc |(n : ℚ) - x / 2 ^ (max (e - 52) (-1074))| * 2 ^ (max (e - 52) (-1074))
      ≤ 1 / 2 * 2 ^ (max (e - 52) (-1074)) := mul_le_mul_of_nonneg_right herr (le_of_lt hpu)
    _ ≤ 1 / 2 * (2 ^ K / 2 ^ 53) := mul_le_mul_of_nonneg_left hle (by norm_num)
    _ = 2 ^ K / 2 ^ 54 := by ring

/-- `math.Round` of a non-negative value between `R - 1/2` and `R + 1/2`. -/
theorem mathRound_eq_of_near (y : ℚ) (R : Nat) (hy : 0 ≤ y) (h1 : (R : ℚ) ≤ y + 1 / 2)
    (h2 : y + 1 / 2 < (R : ℚ) + 1) : mathRound y = (R : ℚ) := by
  have hye := pos_eq_natAbs_div_den y hy
  have hq : (0 : ℚ) < (y.den : ℚ) := by exact_mod_cast y.den_pos
  unfold mathRound
  simp only []
  rw [if_neg (not_lt.mpr hy)]
  congr 1
  apply Nat.div_eq_of_lt_le
  · have : ((R * (2 * y.den) : Nat) : ℚ) ≤ ((2 * y.num.natAbs + y.den : Nat) : ℚ) := by
      push_cast
      rw [hye] at h1
      have h3 := (le_div_iff₀ hq).mp (show (R : ℚ) - 1 / 2 ≤ (y.num.natAbs : ℚ) / (y.den : ℚ) by
        linarith)
      linarith
    exact_mod_cast this
  · have : ((2 * y.num.natAbs + y.den : Nat) : ℚ) < (((R + 1) * (2 * y.den) : Nat) : ℚ) := by
      push_cast
      rw [hye] at h2
      have h3 := (div_lt_iff₀ hq).mp (show (y.num.natAbs : ℚ) / (y.den : ℚ) < (R : ℚ) + 1 / 2 by
        linarith)
      linarith
    exact_mod_cast this

/-- The conversion to `int` of a natural number below 2^63. -/
theorem floatToInt_natCast (R : Nat) (hR : (R : ℤ) < 2 ^ 63) : floatToInt (R : ℚ) = (R : ℤ) := by
  unfold floatToInt
  simp only [Rat.num_natCast, Rat.den_natCast, Nat.cast_one, Int.tdiv_one]
  rw [if_pos ⟨by omega, hR⟩]

/-! ## Fade of the highlight layer -/

/-- A value below `2^K` is rounded to at most `2^K + 2^K / 2^54`. -/
theorem f64_le_of_lt_pow (x : ℚ) (K : Nat) (hK : x < 2 ^ K) :
    f64 x ≤ 2 ^ K + 2 ^ K / 2 ^ 54 := by
  have hpos : (0 : ℚ) < 2 ^ K + 2 ^ K / 2 ^ 54 := by positivity
  rcases le_or_lt x 0 with h0 | h0
  · exact le_trans (f64_nonpos h0) (le_of_lt hpos)
  · have herr := f64_error x K h0 hK
    rw [abs_le] at herr
    linarith [herr.2]

/-- For a window below 2^1023 the subtraction of the two times, the duration
and the fade duration are finite binary64 values. -/
theorem fadeDuration_finite (c : SubtitleConfig) (hwin : c.EndTime - c.StartTime < 2 ^ 1023) :
    f64 (c.EndTime - c.StartTime) ≤ MaxFloat64 ∧
    0 < duration c ∧ duration c ≤ MaxFloat64 ∧
    0 ≤ fadeDuration c ∧ fadeDuration c ≤ MaxFloat64 := by
  have h1 := f64_le_of_lt_pow _ 1023 hwin
  have hmax : (2 : ℚ) ^ 1023 + 2 ^ 1023 / 2 ^ 54 + 2 ^ 1024 / 2 ^ 54 ≤ MaxFloat64 := by
    unfold MaxFloat64
    norm_num
  have hp : (0 : ℚ) < 2 ^ 1024 / 2 ^ 54 := by positivity
  have htenth : (0 : ℚ) < f64 (1 / 10) ∧ f64 (1 / 10) ≤ 2 ^ 1023 + 2 ^ 1023 / 2 ^ 54 := by
    constructor
    · decide!
    · decide!
  have hd : 0 < duration c ∧ duration c ≤ 2 ^ 1023 + 2 ^ 1023 / 2 ^ 54 := by
    unfold duration
    simp only []
    split_ifs with h
    · exact htenth
    · exact ⟨not_le.mp h, h1⟩
  have hk : (0 : ℚ) < f64 (17 / 20) ∧ f64 (17 / 20) ≤ 1 := by
    constructor
    · decide!
    · decide!
  have hy0 : 0 ≤ duration c * f64 (17 / 20) := mul_nonneg (le_of_lt hd.1) (le_of_lt hk.1)
  have hy1 : duration c * f64 (17 / 20) ≤ duration c := by
    have := mul_le_mul_of_nonneg_left hk.2 (le_of_lt hd.1)
    linarith
  have hy2 : duration c * f64 (17 / 20) < 2 ^ 1024 := by
    have h2 : (2 : ℚ) ^ 1023 + 2 ^ 1023 / 2 ^ 54 < 2 ^ 1024 := by norm_num
    linarith [hd.2]
  have h3 := f64_le_of_lt_pow _ 1024 hy2
  have hf : fadeDuration c ≤ MaxFloat64 := by
    unfold fadeDuration
    have h4 : f64 (duration c * f64 (17 / 20)) ≤ 2 ^ 1024 + 2 ^ 1024 / 2 ^ 54 := h3
    have herr : f64 (duration c * f64 (17 / 20)) ≤
        duration c * f64 (17 / 20) + 2 ^ 1024 / 2 ^ 54 := by
      rcases eq_or_lt_of_le hy0 with h0 | h0
      · rw [← h0, f64_zero]
        linarith
      · have he := f64_error _ 1024 h0 hy2
        rw [abs_le] at he
        linarith [he.2]
    linarith [hd.2]
  exact ⟨by linarith, hd.1, by linarith [hd.2], f64_nonneg hy0, hf⟩

/-- C9 (counterexample): for the cue shown from 0 s to 0.25 s with a red
active colour, 85% of the duration is 0.2125 s, but the highlight layer
prints the fade duration as 0.21: its opacity expression is
`min(1,max(0,(t-0.00)/0.21))`, which is already 1 at t = 0.21, where the
claimed expression is still below 1. -/
theorem fade_duration_not_exact :
    quarterCue.StartTime < quarterCue.EndTime ∧
    buildFilters asciiLib [quarterCue] =
      [shadowFilter asciiLib quarterCue, baseFilter asciiLib quarterCue,
        activeFilter asciiLib quarterCue] ∧
    activeFilter asciiLib quarterCue =
      "drawtext=text=\x27Hi\x27:fontfile=/usr/share/fonts/dejavu/DejaVuSans.ttf:fontsize=53" ++
      ":fontcolor=0xFF0000:box=0:x=(w-text_w)/2:y=(1813.33)-text_h/2" ++
      ":enable=\x27between(t,0.00,0.25)\x27:alpha=\x27min(1\\,max(0\\,(t-0.00)/0.21))\x27" ∧
    valF2 (fadeDuration quarterCue) = 21 / 100 ∧
    alphaAt quarterCue (21 / 100) = 1 ∧
    min 1 (max 0 ((21 / 100 - quarterCue.StartTime) /
      (17 / 20 * (quarterCue.EndTime - quarterCue.StartTime)))) < 1 := by
  decide!

/-- C9 (amended): for a cue whose window `end - start` is below 2^1023
seconds, so that the float64 subtraction of the two times does not overflow
(the difference, the duration and the fade duration are at most
`MaxFloat64`), the opacity expression of the highlight layer is
`min(1,max(0,(t-S)/F))`, where `S` is the start time and `F` the fade
duration, the float64 product of the duration by 0.85, both printed with two
decimals and hence within half a hundredth of those values. When `F` prints
as a positive number, the expression is 0 up to `S`, rises linearly from `S`
to `S + F` and is 1 from `S + F` on. -/
theorem highlight_alpha_ramp (lib : GoLib) (c : SubtitleConfig)
    (hwin : c.EndTime - c.StartTime < 2 ^ 1023)
    (hF : 0 < valF2 (fadeDuration c)) :
    activeFilter lib c =
      ("drawtext=text=\x27" ++ escapedText c ++ "\x27:fontfile=" ++ fontPath lib c ++
        ":fontsize=" ++ fmtD (scaledFontSize c) ++ ":fontcolor=" ++ activeColor lib c ++
        ":box=0:x=" ++ xExpr ++ ":y=" ++ yExpr lib c ++ ":" ++ enableExpr c) ++
      ":alpha=\x27min(1\\,max(0\\,(t-" ++ fmtF2 c.StartTime ++ ")/" ++
        fmtF2 (fadeDuration c) ++ "))\x27" ∧
    fadeDuration c = f64 (duration c * f64 (17 / 20)) ∧
    duration c =
      (if f64 (c.EndTime - c.StartTime) ≤ 0 then f64 (1 / 10)
        else f64 (c.EndTime - c.StartTime)) ∧
    f64 (c.EndTime - c.StartTime) ≤ MaxFloat64 ∧
    0 < duration c ∧ duration c ≤ MaxFloat64 ∧
    0 ≤ fadeDuration c ∧ fadeDuration c ≤ MaxFloat64 ∧
    |valF2 c.StartTime - c.StartTime| ≤ 1 / 200 ∧
    |valF2 (fadeDuration c) - fadeDuration c| ≤ 1 / 200 ∧
    (∀ t : ℚ, t ≤ valF2 c.StartTime → alphaAt c t = 0) ∧
    (∀ t : ℚ, valF2 c.StartTime ≤ t → t ≤ valF2 c.StartTime + valF2 (fadeDuration c) →
      alphaAt c t = (t - valF2 c.StartTime) / valF2 (fadeDuration c)) ∧
    (∀ t : ℚ, valF2 c.StartTime + valF2 (fadeDuration c) ≤ t → alphaAt c t = 1) := by
  obtain ⟨hfin1, hfin2, hfin3, hfin4, hfin5⟩ := fadeDuration_finite c hwin
  refine ⟨?_, rfl, rfl, hfin1, hfin2, hfin3, hfin4, hfin5, valF2_error _, valF2_error _,
    ?_, ?_, ?_⟩
  · simp only [activeFilter, String.append_assoc]
  · intro t ht
    unfold alphaAt
    have h1 : (t - valF2 c.StartTime) / valF2 (fadeDuration c) ≤ 0 :=
      div_nonpos_of_nonpos_of_nonneg (sub_nonpos.mpr ht) (le_of_lt hF)
    rw [max_eq_left h1]
    exact min_eq_right zero_le_one
  · intro t h1 h2
    unfold alphaAt
    have h3 : 0 ≤ (t - valF2 c.StartTime) / valF2 (fadeDuration c) :=
      div_nonneg (sub_nonneg.mpr h1) (le_of_lt hF)
    have h4 : (t - valF2 c.StartTime) / valF2 (fadeDuration c) ≤ 1 := by
      rw [div_le_one hF]
      linarith
    rw [max_eq_right h3]
    exact min_eq_right h4
  · intro t h1
    unfold alphaAt
    have h4 : 1 ≤ (t - valF2 c.StartTime) / valF2 (fadeDuration c) := by
      rw [one_le_div hF]
      linarith
    rw [max_eq_right (le_trans zero_le_one h4)]
    exact min_eq_left h4

/-- C9 (witness): the quarter-second cue: its window is within the bound, its
fade duration is finite, and the opacity is 1 from the end of the printed
fade on. -/
theorem highlight_alpha_ramp_witness :
    quarterCue.EndTime - quarterCue.StartTime < 2 ^ 1023 ∧
    0 < valF2 (fadeDuration quarterCue) ∧
    fadeDuration quarterCue ≤ MaxFloat64 ∧
    (∀ t : ℚ, valF2 quarterCue.StartTime + valF2 (fadeDuration quarterCue) ≤ t →
      alphaAt quarterCue t = 1) :=
  ⟨by decide!, by decide!,
    (highlight_alpha_ramp asciiLib quarterCue (by decide!) (by decide!)).2.2.2.2.2.2.2.1,
    (highlight_alpha_ramp asciiLib quarterCue (by decide!) (by decide!)).2.2.2.2.2.2.2.2.2.2.2.2⟩

/-! ## Sizes, shadow and colours: theorems -/

theorem scaleFactor_val : scaleFactor = 6004799503160661 / 2251799813685248 := by decide!

/-- The scaled size of a size between 1 and 2^31 - 1: the float64 product,
rounded, is the nearest integer to `8 s / 3`. -/
theorem scaled_of_small (m : Nat) (h0 : 0 < m) (h1 : m < 2 ^ 31) :
    floatToInt (mathRound (f64 (intToFloat (m : ℤ) * scaleFactor))) = ((16 * m + 3) / 6 : Nat) := by
  have hmQ0 : (0 : ℚ) < (m : ℚ) := by exact_mod_cast h0
  have hmQ1 : (m : ℚ) < 2 ^ 31 := by exact_mod_cast h1
  rw [intToFloat_of_small (m : ℤ) (by omega)
    (by have : (m : ℤ) < 2 ^ 31 := by exact_mod_cast h1
        omega), scaleFactor_val]
  have hcast : (((m : ℕ) : ℤ) : ℚ) = (m : ℚ) := by push_cast; rfl
  rw [hcast]
  have hx0 : (0 : ℚ) < (m : ℚ) * (6004799503160661 / 2251799813685248) := by positivity
  have hx1 : (m : ℚ) * (6004799503160661 / 2251799813685248) < 2 ^ 33 := by
    calc (m : ℚ) * (6004799503160661 / 2251799813685248)
        ≤ (m : ℚ) * 4 := mul_le_mul_of_nonneg_left (by norm_num) (le_of_lt hmQ0)
      _ < 2 ^ 31 * 4 := mul_lt_mul_of_pos_right hmQ1 (by norm_num)
      _ = 2 ^ 33 := by norm_num
  have herr := f64_error _ 33 hx0 hx1
  rw [abs_le] at herr
  have hy0 := f64_nonneg (le_of_lt hx0)
  -- the nearest integer
  have hdm : 6 * ((16 * m + 3) / 6) + (16 * m + 3) % 6 = 16 * m + 3 := Nat.div_add_mod _ _
  have hr1 : 1 ≤ (16 * m + 3) % 6 := by omega
  have hr2 : (16 * m + 3) % 6 ≤ 5 := by omega
  have hdmQ : (6 : ℚ) * (((16 * m + 3) / 6 : Nat) : ℚ) + (((16 * m + 3) % 6 : Nat) : ℚ) =
      16 * (m : ℚ) + 3 := by exact_mod_cast hdm
  have hr1Q : (1 : ℚ) ≤ (((16 * m + 3) % 6 : Nat) : ℚ) := by exact_mod_cast hr1
  have hr2Q : (((16 * m + 3) % 6 : Nat) : ℚ) ≤ 5 := by exact_mod_cast hr2
  have hround := mathRound_eq_of_near
    (f64 ((m : ℚ) * (6004799503160661 / 2251799813685248))) ((16 * m + 3) / 6) hy0
    (by norm_num at herr hmQ1 ⊢
        linarith [herr.1])
    (by norm_num at herr hmQ1 ⊢
        linarith [herr.2])
  rw [hround]
  apply floatToInt_natCast
  have : (16 * m + 3) / 6 < 2 ^ 63 := by omega
  exact_mod_cast this

theorem shadowFilter_carriesFontSize (lib : GoLib) (c : SubtitleConfig) :
    carriesFontSize (shadowFilter lib c) (scaledFontSize c) :=
  ⟨"drawtext=text=\x27" ++ escapedText c ++ "\x27:fontfile=" ++ fontPath lib c,
    "0x000000@0:box=1:boxcolor=" ++
      shadowColor c ++ ":boxborderw=" ++ fmtD (shadowBorder c) ++ ":x=" ++ xExpr ++
      ":y=" ++ yExpr lib c ++ "+" ++ fmtD shadowYOffset ++ ":" ++ enableExpr c, by
    have hx : ":fontcolor=0x000000@0:box=1:boxcolor=" =
        ":fontcolor=" ++ "0x000000@0:box=1:boxcolor=" := by decide
    simp only [shadowFilter, hx, String.append_assoc]⟩

theorem baseFilter_carriesFontSize (lib : GoLib) (c : SubtitleConfig) :
    carriesFontSize (baseFilter lib c) (scaledFontSize c) :=
  ⟨"drawtext=text=\x27" ++ escapedText c ++ "\x27:fontfile=" ++ fontPath lib c,
    textColor lib c ++
      ":box=1:boxcolor=" ++ bgColorHex lib c ++ ":boxborderw=" ++ fmtD (boxBorder c) ++
      ":x=" ++ xExpr ++ ":y=" ++ yExpr lib c ++ ":" ++ enableExpr c ++
      ":shadowx=" ++ fmtD 0 ++ ":shadowy=" ++ fmtD textShadowY ++ ":shadowcolor=" ++ "black@0.5", by
    simp only [baseFilter, String.append_assoc]⟩

theorem activeFilter_carriesFontSize (lib : GoLib) (c : SubtitleConfig) :
    carriesFontSize (activeFilter lib c) (scaledFontSize c) :=
  ⟨"drawtext=text=\x27" ++ escapedText c ++ "\x27:fontfile=" ++ fontPath lib c,
    activeColor lib c ++
      ":box=0:x=" ++ xExpr ++ ":y=" ++ yExpr lib c ++ ":" ++ enableExpr c ++
      ":alpha=\x27min(1\\,max(0\\,(t-" ++ fmtF2 c.StartTime ++ ")/" ++
      fmtF2 (fadeDuration c) ++ "))\x27", by
    simp only [activeFilter, String.append_assoc]⟩

theorem specRound_scaled (m : Nat) :
    specRound ((m : ℚ) * (1920 / 720)) = ((16 * m + 3) / 6 : Nat) := by
  unfold specRound
  rw [Int.floor_eq_iff]
  have hdm : 6 * ((16 * m + 3) / 6) + (16 * m + 3) % 6 = 16 * m + 3 := Nat.div_add_mod _ _
  have hr2 : (16 * m + 3) % 6 ≤ 5 := by omega
  have hdmQ : (6 : ℚ) * (((16 * m + 3) / 6 : Nat) : ℚ) + (((16 * m + 3) % 6 : Nat) : ℚ) =
      16 * (m : ℚ) + 3 := by exact_mod_cast hdm
  have hr0Q : (0 : ℚ) ≤ (((16 * m + 3) % 6 : Nat) : ℚ) := Nat.cast_nonneg _
  have hr2Q : (((16 * m + 3) % 6 : Nat) : ℚ) ≤ 5 := by exact_mod_cast hr2
  rw [Int.cast_natCast]
  constructor <;> linarith

/-- C25 (counterexample): for the scenario cue with font size 4·10^18 the
product with the canvas factor is beyond the range of `int`; the size emitted
is 36, while `max(36, round(s × 1920/720))` is 10666666666666666667. -/
theorem huge_font_size_not_scaled :
    isBlank hugeFontCue = false ∧
    hugeFontCue.FontSize = 4000000000000000000 ∧
    (2 : ℚ) ^ 63 ≤ mathRound (f64 (intToFloat hugeFontCue.FontSize * scaleFactor)) ∧
    scaledFontSize hugeFontCue = 36 ∧
    specFontSize hugeFontCue.FontSize = 10666666666666666667 ∧
    baseFilter asciiLib hugeFontCue =
      "drawtext=text=\x27Hi\x27:fontfile=/usr/share/fonts/dejavu/DejaVuSans.ttf:fontsize=36" ++
      ":fontcolor=0xFFFFFF:box=1:boxcolor=0x000000CC:boxborderw=32:x=(w-text_w)/2" ++
      ":y=(1813.33)-text_h/2:enable=\x27between(t,0.00,2.00)\x27:shadowx=0:shadowy=3" ++
      ":shadowcolor=black@0.5" := by
  decide!

/-- C25 (amended): for every cue whose font size is below 2^31, the font size
emitted is `max(36, round(s × 1920/720))`, where `s` is the font size of the
cue when it is positive and 20 otherwise. For every cue whatsoever the size
emitted is at least 36, an unset or non-positive size yields 53, and every
layer of the cue (shadow, base, highlight) carries the same size. -/
theorem font_size_scaled (lib : GoLib) (sub : SubtitleConfig) (hsize : sub.FontSize < 2 ^ 31) :
    scaledFontSize sub = specFontSize sub.FontSize ∧
    (∀ c : SubtitleConfig, 36 ≤ scaledFontSize c) ∧
    (∀ c : SubtitleConfig, c.FontSize ≤ 0 → scaledFontSize c = 53) ∧
    (∀ (c : SubtitleConfig) (layer : String), layer ∈ cueFilters lib c →
      carriesFontSize layer (scaledFontSize c)) := by
  refine ⟨?_, ?_, ?_, ?_⟩
  · have key : ∀ m : Nat, 0 < m → m < 2 ^ 31 →
        (if floatToInt (mathRound (f64 (intToFloat (m : ℤ) * scaleFactor))) < 36 then 36
          else floatToInt (mathRound (f64 (intToFloat (m : ℤ) * scaleFactor)))) =
        max 36 (specRound ((((m : Nat) : ℤ) : ℚ) * (1920 / 720))) := by
      intro m h0 h1
      have hc : (((m : Nat) : ℤ) : ℚ) = (m : ℚ) := by push_cast; rfl
      rw [scaled_of_small m h0 h1, hc, specRound_scaled]
      split_ifs with h
      · rw [max_eq_left (le_of_lt h)]
      · rw [max_eq_right (not_lt.mp h)]
    unfold scaledFontSize specFontSize
    simp only []
    by_cases hpos : sub.FontSize ≤ 0
    · rw [if_pos hpos]
      exact key 20 (by norm_num) (by norm_num)
    · rw [if_neg hpos]
      obtain ⟨m, hm⟩ := Int.eq_ofNat_of_zero_le (le_of_lt (not_le.mp hpos))
      rw [hm] at hpos hsize ⊢
      exact key m (by omega) (by exact_mod_cast hsize)
  · intro c
    unfold scaledFontSize
    simp only []
    generalize floatToInt (mathRound (f64 (intToFloat
      (if c.FontSize ≤ 0 then 20 else c.FontSize) * scaleFactor))) = v
    split_ifs with h
    · exact le_refl _
    · exact not_lt.mp h
  · intro c hc
    unfold scaledFontSize
    simp only [hc, if_true]
    decide!
  · intro c layer hl
    rcases (mem_cueFilters lib c layer hl).2 with h1 | h1 | h1
    · rw [h1]
      exact shadowFilter_carriesFontSize lib c
    · rw [h1]
      exact baseFilter_carriesFontSize lib c
    · rw [h1]
      exact activeFilter_carriesFontSize lib c

/-- C25 (witness): the scenario cue with font size 24 and a highlight; the
size 64 is in its three layers. -/
theorem font_size_scaled_witness :
    font24Cue.FontSize < 2 ^ 31 ∧
    scaledFontSize font24Cue = specFontSize font24Cue.FontSize ∧
    scaledFontSize font24Cue = 64 ∧
    cueFilters asciiLib font24Cue =
      [shadowFilter asciiLib font24Cue, baseFilter asciiLib font24Cue,
        activeFilter asciiLib font24Cue] :=
  ⟨by decide, (font_size_scaled asciiLib font24Cue (by decide)).1, by decide!, by decide!⟩

theorem mathRound_eq_floor (y : ℚ) (hy : 0 ≤ y) :
    mathRound y = ((⌊y + 1 / 2⌋₊ : Nat) : ℚ) :=
  mathRound_eq_of_near y _ hy (Nat.floor_le (by linarith)) (Nat.lt_floor_add_one _)

theorem floatToInt_neg_natCast (n : Nat) : floatToInt (-(n : ℚ)) ≤ 0 := by
  unfold floatToInt
  have hnum : (-(n : ℚ)).num = -(n : ℤ) := by simp
  have hden : (-(n : ℚ)).den = 1 := by simp
  simp only [hnum, hden, Nat.cast_one, Int.tdiv_one]
  split_ifs
  · omega
  · norm_num

/-- An upper bound of a value bounds its rounding to an `int`. -/
theorem floatToInt_mathRound_le (y : ℚ) (M : Nat) (hM : (M : ℤ) < 2 ^ 63) (h : y ≤ M) :
    floatToInt (mathRound y) ≤ M := by
  rcases lt_or_le y 0 with hneg | hnn
  · have hm : mathRound y = -((((2 * y.num.natAbs + y.den) / (2 * y.den) : Nat)) : ℚ) := by
      unfold mathRound
      simp only []
      rw [if_pos hneg]
    rw [hm]
    exact le_trans (floatToInt_neg_natCast _) (Int.natCast_nonneg _)
  · rw [mathRound_eq_floor y hnn]
    have hfl : ⌊y + 1 / 2⌋₊ ≤ M := by
      have h1 : ⌊y + 1 / 2⌋₊ < M + 1 := by
        rw [Nat.floor_lt (by linarith)]
        push_cast
        linarith
      omega
    rw [floatToInt_natCast _ (by omega)]
    exact_mod_cast hfl

/-- A lower bound of a value bounds its rounding to an `int`. -/
theorem floatToInt_mathRound_ge (y : ℚ) (M K : Nat) (hK : (K : ℤ) < 2 ^ 63) (h : (M : ℚ) ≤ y)
    (h2 : y ≤ K) : (M : ℤ) ≤ floatToInt (mathRound y) := by
  have hnn : 0 ≤ y := le_trans (Nat.cast_nonneg _) h
  rw [mathRound_eq_floor y hnn]
  have hfl : ⌊y + 1 / 2⌋₊ ≤ K := by
    have h1 : ⌊y + 1 / 2⌋₊ < K + 1 := by
      rw [Nat.floor_lt (by linarith)]
      push_cast
      linarith
    omega
  have hfl2 : M ≤ ⌊y + 1 / 2⌋₊ := Nat.le_floor (by linarith)
  rw [floatToInt_natCast _ (by omega)]
  exact_mod_cast hfl2

theorem mul_le_of_bounds (v c M C : ℚ) (hv : v ≤ M) (hM : 0 ≤ M) (hc0 : 0 ≤ c) (hc : c ≤ C) :
    v * c ≤ M * C := by
  rcases le_or_lt v 0 with h0 | hpos
  · exact le_trans (mul_nonpos_of_nonpos_of_nonneg h0 hc0) (mul_nonneg hM (le_trans hc0 hc))
  · exact mul_le_mul hv hc hc0 hM

/-- The base box border of a cue with border radius below 2^31. -/
theorem boxBorder_bounds (sub : SubtitleConfig) (hr : sub.BorderRadius < 2 ^ 31) :
    32 ≤ boxBorder sub ∧ boxBorder sub < 2 ^ 40 := by
  have hb0 : floatToInt (mathRound (f64 (paddingPx * scaleFactor))) = 32 := by decide!
  have hc3 : f64 (3 / 10) = 5404319552844595 / 18014398509481984 := by decide!
  have hrQ : ((sub.BorderRadius : ℤ) : ℚ) ≤ ((2 ^ 31 : Nat) : ℚ) := by
    have : sub.BorderRadius ≤ ((2 ^ 31 : Nat) : ℤ) := by
      push_cast
      omega
    exact_mod_cast this
  have hv : intToFloat sub.BorderRadius ≤ ((2 ^ 31 : Nat) : ℚ) :=
    f64_le_nat _ _ (by norm_num) hrQ
  have hradj : f64 (intToFloat sub.BorderRadius * f64 (3 / 10)) ≤ ((2 ^ 31 : Nat) : ℚ) := by
    apply f64_le_nat _ _ (by norm_num)
    rw [hc3]
    have := mul_le_of_bounds (intToFloat sub.BorderRadius)
      (5404319552844595 / 18014398509481984) ((2 ^ 31 : Nat) : ℚ) 1 hv (by positivity)
      (by norm_num) (by norm_num)
    linarith
  have ht : f64 (paddingPx + f64 (intToFloat sub.BorderRadius * f64 (3 / 10))) ≤
      ((2 ^ 31 + 12 : Nat) : ℚ) := by
    apply f64_le_nat _ _ (by norm_num)
    unfold paddingPx
    push_cast at hradj ⊢
    linarith
  have hprod : f64 (f64 (paddingPx + f64 (intToFloat sub.BorderRadius * f64 (3 / 10))) *
      scaleFactor) ≤ (((2 ^ 31 + 12) * 4 : Nat) : ℚ) := by
    apply f64_le_nat _ _ (by norm_num)
    rw [scaleFactor_val]
    have := mul_le_of_bounds
      (f64 (paddingPx + f64 (intToFloat sub.BorderRadius * f64 (3 / 10))))
      (6004799503160661 / 2251799813685248) ((2 ^ 31 + 12 : Nat) : ℚ) 4 ht (by positivity)
      (by norm_num) (by norm_num)
    push_cast at this ⊢
    linarith
  have hbb := floatToInt_mathRound_le _ ((2 ^ 31 + 12) * 4) (by norm_num) hprod
  unfold boxBorder
  simp only []
  rw [hb0]
  generalize floatToInt (mathRound (f64 (f64 (paddingPx +
    f64 (intToFloat sub.BorderRadius * f64 (3 / 10))) * scaleFactor))) = bb at hbb ⊢
  push_cast at hbb
  split_ifs with h
  · constructor <;> norm_num
  · constructor
    · exact not_lt.mp h
    · omega

/-- The shadow spread of a strength between 1 and 2^31 - 1: the float64
computation, rounded, is the nearest integer to `4 b / 9`. -/
theorem spread_of_small (m : Nat) (h0 : 0 < m) (h1 : m < 2 ^ 31) :
    floatToInt (mathRound (f64 (f64 (intToFloat (m : ℤ) * scaleFactor) / 6))) =
      ((8 * m + 9) / 18 : Nat) := by
  have hmQ0 : (1 : ℚ) ≤ (m : ℚ) := by exact_mod_cast h0
  have hmQ1 : (m : ℚ) < 2 ^ 31 := by exact_mod_cast h1
  rw [intToFloat_of_small (m : ℤ) (by omega)
    (by have : (m : ℤ) < 2 ^ 31 := by exact_mod_cast h1
        omega), scaleFactor_val]
  have hcast : (((m : ℕ) : ℤ) : ℚ) = (m : ℚ) := by push_cast; rfl
  rw [hcast]
  have hx0 : (0 : ℚ) < (m : ℚ) * (6004799503160661 / 2251799813685248) := by positivity
  have hx1 : (m : ℚ) * (6004799503160661 / 2251799813685248) < 2 ^ 33 := by
    calc (m : ℚ) * (6004799503160661 / 2251799813685248)
        ≤ (m : ℚ) * 4 := mul_le_mul_of_nonneg_left (by norm_num) (by linarith)
      _ < 2 ^ 31 * 4 := mul_lt_mul_of_pos_right hmQ1 (by norm_num)
      _ = 2 ^ 33 := by norm_num
  have herr := f64_error _ 33 hx0 hx1
  rw [abs_le] at herr
  generalize f64 ((m : ℚ) * (6004799503160661 / 2251799813685248)) = y1 at herr ⊢
  have hy1pos : (0 : ℚ) < y1 / 6 := by
    norm_num at herr ⊢
    linarith [herr.1]
  have hy1lt : y1 / 6 < 2 ^ 31 := by
    norm_num at herr hmQ1 ⊢
    linarith [herr.2]
  have herr2 := f64_error _ 31 hy1pos hy1lt
  rw [abs_le] at herr2
  have hy0 := f64_nonneg (le_of_lt hy1pos)
  have hdm : 18 * ((8 * m + 9) / 18) + (8 * m + 9) % 18 = 8 * m + 9 := Nat.div_add_mod _ _
  have hr1 : 1 ≤ (8 * m + 9) % 18 := by omega
  have hr2 : (8 * m + 9) % 18 ≤ 17 := by omega
  have hdmQ : (18 : ℚ) * (((8 * m + 9) / 18 : Nat) : ℚ) + (((8 * m + 9) % 18 : Nat) : ℚ) =
      8 * (m : ℚ) + 9 := by exact_mod_cast hdm
  have hr1Q : (1 : ℚ) ≤ (((8 * m + 9) % 18 : Nat) : ℚ) := by exact_mod_cast hr1
  have hr2Q : (((8 * m + 9) % 18 : Nat) : ℚ) ≤ 17 := by exact_mod_cast hr2
  have hround := mathRound_eq_of_near (f64 (y1 / 6)) ((8 * m + 9) / 18) hy0
    (by norm_num at herr herr2 hmQ1 ⊢
        linarith [herr.1, herr2.1])
    (by norm_num at herr herr2 hmQ1 ⊢
        linarith [herr.2, herr2.2])
  rw [hround]
  apply floatToInt_natCast
  have : (8 * m + 9) / 18 < 2 ^ 63 := by omega
  exact_mod_cast this

theorem specRound_spread (m : Nat) :
    specRound ((m : ℚ) * (1920 / 720) / 6) = ((8 * m + 9) / 18 : Nat) := by
  unfold specRound
  rw [Int.floor_eq_iff]
  have hdm : 18 * ((8 * m + 9) / 18) + (8 * m + 9) % 18 = 8 * m + 9 := Nat.div_add_mod _ _
  have hr2 : (8 * m + 9) % 18 ≤ 17 := by omega
  have hdmQ : (18 : ℚ) * (((8 * m + 9) / 18 : Nat) : ℚ) + (((8 * m + 9) % 18 : Nat) : ℚ) =
      8 * (m : ℚ) + 9 := by exact_mod_cast hdm
  have hr0Q : (0 : ℚ) ≤ (((8 * m + 9) % 18 : Nat) : ℚ) := Nat.cast_nonneg _
  have hr2Q : (((8 * m + 9) % 18 : Nat) : ℚ) ≤ 17 := by exact_mod_cast hr2
  rw [Int.cast_natCast]
  constructor <;> linarith

theorem shadowSpread_eq_spec (sub : SubtitleConfig) (hblur : sub.ShadowBlur < 2 ^ 31) :
    shadowSpread sub = specShadowSpread sub.ShadowBlur ∧
    0 ≤ shadowSpread sub ∧ shadowSpread sub < 2 ^ 31 := by
  have key : ∀ m : Nat, 0 < m → m < 2 ^ 31 →
      floatToInt (mathRound (f64 (f64 (intToFloat (m : ℤ) * scaleFactor) / 6))) =
        specRound ((((m : Nat) : ℤ) : ℚ) * (1920 / 720) / 6) ∧
      (0 : ℤ) ≤ floatToInt (mathRound (f64 (f64 (intToFloat (m : ℤ) * scaleFactor) / 6))) ∧
      floatToInt (mathRound (f64 (f64 (intToFloat (m : ℤ) * scaleFactor) / 6))) < 2 ^ 31 := by
    intro m h0 h1
    have hc : (((m : Nat) : ℤ) : ℚ) = (m : ℚ) := by push_cast; rfl
    rw [spread_of_small m h0 h1, hc, specRound_spread]
    refine ⟨rfl, Int.natCast_nonneg _, ?_⟩
    have : (8 * m + 9) / 18 < 2 ^ 31 := by omega
    exact_mod_cast this
  unfold shadowSpread specShadowSpread shadowBlur
  by_cases hpos : sub.ShadowBlur ≤ 0
  · rw [if_pos hpos]
    exact key 12 (by norm_num) (by norm_num)
  · rw [if_neg hpos]
    obtain ⟨m, hm⟩ := Int.eq_ofNat_of_zero_le (le_of_lt (not_le.mp hpos))
    rw [hm] at hpos hblur ⊢
    exact key m (by omega) (by exact_mod_cast hblur)

theorem clampFloat_bounds (v lo hi : ℚ) (h : lo ≤ hi) :
    lo ≤ clampFloat v lo hi ∧ clampFloat v lo hi ≤ hi := by
  unfold clampFloat
  split_ifs with h1 h2
  · exact ⟨le_refl _, h⟩
  · exact ⟨h, le_refl _⟩
  · exact ⟨not_lt.mp h1, not_lt.mp h2⟩

/-- The shadow opacity lies between the float64 constants 0.2 and 0.55, and
the alpha byte printed for it between 51 (0x33) and 140 (0x8C). -/
theorem shadowOpacity_bounds (sub : SubtitleConfig) :
    f64 (1 / 5) ≤ shadowOpacity sub ∧ shadowOpacity sub ≤ f64 (11 / 20) ∧
    51 ≤ floatToInt (mathRound (f64 (shadowOpacity sub * 255))) ∧
    floatToInt (mathRound (f64 (shadowOpacity sub * 255))) ≤ 140 := by
  have hlo : f64 (1 / 5) = 3602879701896397 / 18014398509481984 := by decide!
  have hhi : f64 (11 / 20) = 2476979795053773 / 4503599627370496 := by decide!
  have hb := clampFloat_bounds (f64 (f64 (9 / 50) + f64 (intToFloat (shadowBlur sub) / 60)))
    (f64 (1 / 5)) (f64 (11 / 20)) (by rw [hlo, hhi]; norm_num)
  have h1 : f64 (1 / 5) ≤ shadowOpacity sub := hb.1
  have h2 : shadowOpacity sub ≤ f64 (11 / 20) := hb.2
  refine ⟨h1, h2, ?_, ?_⟩
  · rw [hlo] at h1
    have hx : ((51 : Nat) : ℚ) ≤ shadowOpacity sub * 255 := by
      push_cast
      linarith
    have hx2 : shadowOpacity sub * 255 < 2 ^ 53 := by
      rw [hhi] at h2
      norm_num at h2 ⊢
      linarith
    have hge := f64_ge_nat _ 51 hx hx2
    have hle : f64 (shadowOpacity sub * 255) ≤ ((141 : Nat) : ℚ) := by
      apply f64_le_nat _ _ (by norm_num)
      rw [hhi] at h2
      push_cast
      linarith
    exact floatToInt_mathRound_ge _ 51 141 (by norm_num) hge hle
  · rw [hhi] at h2
    rw [hlo] at h1
    have hpos : (0 : ℚ) < shadowOpacity sub * 255 := by linarith
    have hlt : shadowOpacity sub * 255 < 2 ^ 8 := by
      norm_num
      linarith
    have herr := f64_error _ 8 hpos hlt
    rw [abs_le] at herr
    have hnn := f64_nonneg (le_of_lt hpos)
    rw [mathRound_eq_floor _ hnn]
    have hfl : ⌊f64 (shadowOpacity sub * 255) + 1 / 2⌋₊ < 141 := by
      rw [Nat.floor_lt (by linarith)]
      norm_num at herr ⊢
      linarith [herr.2]
    rw [floatToInt_natCast _ (by omega)]
    have : ⌊f64 (shadowOpacity sub * 255) + 1 / 2⌋₊ ≤ 140 := by omega
    exact_mod_cast this

/-- The margin of the specification as a quotient of natural numbers: the
nearest integer to `4 b / 9`, where `b` is the effective shadow strength. -/
theorem specShadowSpread_val (blur : Int) :
    specShadowSpread blur =
      (((8 * (if blur ≤ 0 then 12 else blur : Int).toNat + 9) / 18 : Nat) : Int) := by
  have key : ∀ m : Nat,
      specRound ((((m : Nat) : ℤ) : ℚ) * (1920 / 720) / 6) =
        (((8 * ((m : Nat) : ℤ).toNat + 9) / 18 : Nat) : Int) := by
    intro m
    rw [Int.cast_natCast, specRound_spread, Int.toNat_ofNat]
  unfold specShadowSpread
  by_cases hpos : blur ≤ 0
  · rw [if_pos hpos]
    exact key 12
  · rw [if_neg hpos]
    obtain ⟨m, hm⟩ := Int.eq_ofNat_of_zero_le (le_of_lt (not_le.mp hpos))
    rw [hm]
    exact key m

/-- The margin of the specification is 0 for shadow strength 1 and at least 1
for every other shadow strength. -/
theorem specShadowSpread_pos (blur : Int) :
    (blur = 1 → specShadowSpread blur = 0) ∧ (blur ≠ 1 → 1 ≤ specShadowSpread blur) := by
  rw [specShadowSpread_val]
  constructor
  · intro h
    rw [h]
    decide
  · intro h
    by_cases hpos : blur ≤ 0
    · rw [if_pos hpos]
      decide
    · rw [if_neg hpos]
      have h2 : 2 ≤ blur.toNat := by omega
      have h3 : 1 ≤ (8 * blur.toNat + 9) / 18 := by omega
      exact_mod_cast h3

/-- C26 (counterexample): for the scenario cue with border radius and shadow
strength 9·10^18 the base box border is 7200000000000000000 and the spread
4000000000000000000; their sum is beyond the range of `int`, and the box
border of the shadow layer is -7246744073709551616, below that of the base
layer. For the scenario cue with shadow strength 1 the margin is
`round(0.444) = 0`, and the shadow layer and the base layer have the same
box border, 32. -/
theorem huge_shadow_border_wraps :
    isBlank hugeShadowCue = false ∧ 0 < bgOpacity hugeShadowCue ∧
    boxBorder hugeShadowCue = 7200000000000000000 ∧
    shadowSpread hugeShadowCue = 4000000000000000000 ∧
    specShadowSpread hugeShadowCue.ShadowBlur = 4000000000000000000 ∧
    shadowBorder hugeShadowCue = -7246744073709551616 ∧
    shadowBorder hugeShadowCue < boxBorder hugeShadowCue ∧
    shadowFilter asciiLib hugeShadowCue =
      "drawtext=text=\x27Hi\x27:fontfile=/usr/share/fonts/dejavu/DejaVuSans.ttf:fontsize=53" ++
      ":fontcolor=0x000000@0:box=1:boxcolor=0x0000008C:boxborderw=-7246744073709551616" ++
      ":x=(w-text_w)/2:y=(1813.33)-text_h/2+11:enable=\x27between(t,0.00,2.00)\x27" ∧
    isBlank faintShadowCue = false ∧ 0 < bgOpacity faintShadowCue ∧
    faintShadowCue.ShadowBlur = 1 ∧
    boxBorder faintShadowCue = 32 ∧
    shadowSpread faintShadowCue = 0 ∧
    specShadowSpread faintShadowCue.ShadowBlur = 0 ∧
    shadowBorder faintShadowCue = 32 ∧
    ¬ boxBorder faintShadowCue < shadowBorder faintShadowCue ∧
    buildFilters asciiLib [faintShadowCue] =
      ["drawtext=text=\x27Hi\x27:fontfile=/usr/share/fonts/dejavu/DejaVuSans.ttf:fontsize=53" ++
        ":fontcolor=0x000000@0:box=1:boxcolor=0x00000033:boxborderw=32" ++
        ":x=(w-text_w)/2:y=(1813.33)-text_h/2+11:enable=\x27between(t,0.00,2.00)\x27",
       "drawtext=text=\x27Hi\x27:fontfile=/usr/share/fonts/dejavu/DejaVuSans.ttf:fontsize=53" ++
        ":fontcolor=0xFFFFFF:box=1:boxcolor=0x000000CC:boxborderw=32" ++
        ":x=(w-text_w)/2:y=(1813.33)-text_h/2:enable=\x27between(t,0.00,2.00)\x27" ++
        ":shadowx=0:shadowy=3:shadowcolor=black@0.5"] := by
  decide!

/-- C26 (amended): for every non-blank cue with effective background opacity
above 0 whose shadow strength and border radius are below 2^31, the shadow
layer comes first among the layers of the cue; it is drawn in black (font
colour `0x000000@0`, box colour `0x000000` followed by the alpha byte); it is
offset downward by 11, which is `round(4 × 1920/720)`; its box border is the
box border of the base layer plus the margin `round(blur × (1920/720) / 6)`,
so it is never smaller than that of the base layer, it is larger whenever
the shadow strength is not 1, and equal to it when the shadow strength is 1,
where the margin is 0; and its opacity is `clampFloat(0.18 + blur/60, 0.2, 0.55)` in float64 arithmetic, so
it lies between the float64 constants 0.2 and 0.55, and the alpha byte
printed lies between 51 (0x33) and 140 (0x8C); `blur` is the shadow strength
of the cue, taken as 12 when it is not positive. -/
theorem shadow_layer_geometry (lib : GoLib) (sub : SubtitleConfig)
    (hblank : isBlank sub = false) (hop : 0 < bgOpacity sub)
    (hblur : sub.ShadowBlur < 2 ^ 31) (hradius : sub.BorderRadius < 2 ^ 31) :
    cueFilters lib sub = shadowFilter lib sub :: baseFilter lib sub :: activeFilters lib sub ∧
    shadowFilter lib sub =
      "drawtext=text=\x27" ++ escapedText sub ++ "\x27:fontfile=" ++ fontPath lib sub ++
        ":fontsize=" ++ fmtD (scaledFontSize sub) ++
        ":fontcolor=0x000000@0:box=1:boxcolor=0x000000" ++
        fmtX02 (floatToInt (mathRound (f64 (shadowOpacity sub * 255)))) ++
        ":boxborderw=" ++ fmtD (boxBorder sub + specShadowSpread sub.ShadowBlur) ++
        ":x=(w-text_w)/2:y=" ++ yExpr lib sub ++ "+11:" ++ enableExpr sub ∧
    (∃ pre post : String,
      baseFilter lib sub = pre ++ ":boxborderw=" ++ fmtD (boxBorder sub) ++ post) ∧
    shadowBorder sub = boxBorder sub + specShadowSpread sub.ShadowBlur ∧
    0 ≤ specShadowSpread sub.ShadowBlur ∧
    boxBorder sub ≤ shadowBorder sub ∧
    (sub.ShadowBlur ≠ 1 →
      1 ≤ specShadowSpread sub.ShadowBlur ∧ boxBorder sub < shadowBorder sub) ∧
    (sub.ShadowBlur = 1 →
      specShadowSpread sub.ShadowBlur = 0 ∧ shadowBorder sub = boxBorder sub) ∧
    shadowYOffset = 11 ∧ specRound (4 * (1920 / 720)) = 11 ∧
    shadowOpacity sub =
      clampFloat
        (f64 (f64 (9 / 50) +
          f64 (intToFloat (if sub.ShadowBlur ≤ 0 then 12 else sub.ShadowBlur) / 60)))
        (f64 (1 / 5)) (f64 (11 / 20)) ∧
    f64 (1 / 5) ≤ shadowOpacity sub ∧ shadowOpacity sub ≤ f64 (11 / 20) ∧
    51 ≤ floatToInt (mathRound (f64 (shadowOpacity sub * 255))) ∧
    floatToInt (mathRound (f64 (shadowOpacity sub * 255))) ≤ 140 := by
  obtain ⟨hs1, hs2, hs3⟩ := shadowSpread_eq_spec sub hblur
  obtain ⟨hb1, hb2⟩ := boxBorder_bounds sub hradius
  obtain ⟨ho1, ho2, ho3, ho4⟩ := shadowOpacity_bounds sub
  have hoff : shadowYOffset = 11 := by decide!
  have hborder : shadowBorder sub = boxBorder sub + specShadowSpread sub.ShadowBlur := by
    unfold shadowBorder
    rw [wrapInt_of_small _ (by omega) (by omega), hs1]
  have hnn : 0 ≤ specShadowSpread sub.ShadowBlur := by rw [← hs1]; exact hs2
  obtain ⟨hone, hother⟩ := specShadowSpread_pos sub.ShadowBlur
  refine ⟨?_, ?_, ?_, hborder, hnn, by rw [hborder]; omega,
    fun h => ⟨hother h, by rw [hborder]; have := hother h; omega⟩,
    fun h => ⟨hone h, by rw [hborder, hone h, add_zero]⟩, hoff, by decide!, rfl, ho1, ho2,
    ho3, ho4⟩
  · rw [cueFilters_of_not_blank lib sub hblank]
    unfold shadowFilters
    rw [if_pos hop]
    rfl
  · have h1 : ":fontcolor=0x000000@0:box=1:boxcolor=0x000000" =
        ":fontcolor=0x000000@0:box=1:boxcolor=" ++ "0x000000" := by decide
    have h2 : ":x=(w-text_w)/2:y=" = ":x=" ++ ("(w-text_w)/2" ++ ":y=") := by decide
    have h3 : "+11:" = "+" ++ (fmtD 11 ++ ":") := by decide
    rw [h1, h2, h3]
    simp only [shadowFilter, shadowColor, xExpr, hborder, hoff, String.append_assoc]
  · exact
      ⟨"drawtext=text=\x27" ++ escapedText sub ++ "\x27:fontfile=" ++ fontPath lib sub ++
        ":fontsize=" ++ fmtD (scaledFontSize sub) ++ ":fontcolor=" ++ textColor lib sub ++
        ":box=1:boxcolor=" ++ bgColorHex lib sub,
      ":x=" ++ xExpr ++ ":y=" ++ yExpr lib sub ++ ":" ++ enableExpr sub ++
        ":shadowx=" ++ fmtD 0 ++ ":shadowy=" ++ fmtD textShadowY ++ ":shadowcolor=" ++
        "black@0.5", by simp only [baseFilter, String.append_assoc]⟩

/-- C26 (witness): the scenario cue with border radius 8 and shadow strength
30: base border 38, spread 13, shadow border 51, alpha byte 0x8C. -/
theorem shadow_layer_geometry_witness :
    isBlank softShadowCue = false ∧ 0 < bgOpacity softShadowCue ∧
    softShadowCue.ShadowBlur < 2 ^ 31 ∧ softShadowCue.BorderRadius < 2 ^ 31 ∧
    boxBorder softShadowCue = 38 ∧ specShadowSpread softShadowCue.ShadowBlur = 13 ∧
    shadowBorder softShadowCue = boxBorder softShadowCue +
      specShadowSpread softShadowCue.ShadowBlur ∧
    shadowBorder softShadowCue = 51 ∧
    shadowFilter asciiLib softShadowCue =
      "drawtext=text=\x27Hi\x27:fontfile=/usr/share/fonts/dejavu/DejaVuSans.ttf:fontsize=53" ++
      ":fontcolor=0x000000@0:box=1:boxcolor=0x0000008C:boxborderw=51" ++
      ":x=(w-text_w)/2:y=(1813.33)-text_h/2+11:enable=\x27between(t,0.00,2.00)\x27" :=
  ⟨by decide, by decide!, by decide, by decide, by decide!, by decide!,
    (shadow_layer_geometry asciiLib softShadowCue (by decide) (by decide!) (by decide)
      (by decide)).2.2.2.1, by decide!, by decide!⟩

/-- The conversion to `int` of a non-negative value below 2^63 is its integer
part. -/
theorem floatToInt_of_nonneg (y : ℚ) (hy : 0 ≤ y) (h : y < 2 ^ 63) : floatToInt y = ⌊y⌋ := by
  have hnum : 0 ≤ y.num := Rat.num_nonneg.mpr hy
  have hfl0 : (0 : ℤ) ≤ ⌊y⌋ := Int.floor_nonneg.mpr hy
  have hfl1 : ⌊y⌋ < 2 ^ 63 := by
    rw [Int.floor_lt]
    exact_mod_cast h
  unfold floatToInt
  simp only []
  rw [Int.tdiv_eq_ediv hnum (Int.natCast_nonneg _), ← Rat.floor_def, if_pos ⟨by omega, hfl1⟩]

theorem fmtX02_isHexByte (n : Int) (h0 : 0 ≤ n) (h1 : n ≤ 255) : isHexByte (fmtX02 n) = true := by
  have hall : ∀ k : Nat, k < 256 → isHexByte (fmtX02 (k : ℤ)) = true := by decide!
  obtain ⟨k, rfl⟩ := Int.eq_ofNat_of_zero_le h0
  exact hall k (by omega)

/-- C27 (counterexample): the opacity 282578800148737/2^56 is the float64
nearest to 1/255 and lies in [0,1]. Its exact product with 255 is below 1,
with integer part 0; the float64 product is 1, and the alpha byte printed is
`01`, not `00`. -/
theorem alpha_byte_not_exact_floor :
    f64 (1 / 255) = 282578800148737 / 72057594037927936 ∧
    0 ≤ f64 (1 / 255) ∧ f64 (1 / 255) ≤ 1 ∧
    f64 (1 / 255) * 255 < 1 ∧ ⌊f64 (1 / 255) * 255⌋ = 0 ∧
    f64 (f64 (1 / 255) * 255) = 1 ∧
    parseColorWithAlpha asciiLib "#FF0000" (f64 (1 / 255)) = "0xFF000001" ∧
    "0xFF0000" ++ fmtX02 ⌊f64 (1 / 255) * 255⌋ = "0xFF000000" := by
  decide!

/-- C27 (amended): hex colours are normalised to the numeric form of the
renderer. For every text `h` (in particular six hexadecimal digits) and every
default `d`, `parseColorToFFmpeg` turns `#h` into `0xh`, and an empty colour
resolves as the default colour does. For every opacity `o` in [0,1],
`parseColorWithAlpha` turns `#h` into `0xh` followed by the integer part of
the float64 product `o × 255`, a number between 0 and 255 written as exactly
two upper-case hexadecimal digits: `00` for `o = 0`, `FF` for `o = 1`. That
number is the integer part of the exact product, or one more when the float64
product rounds up to the next integer. -/
theorem hex_colour_normalised (lib : GoLib) (h d : String) (o : ℚ) (ho0 : 0 ≤ o)
    (ho1 : o ≤ 1) :
    parseColorToFFmpeg lib ("#" ++ h) d = "0x" ++ h ∧
    parseColorToFFmpeg lib "" d = parseColorToFFmpeg lib d d ∧
    parseColorWithAlpha lib ("#" ++ h) o = "0x" ++ h ++ fmtX02 ⌊f64 (o * 255)⌋ ∧
    0 ≤ ⌊f64 (o * 255)⌋ ∧ ⌊f64 (o * 255)⌋ ≤ 255 ∧
    isHexByte (fmtX02 ⌊f64 (o * 255)⌋) = true ∧
    ⌊o * 255⌋ ≤ ⌊f64 (o * 255)⌋ ∧ ⌊f64 (o * 255)⌋ ≤ ⌊o * 255⌋ + 1 ∧
    parseColorWithAlpha lib ("#" ++ h) 0 = "0x" ++ h ++ "00" ∧
    parseColorWithAlpha lib ("#" ++ h) 1 = "0x" ++ h ++ "FF" := by
  have hrgba : stringsStartsWith ("#" ++ h) "rgba" = false := rfl
  have hhash : stringsStartsWith ("#" ++ h) "#" = true := by
    unfold stringsStartsWith
    rw [String.data_append]
    exact List.isPrefixOf_iff_prefix.mpr (List.prefix_append _ _)
  have hdrop : stringsDropStart ("#" ++ h) "#" = h := by
    unfold stringsDropStart
    rw [if_pos hhash]
    rfl
  have hne : "#" ++ h ≠ "" := by
    intro hc
    have hlen := congrArg String.length hc
    rw [String.length_append] at hlen
    have h1 : "#".length = 1 := by decide
    have h0 : "".length = 0 := by decide
    omega
  have halpha : ∀ x : ℚ, parseColorWithAlpha lib ("#" ++ h) x =
      "0x" ++ h ++ fmtX02 (floatToInt (f64 (x * 255))) := by
    intro x
    unfold parseColorWithAlpha
    simp only [hrgba, hhash, hdrop, Bool.false_eq_true, if_false, if_true]
  have hx0 : 0 ≤ o * 255 := by positivity
  have hx1 : o * 255 ≤ ((255 : Nat) : ℚ) := by
    push_cast
    linarith
  have hf0 : 0 ≤ f64 (o * 255) := f64_nonneg hx0
  have hf1 : f64 (o * 255) ≤ ((255 : Nat) : ℚ) := f64_le_nat _ 255 (by norm_num) hx1
  have hconv : floatToInt (f64 (o * 255)) = ⌊f64 (o * 255)⌋ :=
    floatToInt_of_nonneg _ hf0 (by push_cast at hf1; norm_num; linarith)
  have hfl0 : 0 ≤ ⌊f64 (o * 255)⌋ := Int.floor_nonneg.mpr hf0
  have hfl1 : ⌊f64 (o * 255)⌋ ≤ 255 := by
    have : ⌊f64 (o * 255)⌋ ≤ ⌊(((255 : Nat) : ℤ) : ℚ)⌋ := Int.floor_mono (by push_cast at hf1 ⊢; exact hf1)
    rw [Int.floor_intCast] at this
    exact_mod_cast this
  refine ⟨?_, ?_, ?_, hfl0, hfl1, fmtX02_isHexByte _ hfl0 hfl1, ?_, ?_, ?_, ?_⟩
  · unfold parseColorToFFmpeg
    simp only [hne, hhash, hdrop, if_false, if_true]
  · unfold parseColorToFFmpeg
    by_cases hd : d = ""
    · simp only [hd, if_true]
    · simp only [hd, if_true, if_false]
  · rw [halpha, hconv]
  · -- the integer part of the exact product is on the grid
    obtain ⟨m, hm⟩ := Int.eq_ofNat_of_zero_le (Int.floor_nonneg.mpr hx0)
    rw [hm]
    have hle : ((m : Nat) : ℚ) ≤ o * 255 := by
      have := Int.floor_le (o * 255)
      rw [hm] at this
      exact_mod_cast this
    have hge := f64_ge_nat (o * 255) m hle (by push_cast at hx1; norm_num; linarith)
    exact Int.le_floor.mpr (by exact_mod_cast hge)
  · obtain ⟨m, hm⟩ := Int.eq_ofNat_of_zero_le (Int.floor_nonneg.mpr hx0)
    rw [hm]
    have hlt : o * 255 < ((m + 1 : Nat) : ℚ) := by
      have := Int.lt_floor_add_one (o * 255)
      rw [hm] at this
      exact_mod_cast this
    have hm255 : m ≤ 255 := by
      have : ⌊o * 255⌋ ≤ ⌊(((255 : Nat) : ℤ) : ℚ)⌋ :=
        Int.floor_mono (by push_cast at hx1 ⊢; exact hx1)
      rw [Int.floor_intCast, hm] at this
      exact_mod_cast this
    have hle := f64_le_nat (o * 255) (m + 1)
      (by have : ((m + 1 : Nat) : ℚ) ≤ 256 := by exact_mod_cast Nat.succ_le_succ hm255
          norm_num at this ⊢
          linarith) (le_of_lt hlt)
    have : ⌊f64 (o * 255)⌋ ≤ ⌊(((m + 1 : Nat) : ℤ) : ℚ)⌋ :=
      Int.floor_mono (by push_cast at hle ⊢; exact hle)
    rw [Int.floor_intCast] at this
    exact_mod_cast this
  · rw [halpha]
    have : fmtX02 (floatToInt (f64 ((0 : ℚ) * 255))) = "00" := by decide!
    rw [this]
  · rw [halpha]
    have : fmtX02 (floatToInt (f64 ((1 : ℚ) * 255))) = "FF" := by decide!
    rw [this]

/-- C27 (witness): red at opacity 1/2. -/
theorem hex_colour_normalised_witness :
    (0 : ℚ) ≤ 1 / 2 ∧ (1 / 2 : ℚ) ≤ 1 ∧
    parseColorToFFmpeg asciiLib ("#" ++ "FF0000") "#FFFFFF" = "0x" ++ "FF0000" ∧
    parseColorWithAlpha asciiLib "#FF0000" (1 / 2) = "0xFF00007F" ∧
    ⌊f64 ((1 / 2 : ℚ) * 255)⌋ = 127 :=
  ⟨by norm_num, by norm_num,
    (hex_colour_normalised asciiLib "FF0000" "#FFFFFF" (1 / 2) (by norm_num) (by norm_num)).1,
    by decide!, by decide!⟩

/-! ## Filter chain, output names and font table: theorems -/

theorem buildFilters_of_all_blank (lib : GoLib) (subs : List SubtitleConfig)
    (h : ∀ c ∈ subs, isBlank c = true) : buildFilters lib subs = [] := by
  rw [buildFilters_eq_flatMap]
  induction subs with
  | nil => rfl
  | cons c cs ih =>
    rw [List.flatMap_cons, cueFilters_of_blank lib c (h c (List.mem_cons_self _ _)),
      ih (fun x hx => h x (List.mem_cons_of_mem _ hx)), List.nil_append]

/-- C28 (code defect): for a clip whose cue list is not empty but holds only
cues with a blank text, the subtitle chain is empty and the filter argument
that `CreateClip` hands to the engine is the scale-and-crop chain followed by
a comma: it ends with a comma, that is, with an empty filter element. This
holds for every such cue list; for the render request of the window 0 s to
5 s with one blank cue the engine is run with
`-vf scale=-1:1920,crop=min(iw\,1080):1920,`. -/
theorem createClip_blank_cues_trailing_comma :
    (∀ (lib : GoLib) (clip : Clip) (inputPath outputPath : String),
      clip.Subtitles ≠ [] → (∀ c ∈ clip.Subtitles, isBlank c = true) →
      buildSubtitlesFilter lib clip.Subtitles = "" ∧
      (createClipArgs lib clip inputPath outputPath)[7]? = some "-vf" ∧
      (createClipArgs lib clip inputPath outputPath)[8]? = some (scaleCrop ++ ",")) ∧
    blankOnlyClip.Subtitles = [blankCue] ∧ isBlank blankCue = true ∧
    (demoService.CreateClip asciiLib demoSys demoVideo blankOnlyClip).effects =
      [.exec "ffmpeg"
        ["-y", "-ss", "0.00", "-i", "/srv/storage/videos/v1.mp4", "-t", "5.00", "-vf",
          "scale=-1:1920,crop=min(iw\\,1080):1920,", "-s", "1080x1920", "-c:v", "libx264",
          "-preset", "medium", "-crf", "18", "-pix_fmt", "yuv420p", "-c:a", "aac",
          "-b:a", "192k", "-movflags", "+faststart", "../storage/clips/c1.mp4"]] ∧
    (demoService.CreateClip asciiLib demoSys demoVideo subtitledClip).effects =
      [.exec "ffmpeg"
        ["-y", "-ss", "0.00", "-i", "/srv/storage/videos/v1.mp4", "-t", "5.00", "-vf",
          "scale=-1:1920,crop=min(iw\\,1080):1920," ++ buildSubtitlesFilter asciiLib [hiCue],
          "-s", "1080x1920", "-c:v", "libx264",
          "-preset", "medium", "-crf", "18", "-pix_fmt", "yuv420p", "-c:a", "aac",
          "-b:a", "192k", "-movflags", "+faststart", "../storage/clips/c1.mp4"]] := by
  refine ⟨?_, rfl, by decide, by decide!, by decide!⟩
  intro lib clip inputPath outputPath hne hblank
  have hfilter : buildSubtitlesFilter lib clip.Subtitles = "" := by
    unfold buildSubtitlesFilter
    rw [buildFilters_of_all_blank lib _ hblank]
    rfl
  have hlen : clip.Subtitles.length > 0 := List.length_pos.mpr hne
  refine ⟨hfilter, ?_, ?_⟩
  · unfold createClipArgs
    simp only [hlen, if_true]
    rfl
  · unfold createClipArgs
    simp only [hlen, if_true, hfilter]
    rfl

theorem ite_ne_of {c : Prop} [Decidable c] {a b x : Char} (ha : a ≠ x) (hb : b ≠ x) :
    (if c then a else b) ≠ x := by
  split_ifs
  · exact ha
  · exact hb

theorem digitChar_ne_dash (m : Nat) : Nat.digitChar m ≠ '-' := by
  unfold Nat.digitChar
  repeat' apply ite_ne_of
  all_goals decide

theorem toDigitsCore_no_dash (f n : Nat) (ds : List Char) (h : ∀ c ∈ ds, c ≠ '-') :
    ∀ c ∈ Nat.toDigitsCore 10 f n ds, c ≠ '-' := by
  induction f generalizing n ds with
  | zero => exact h
  | succ f ih =>
    have hds : ∀ c ∈ Nat.digitChar (n % 10) :: ds, c ≠ '-' := by
      intro c hc
      rcases List.mem_cons.mp hc with h1 | h1
      · rw [h1]
        exact digitChar_ne_dash _
      · exact h c h1
    unfold Nat.toDigitsCore
    simp only []
    split_ifs
    · exact hds
    · exact ih _ _ hds

theorem toDigitsCore_ne_nil (f n : Nat) (ds : List Char) (h : ds ≠ []) :
    Nat.toDigitsCore 10 f n ds ≠ [] := by
  induction f generalizing n ds with
  | zero => exact h
  | succ f ih =>
    unfold Nat.toDigitsCore
    simp only []
    split_ifs
    · exact List.cons_ne_nil _ _
    · exact ih _ _ (List.cons_ne_nil _ _)

/-- The decimal digits of a natural number: at least one, none a dash. -/
theorem natToString_digits (n : Nat) :
    (toString n).data ≠ [] ∧ ∀ c ∈ (toString n).data, c ≠ '-' := by
  have hd : (toString n).data = Nat.toDigits 10 n := rfl
  rw [hd]
  unfold Nat.toDigits
  constructor
  · unfold Nat.toDigitsCore
    simp only []
    split_ifs
    · exact List.cons_ne_nil _ _
    · exact toDigitsCore_ne_nil _ _ _ (List.cons_ne_nil _ _)
  · exact toDigitsCore_no_dash _ _ _ (fun c hc => absurd hc (List.not_mem_nil _))

/-- Two texts without a dash, each followed by a dash and a rest, agree when
the whole texts agree. -/
theorem split_at_dash (d d2 r r2 : List Char) (hd : ∀ c ∈ d, c ≠ '-')
    (hd2 : ∀ c ∈ d2, c ≠ '-') (h : d ++ '-' :: r = d2 ++ '-' :: r2) : d = d2 ∧ r = r2 := by
  induction d generalizing d2 with
  | nil =>
    cases d2 with
    | nil => exact ⟨rfl, List.tail_eq_of_cons_eq h⟩
    | cons y ys =>
      have hy : y = '-' := (List.head_eq_of_cons_eq h).symm
      exact absurd hy (hd2 y (List.mem_cons_self _ _))
  | cons x xs ih =>
    cases d2 with
    | nil =>
      have hx : x = '-' := List.head_eq_of_cons_eq h
      exact absurd hx (hd x (List.mem_cons_self _ _))
    | cons y ys =>
      have hxy : x = y := List.head_eq_of_cons_eq h
      have ht : xs ++ '-' :: r = ys ++ '-' :: r2 := List.tail_eq_of_cons_eq h
      obtain ⟨h1, h2⟩ := ih ys (fun c hc => hd c (List.mem_cons_of_mem _ hc))
        (fun c hc => hd2 c (List.mem_cons_of_mem _ hc)) ht
      exact ⟨by rw [hxy, h1], h2⟩

/-- A number printed by `%.0f` and followed by a dash ends at that dash. -/
theorem fmtF0_split (x y : ℚ) (r r2 : List Char)
    (h : (fmtF0 x).data ++ '-' :: r = (fmtF0 y).data ++ '-' :: r2) :
    fmtF0 x = fmtF0 y ∧ r = r2 := by
  obtain ⟨hxne, hxd⟩ := natToString_digits (units x)
  obtain ⟨hyne, hyd⟩ := natToString_digits (units y)
  unfold fmtF0 at h ⊢
  by_cases hx : x < 0 <;> by_cases hy : y < 0
  · simp only [hx, hy, if_true, String.data_append] at h ⊢
    rw [List.append_assoc, List.append_assoc] at h
    have h1 : (toString (units x)).data ++ '-' :: r = (toString (units y)).data ++ '-' :: r2 :=
      List.tail_eq_of_cons_eq h
    obtain ⟨h2, h3⟩ := split_at_dash _ _ _ _ hxd hyd h1
    exact ⟨by rw [String.ext h2], h3⟩
  · exfalso
    simp only [hx, hy, if_true, if_false, String.data_append] at h
    rw [List.append_assoc, List.append_assoc] at h
    cases hdy : (toString (units y)).data with
    | nil => exact hyne hdy
    | cons c cs =>
      rw [hdy] at h
      have hc : '-' = c := List.head_eq_of_cons_eq h
      exact hyd c (by rw [hdy]; exact List.mem_cons_self _ _) hc.symm
  · exfalso
    simp only [hx, hy, if_true, if_false, String.data_append] at h
    rw [List.append_assoc, List.append_assoc] at h
    cases hdx : (toString (units x)).data with
    | nil => exact hxne hdx
    | cons c cs =>
      rw [hdx] at h
      have hc : c = '-' := List.head_eq_of_cons_eq h
      exact hxd c (by rw [hdx]; exact List.mem_cons_self _ _) hc
  · simp only [hx, hy, if_false, String.data_append] at h ⊢
    rw [List.append_assoc, List.append_assoc] at h
    obtain ⟨h2, h3⟩ := split_at_dash _ _ _ _ hxd hyd h
    exact ⟨by rw [String.ext h2], h3⟩

/-- C29 (counterexample): for the same video, the windows from 1 s to 5 s
and from 1.25 s to 5 s are different, and both are written to
`v1_raw_1-5.mp4`. -/
theorem extract_windows_collide :
    ((1 : ℚ), (5 : ℚ)) ≠ ((5 / 4 : ℚ), (5 : ℚ)) ∧
    extractFilename "v1" 1 5 = "v1_raw_1-5.mp4" ∧
    extractFilename "v1" (5 / 4) 5 = "v1_raw_1-5.mp4" ∧
    (demoService.ExtractClipOnly demoSys none "/srv/storage/videos/v1.mp4" "v1" 1 5).2 =
      .ok "../storage/clips/v1_raw_1-5.mp4" ∧
    (demoService.ExtractClipOnly demoSys none "/srv/storage/videos/v1.mp4" "v1" (5 / 4) 5).2 =
      .ok "../storage/clips/v1_raw_1-5.mp4" := by
  decide!

/-- C29 (amended): the output path of `ExtractClipOnly` is the clips
directory joined with the file name `<video id>_raw_<start>-<end>.mp4`, where
the two times are printed by `%.0f`, that is, rounded to whole seconds. For
the same video id, two requests get the same file name exactly when their
start times print the same and their end times print the same; so windows
that differ after rounding to whole seconds get different names, and windows
that agree after rounding share one file. -/
theorem extract_output_name (s : ProcessingService) (w : Sys) (mkdirErr : Option String)
    (inputPath videoID : String) (start1 end1 start2 end2 : ℚ) :
    (∀ out : String,
      (s.ExtractClipOnly w mkdirErr inputPath videoID start1 end1).2 = .ok out →
      out = w.pathJoin [w.pathJoin [s.storagePath, "clips"],
        extractFilename videoID start1 end1]) ∧
    extractFilename videoID start1 end1 =
      videoID ++ "_raw_" ++ fmtF0 start1 ++ "-" ++ fmtF0 end1 ++ ".mp4" ∧
    (extractFilename videoID start1 end1 = extractFilename videoID start2 end2 ↔
      fmtF0 start1 = fmtF0 start2 ∧ fmtF0 end1 = fmtF0 end2) ∧
    (units start1 = units start2 → units end1 = units end2 →
      (start1 < 0 ↔ start2 < 0) → (end1 < 0 ↔ end2 < 0) →
      extractFilename videoID start1 end1 = extractFilename videoID start2 end2) := by
  refine ⟨?_, rfl, ⟨?_, ?_⟩, ?_⟩
  · intro out hout
    unfold ProcessingService.ExtractClipOnly at hout
    cases mkdirErr with
    | some err => cases hout
    | none =>
      simp only [] at hout
      by_cases h1 : w.notExist inputPath = true
      · rw [if_pos h1] at hout
        cases hout
      · rw [if_neg h1] at hout
        rcases hrun : w.run s.ffmpegPath
          (extractClipArgs inputPath
            (w.pathJoin [w.pathJoin [s.storagePath, "clips"],
              extractFilename videoID start1 end1]) start1 end1) with ⟨o, _ | err⟩
        · rw [hrun] at hout
          exact (Except.ok.inj hout).symm
        · rw [hrun] at hout
          cases hout
  · intro h
    unfold extractFilename at h
    have hdata := congrArg String.data h
    simp only [String.data_append, List.append_assoc] at hdata
    have h1 := List.append_cancel_left (List.append_cancel_left hdata)
    obtain ⟨h2, h3⟩ := fmtF0_split start1 start2 _ _ h1
    exact ⟨h2, String.ext (List.append_cancel_right h3)⟩
  · rintro ⟨h1, h2⟩
    unfold extractFilename
    rw [h1, h2]
  · intro hs he hss hes
    unfold extractFilename fmtF0
    rw [hs, he]
    simp only [hss, hes]

/-- Windows that print differently under `%.0f`: the requests from 1 s to
5 s and from 2.5 s to 7 s, written to `v1_raw_1-5.mp4` and `v1_raw_2-7.mp4`. -/
theorem extract_output_name_example :
    extractFilename "v1" 1 5 = "v1_raw_1-5.mp4" ∧
    extractFilename "v1" (5 / 2) 7 = "v1_raw_2-7.mp4" ∧
    extractFilename "v1" (-1 / 2) (1 / 2) = "v1_raw_-0-0.mp4" := by
  decide!

theorem bestVariant_mem (variants : List fontVariant) (target : Int) (hne : variants ≠ []) :
    ∃ v ∈ variants, bestVariant variants target = v.path := by
  have hfold : ∀ (l : List fontVariant) (st : String × Int),
      (∃ v ∈ variants, st.1 = v.path) → (∀ v ∈ l, v ∈ variants) →
      ∃ v ∈ variants, (l.foldl (bestStep target) st).1 = v.path := by
    intro l
    induction l with
    | nil => exact fun st h _ => h
    | cons x xs ih =>
      intro st hst hsub
      rw [List.foldl_cons]
      apply ih
      · unfold bestStep
        simp only []
        split_ifs
        · exact ⟨x, hsub x (List.mem_cons_self _ _), rfl⟩
        · exact hst
      · exact fun v hv => hsub v (List.mem_cons_of_mem _ hv)
  cases variants with
  | nil => exact absurd rfl hne
  | cons v0 vs =>
    unfold bestVariant
    simp only []
    exact hfold (v0 :: vs) (v0.path, maxInt32) ⟨v0, List.mem_cons_self _ _, rfl⟩
      (fun v hv => hv)

/-- C30: `resolveFontPath` always returns a font resource from its table. For
every family string, weight and flag, the normalised family is a key of
`fontLibrary`, its table is not empty (so the fallback branch for an empty
table is never taken), and the path returned is the path of one of the
entries of that table; it is never the empty string. -/
theorem resolveFontPath_in_table (lib : GoLib) (fontFamily : String) (weight : Int)
    (bold : Bool) :
    fontLibraryHas (normaliseFamily lib fontFamily) = true ∧
    fontLibraryAt (normaliseFamily lib fontFamily) ≠ [] ∧
    (∃ v ∈ fontLibraryAt (normaliseFamily lib fontFamily),
      resolveFontPath lib fontFamily weight bold = v.path) ∧
    resolveFontPath lib fontFamily weight bold ≠ "" := by
  have hhas := fontLibraryHas_normaliseFamily lib fontFamily
  have hne := fontLibraryAt_ne_nil_of_has _ hhas
  have hmem : ∃ v ∈ fontLibraryAt (normaliseFamily lib fontFamily),
      resolveFontPath lib fontFamily weight bold = v.path := by
    unfold resolveFontPath
    exact bestVariant_mem _ _ hne
  refine ⟨hhas, hne, hmem, ?_⟩
  obtain ⟨v, hv, hp⟩ := hmem
  rw [hp]
  have hall : ∀ p ∈ fontLibrary, ∀ x ∈ p.2, x.path ≠ "" := by decide
  unfold fontLibraryAt at hv
  cases hl : fontLibrary.lookup (normaliseFamily lib fontFamily) with
  | none =>
    rw [hl] at hv
    exact absurd hv (List.not_mem_nil _)
  | some t =>
    rw [hl] at hv
    obtain ⟨k0, hk0⟩ := lookup_some_mem _ _ _ hl
    exact hall (k0, t) hk0 v hv

end Shortia
